import Mathlib

/-!
Verification development for the options-analytics engine of the
diamond-warehouse-collector repository (src/core/calculations.py and
src/core/term_structure.py), against its natural-language specification.

Modelling conventions (shallow embedding):
* A pandas `DataFrame` is a column-name list plus a list of rows
  (`DF` below); each cell is a `Val` (finite float as `ℚ`, `NaN`/`None`/`NaT`
  as `null`, strings as code-point lists, datetimes as day numbers, booleans).
* Code that can raise (column access on a missing column, type errors in
  column arithmetic) runs in `Except Err`.
* Column names are code-point lists (`List Nat`); pandas
  `.str.strip().str.lower()` is modelled by `canonName` over ASCII codes.
-/

/-- Code points of a string, used for column names and string cells. -/
def codes (s : String) : List Nat := s.data.map Char.toNat

/-- Whitespace recognizer for `str.strip` (ASCII whitespace). -/
def isSpaceCode (n : Nat) : Bool :=
  decide (n = 32 ∨ n = 9 ∨ n = 10 ∨ n = 13 ∨ n = 11 ∨ n = 12)

/-- ASCII lower-casing of one code point (models `str.lower`). -/
def lowerCode (n : Nat) : Nat := if 65 ≤ n ∧ n ≤ 90 then n + 32 else n

/-- ASCII upper-casing of one code point (models `str.upper`). -/
def upperCode (n : Nat) : Nat := if 97 ≤ n ∧ n ≤ 122 then n - 32 else n

/-- Drop leading whitespace codes (the leading half of `str.strip`). -/
def stripLead : List Nat → List Nat
  | [] => []
  | c :: rest => if isSpaceCode c then stripLead rest else c :: rest

/-- `str.strip`: drop whitespace from both ends. -/
def stripCodes (s : List Nat) : List Nat :=
  ((stripLead s).reverse |> stripLead).reverse

/-- Column-name canonicalization `.str.strip().str.lower()`. -/
def canonName (s : List Nat) : List Nat := (stripCodes s).map lowerCode

theorem lowerCode_idem (n : Nat) : lowerCode (lowerCode n) = lowerCode n := by
  simp only [lowerCode]
  by_cases h : 65 ≤ n ∧ n ≤ 90
  · rw [if_pos h, if_neg (by omega)]
  · rw [if_neg h, if_neg h]

theorem upperCode_idem (n : Nat) : upperCode (upperCode n) = upperCode n := by
  simp only [upperCode]
  by_cases h : 97 ≤ n ∧ n ≤ 122
  · rw [if_pos h, if_neg (by omega)]
  · rw [if_neg h, if_neg h]

theorem isSpaceCode_lowerCode (n : Nat) : isSpaceCode (lowerCode n) = isSpaceCode n := by
  simp only [lowerCode]
  by_cases h : 65 ≤ n ∧ n ≤ 90
  · rw [if_pos h]
    simp only [isSpaceCode, decide_eq_decide]
    omega
  · rw [if_neg h]

theorem isSpaceCode_upperCode (n : Nat) : isSpaceCode (upperCode n) = isSpaceCode n := by
  simp only [upperCode]
  by_cases h : 97 ≤ n ∧ n ≤ 122
  · rw [if_pos h]
    simp only [isSpaceCode, decide_eq_decide]
    omega
  · rw [if_neg h]

theorem stripLead_idem (l : List Nat) : stripLead (stripLead l) = stripLead l := by
  induction l with
  | nil => rfl
  | cons c rest ih =>
    by_cases h : isSpaceCode c = true
    · simp [stripLead, h, ih]
    · simp [stripLead, h]

/-- The head of `stripLead l` is not whitespace (when nonempty). -/
theorem stripLead_head (l : List Nat) :
    stripLead l = [] ∨ ∃ a t, stripLead l = a :: t ∧ isSpaceCode a = false := by
  induction l with
  | nil => exact Or.inl rfl
  | cons c rest ih =>
    by_cases h : isSpaceCode c = true
    · simpa [stripLead, h] using ih
    · exact Or.inr ⟨c, rest, by simp [stripLead, h], by simpa using h⟩

/-- `stripLead` fixes a list whose head is not whitespace. -/
theorem stripLead_fix (l : List Nat)
    (h : l = [] ∨ ∃ a t, l = a :: t ∧ isSpaceCode a = false) : stripLead l = l := by
  rcases h with h | ⟨a, t, rfl, ha⟩
  · simp [h, stripLead]
  · simp [stripLead, ha]

/-- `stripLead` only removes a prefix: the result is a suffix (`drop`). -/
theorem stripLead_eq_drop (l : List Nat) : ∃ k, stripLead l = l.drop k := by
  induction l with
  | nil => exact ⟨0, rfl⟩
  | cons c rest ih =>
    by_cases h : isSpaceCode c = true
    · obtain ⟨k, hk⟩ := ih
      exact ⟨k + 1, by simp [stripLead, h, hk]⟩
    · exact ⟨0, by simp [stripLead, h]⟩

/-- After `stripLead`, trimming the reversed tail leaves the head untouched:
the doubly-trimmed list again has a non-whitespace head (or is empty). -/
theorem stripLead_of_rtrim (m : List Nat) :
    stripLead ((stripLead (stripLead m).reverse).reverse) =
      (stripLead (stripLead m).reverse).reverse := by
  apply stripLead_fix
  rcases stripLead_eq_drop (stripLead m).reverse with ⟨k, hk⟩
  rw [hk]
  rcases stripLead_head m with hm | ⟨a, t, ha, hna⟩
  · left; simp [hm]
  · rw [ha]
    by_cases hge : (a :: t).length ≤ k
    · left
      rw [List.drop_eq_nil_of_le (by simpa using hge), List.reverse_nil]
    · right
      have h1 : ((a :: t).reverse.drop k).reverse = (a :: t).take ((a :: t).length - k) := by
        rw [List.reverse_drop]
        simp
      rw [h1]
      have hlen : (a :: t).length - k = ((a :: t).length - k - 1) + 1 := by
        simp only [List.length_cons] at hge ⊢
        omega
      rw [hlen, List.take_succ_cons]
      exact ⟨a, _, rfl, hna⟩

theorem stripCodes_idem (l : List Nat) : stripCodes (stripCodes l) = stripCodes l := by
  show (stripLead ((stripLead (stripCodes l)).reverse)).reverse = stripCodes l
  have h1 : stripLead (stripCodes l) = stripCodes l := stripLead_of_rtrim l
  rw [h1]
  show (stripLead ((stripLead ((stripLead l).reverse)).reverse).reverse).reverse = _
  rw [List.reverse_reverse, stripLead_idem]
  rfl

/-- A list of codes that does not start with whitespace (or is empty). -/
def headNotSpace (l : List Nat) : Prop :=
  l = [] ∨ ∃ a t, l = a :: t ∧ isSpaceCode a = false

theorem stripLead_length (l : List Nat) : (stripLead l).length ≤ l.length := by
  obtain ⟨k, hk⟩ := stripLead_eq_drop l
  rw [hk, List.length_drop]
  omega

theorem headNotSpace_of_fix (l : List Nat) (h : stripLead l = l) : headNotSpace l := by
  match l with
  | [] => exact Or.inl rfl
  | a :: t =>
    by_cases ha : isSpaceCode a = true
    · exfalso
      have h1 : stripLead t = a :: t := by
        rw [← h]
        simp [stripLead, ha]
      have h2 := stripLead_length t
      rw [h1] at h2
      simp only [List.length_cons] at h2
      omega
    · exact Or.inr ⟨a, t, rfl, by simpa using ha⟩

theorem headNotSpace_stripCodes (l : List Nat) : headNotSpace (stripCodes l) :=
  headNotSpace_of_fix _ (stripLead_of_rtrim l)

theorem headNotSpace_stripCodes_reverse (l : List Nat) :
    headNotSpace (stripCodes l).reverse := by
  show headNotSpace ((stripLead ((stripLead l).reverse)).reverse).reverse
  rw [List.reverse_reverse]
  exact stripLead_head _

theorem headNotSpace_map (f : Nat → Nat) (hf : ∀ n, isSpaceCode (f n) = isSpaceCode n)
    (l : List Nat) (h : headNotSpace l) : headNotSpace (l.map f) := by
  rcases h with h | ⟨a, t, rfl, ha⟩
  · exact Or.inl (by simp [h])
  · exact Or.inr ⟨f a, t.map f, by simp, by rw [hf]; exact ha⟩

theorem stripCodes_fix (l : List Nat) (h1 : headNotSpace l)
    (h2 : headNotSpace l.reverse) : stripCodes l = l := by
  show (stripLead ((stripLead l).reverse)).reverse = l
  rw [stripLead_fix l h1, stripLead_fix l.reverse h2, List.reverse_reverse]

/-- Stripping commutes away over a whitespace-preserving character map of an
already-stripped list. -/
theorem stripCodes_map_stripCodes (f : Nat → Nat)
    (hf : ∀ n, isSpaceCode (f n) = isSpaceCode n) (l : List Nat) :
    stripCodes ((stripCodes l).map f) = (stripCodes l).map f := by
  apply stripCodes_fix
  · exact headNotSpace_map f hf _ (headNotSpace_stripCodes l)
  · rw [← List.map_reverse]
    exact headNotSpace_map f hf _ (headNotSpace_stripCodes_reverse l)

theorem canonName_idem (s : List Nat) : canonName (canonName s) = canonName s := by
  show (stripCodes ((stripCodes s).map lowerCode)).map lowerCode = _
  rw [stripCodes_map_stripCodes lowerCode isSpaceCode_lowerCode]
  rw [List.map_map]
  apply List.map_congr_left
  intro a _
  exact lowerCode_idem a

/-- Value canonicalization for the `right` column:
`.str.upper().str.strip()` (upper-case, then strip). -/
def upStrip (s : List Nat) : List Nat := stripCodes (s.map upperCode)

theorem stripLead_subset (l : List Nat) : ∀ x ∈ stripLead l, x ∈ l := by
  obtain ⟨k, hk⟩ := stripLead_eq_drop l
  rw [hk]
  intro x hx
  exact List.mem_of_mem_drop hx

theorem mem_stripCodes (l : List Nat) : ∀ x ∈ stripCodes l, x ∈ l := by
  intro x hx
  have h1 : x ∈ (stripLead ((stripLead l).reverse)).reverse := hx
  rw [List.mem_reverse] at h1
  have h2 := stripLead_subset _ x h1
  rw [List.mem_reverse] at h2
  exact stripLead_subset _ x h2

theorem upStrip_idem (s : List Nat) : upStrip (upStrip s) = upStrip s := by
  show stripCodes ((stripCodes (s.map upperCode)).map upperCode) = _
  rw [stripCodes_map_stripCodes upperCode isSpaceCode_upperCode]
  have h1 : ∀ x ∈ stripCodes (s.map upperCode), upperCode x = x := by
    intro x hx
    obtain ⟨y, _, rfl⟩ := List.mem_map.mp (mem_stripCodes _ x hx)
    exact upperCode_idem y
  rw [show (stripCodes (s.map upperCode)).map upperCode
      = (stripCodes (s.map upperCode)).map id from List.map_congr_left h1, List.map_id]
  rfl

/-- One cell of a pandas table: a finite float (`ℚ`), a string, a datetime
(days since the epoch), a boolean, or a missing value (`NaN`/`None`/`NaT`). -/
inductive Val where
  | num (q : ℚ)
  | str (s : List Nat)
  | date (d : ℤ)
  | bool (b : Bool)
  | null
deriving DecidableEq

/-- Python exceptions the engine's pandas operations can raise. -/
inductive Err where
  | keyError (n : List Nat)
  | typeError
  | valueError
deriving DecidableEq

/-- A pandas DataFrame: ordered column names and rows of cells
(each row positionally matches `cols`). -/
structure DF where
  cols : List (List Nat)
  rows : List (List Val)
deriving DecidableEq

/-- `df.empty`: no rows or no columns. -/
def DF.isEmpty (df : DF) : Bool := df.rows.isEmpty || df.cols.isEmpty

/-- Position of a column, if present. -/
def DF.colIdx (df : DF) (n : List Nat) : Option Nat :=
  df.cols.findIdx? (fun c => decide (c = n))

/-- `name in df.columns`. -/
def DF.hasCol (df : DF) (n : List Nat) : Bool := (df.colIdx n).isSome

/-- Cell of a row at a column position. -/
def cellAt (r : List Val) (i : Nat) : Val := r.getD i Val.null

/-- `df[name]` as a list of cells; `KeyError` when the column is absent. -/
def DF.getCol (df : DF) (n : List Nat) : Except Err (List Val) :=
  match df.colIdx n with
  | some i => .ok (df.rows.map (fun r => cellAt r i))
  | none => .error (.keyError n)

/-- `df[name] = values`: replace the column if present, else append it. -/
def DF.setCol (df : DF) (n : List Nat) (vs : List Val) : DF :=
  match df.colIdx n with
  | some i => { df with rows := (df.rows.zip vs).map (fun p => p.1.set i p.2) }
  | none => { cols := df.cols ++ [n], rows := (df.rows.zip vs).map (fun p => p.1 ++ [p.2]) }

/-- Transform one column in place (used only after a presence check). -/
def DF.mapCol (df : DF) (n : List Nat) (f : Val → Val) : DF :=
  match df.colIdx n with
  | some i => { df with rows := df.rows.map (fun r => r.set i (f (cellAt r i))) }
  | none => df

/-- Transform one column with per-cell failure (column arithmetic). -/
def DF.mapColE (df : DF) (n : List Nat) (f : Val → Except Err Val) : Except Err DF :=
  match df.colIdx n with
  | some i => do
      let rows ← df.rows.mapM (fun r => do
        let v ← f (cellAt r i)
        pure (r.set i v))
      pure { df with rows := rows }
  | none => .error (.keyError n)

/-- Boolean mask `f(df[name])`; raises `KeyError` even on zero rows,
like the pandas column access it models. -/
def DF.maskE (df : DF) (n : List Nat) (f : Val → Except Err Bool) : Except Err (List Bool) := do
  let col ← df.getCol n
  col.mapM f

/-- Pointwise `&` of two masks. -/
def maskAnd (a b : List Bool) : List Bool := (a.zip b).map (fun p => p.1 && p.2)

/-- `df[mask]`: keep rows whose mask entry is `True`. -/
def DF.applyMask (df : DF) (m : List Bool) : DF :=
  { df with rows := ((df.rows.zip m).filter (fun p => p.2)).map (fun p => p.1) }

/-- `series > q` on one cell: `False` for `NaN`, `TypeError` for non-numbers. -/
def vGtQ (v : Val) (q : ℚ) : Except Err Bool :=
  match v with
  | .num x => pure (decide (q < x))
  | .null => pure false
  | _ => .error .typeError

/-- `series >= q` on one cell. -/
def vGeQ (v : Val) (q : ℚ) : Except Err Bool :=
  match v with
  | .num x => pure (decide (q ≤ x))
  | .null => pure false
  | _ => .error .typeError

/-- `series < q` on one cell. -/
def vLtQ (v : Val) (q : ℚ) : Except Err Bool :=
  match v with
  | .num x => pure (decide (x < q))
  | .null => pure false
  | _ => .error .typeError

/-- `series.notna()` on one cell. -/
def vNotNa (v : Val) : Bool := decide (v ≠ Val.null)

/-- Elementwise `==` comparison: `NaN` compares unequal to everything. -/
def vEqCmp (v w : Val) : Bool :=
  match v, w with
  | .null, _ => false
  | _, .null => false
  | v, w => decide (v = w)

/-- Cell multiplication (floats only; missing values propagate). -/
def vMul (v w : Val) : Except Err Val :=
  match v, w with
  | .num a, .num b => pure (.num (a * b))
  | .null, .num _ => pure .null
  | .num _, .null => pure .null
  | .null, .null => pure .null
  | _, _ => .error .typeError

/-- Cell subtraction. -/
def vSub (v w : Val) : Except Err Val :=
  match v, w with
  | .num a, .num b => pure (.num (a - b))
  | .null, .num _ => pure .null
  | .num _, .null => pure .null
  | .null, .null => pure .null
  | _, _ => .error .typeError

/-- `series.abs()` on one cell. -/
def vAbs (v : Val) : Except Err Val :=
  match v with
  | .num a => pure (.num |a|)
  | .null => pure .null
  | _ => .error .typeError

/-- One step of a skipna sum. -/
def sumStepQ (acc : ℚ) (v : Val) : Except Err ℚ :=
  match v with
  | .num q => pure (acc + q)
  | .null => pure acc
  | _ => .error .typeError

/-- `series.sum()` (skipna); concatenating/str input is a modelling error. -/
def colSumQ (vs : List Val) : Except Err ℚ := vs.foldlM sumStepQ 0

/-- One step of a skipna max. -/
def maxStepQ (acc : Option ℚ) (v : Val) : Except Err (Option ℚ) :=
  match v with
  | .num q => pure (some (match acc with | some m => max m q | none => q))
  | .null => pure acc
  | _ => .error .typeError

/-- `series.max()` (skipna): `none` when no numeric entries. -/
def colMaxQ (vs : List Val) : Except Err (Option ℚ) := vs.foldlM maxStepQ none

/-- One step of a skipna min. -/
def minStepQ (acc : Option ℚ) (v : Val) : Except Err (Option ℚ) :=
  match v with
  | .num q => pure (some (match acc with | some m => min m q | none => q))
  | .null => pure acc
  | _ => .error .typeError

/-- `series.min()` (skipna): `none` when no numeric entries. -/
def colMinQ (vs : List Val) : Except Err (Option ℚ) := vs.foldlM minStepQ none

/-- Numeric entries of a column, in order (skipna view). -/
def colNums (vs : List Val) : List ℚ :=
  vs.filterMap (fun v => match v with | .num q => some q | _ => none)

/-- Numeric-or-missing guard for one cell of an aggregated column. -/
def numGuardStep (acc : Unit) (v : Val) : Except Err Unit :=
  match v with
  | .num _ => pure acc
  | .null => pure acc
  | _ => .error .typeError

/-- `series.mean()` (skipna): `NaN` (`none`) when no numeric entries. -/
def colMeanQ (vs : List Val) : Except Err (Option ℚ) :=
  vs.foldlM numGuardStep () >>= fun _ =>
  match colNums vs with
  | [] => pure none
  | l => pure (some (l.sum / l.length))

/-- Column-alias mapping of `normalize_columns` (`vol`→`volume`, …). -/
def renameAlias (n : List Nat) : List Nat :=
  if n = codes "vol" ∨ n = codes "size" ∨ n = codes "daily_volume" then codes "volume"
  else if n = codes "oi" ∨ n = codes "openinterest" then codes "open_interest"
  else if n = codes "type" ∨ n = codes "cp" then codes "right"
  else if n = codes "exp" ∨ n = codes "expiry" then codes "expiration"
  else n

/-- `n` copies of a code list glued together (Python `str * n`). -/
def repList (n : Nat) (s : List Nat) : List Nat := (List.replicate n s).flatten

/-- `astype(str)` on one cell. The float/datetime reprs are abstract but fixed. -/
def astypeStr (v : Val) : List Nat :=
  match v with
  | .num q => codes (toString q)
  | .str s => s
  | .date d => codes "Timestamp " ++ codes (toString d)
  | .bool b => if b then codes "True" else codes "False"
  | .null => codes "nan"

/-- The `replace({'P': 'PUT', 'C': 'CALL'})` step. -/
def pcReplace (s : List Nat) : List Nat :=
  if s = codes "P" then codes "PUT"
  else if s = codes "C" then codes "CALL"
  else s

/-- Full `right`-column normalization:
`astype(str).str.upper().str.strip()` then the P/C replacement. -/
def vNormRight (v : Val) : Val := .str (pcReplace (upStrip (astypeStr v)))

/-- `implied_vol * 100` on one cell (Python `str * int` replicates). -/
def vMulHundred (v : Val) : Except Err Val :=
  match v with
  | .num a => pure (.num (a * 100))
  | .null => pure .null
  | .str s => pure (.str (repList 100 s))
  | .bool b => pure (.num (if b then 100 else 0))
  | .date _ => .error .typeError

/-- `strike / 1000` on one cell. -/
def vDivQ (v : Val) (q : ℚ) : Except Err Val :=
  match v with
  | .num a => pure (.num (a / q))
  | .null => pure .null
  | _ => .error .typeError

/-- Days since 1970-01-01 of a civil date (proleptic Gregorian; the
standard era-based formula, all intermediate values nonnegative here). -/
def daysFromCivil (y m d : ℤ) : ℤ :=
  let y2 := if m ≤ 2 then y - 1 else y
  let era := y2 / 400
  let yoe := y2 - era * 400
  let mp := (m + 9) % 12
  let doy := (153 * mp + 2) / 5 + d - 1
  let doe := yoe * 365 + yoe / 4 - yoe / 100 + doy
  era * 146097 + doe - 719468

/-- Split an integer `YYYYMMDD` into days since the epoch, when in range. -/
def parseYyyymmdd (n : ℤ) : Option ℤ :=
  let y := n / 10000
  let m := n / 100 % 100
  let d := n % 100
  if 1000 ≤ y ∧ y ≤ 9999 ∧ 1 ≤ m ∧ m ≤ 12 ∧ 1 ≤ d ∧ d ≤ 31 then
    some (daysFromCivil y m d)
  else none

/-- Code of a decimal digit, if it is one. -/
def digitOf (c : Nat) : Option ℤ :=
  if 48 ≤ c ∧ c ≤ 57 then some ((c : ℤ) - 48) else none

/-- Decimal value of a digit string, if all digits. -/
def digitsVal (s : List Nat) : Option ℤ :=
  s.foldl (fun acc c =>
    match acc, digitOf c with
    | some a, some d => some (a * 10 + d)
    | _, _ => none) (some 0)

/-- Date-string parsing: `YYYYMMDD` or `YYYY-MM-DD` (the formats this
pipeline produces); anything else fails to parse. -/
def parseDateCodes (s : List Nat) : Option ℤ :=
  if s.length = 8 then (digitsVal s).bind parseYyyymmdd
  else if s.length = 10 ∧ s.getD 4 0 = 45 ∧ s.getD 7 0 = 45 then
    match digitsVal (s.take 4), digitsVal ((s.drop 5).take 2), digitsVal (s.drop 8) with
    | some y, some m, some d =>
        if 1000 ≤ y ∧ 1 ≤ m ∧ m ≤ 12 ∧ 1 ≤ d ∧ d ≤ 31 then some (daysFromCivil y m d)
        else none
    | _, _, _ => none
  else none

/-- `pd.to_datetime(cell.astype(str), errors='coerce')`: datetimes round-trip
through their string form, integers are read as `YYYYMMDD`, unparseable
values coerce to `NaT`. -/
def toDT (v : Val) : Val :=
  match v with
  | .date d => .date d
  | .num q => if q.den = 1 then (match parseYyyymmdd q.num with
      | some d => .date d
      | none => .null) else .null
  | .str s => (match parseDateCodes s with
      | some d => .date d
      | none => .null)
  | .bool _ => .null
  | .null => .null

/-- The full `normalize_columns` of src/core/calculations.py. -/
def normalize_columns (df : DF) : Except Err DF :=
  if df.isEmpty then pure df else do
  let df : DF := { df with cols := df.cols.map (fun c => renameAlias (canonName c)) }
  let df : DF :=
    if df.hasCol (codes "right") then df.mapCol (codes "right") vNormRight else df
  let df : DF ←
    if df.hasCol (codes "implied_vol") && !(df.hasCol (codes "iv_pct")) then do
      let col ← df.getCol (codes "implied_vol")
      let col2 ← col.mapM vMulHundred
      pure (df.setCol (codes "iv_pct") col2)
    else pure df
  let df : DF ←
    if df.hasCol (codes "strike") && !df.isEmpty then do
      let scol ← df.getCol (codes "strike")
      let mx ← colMaxQ scol
      match mx with
      | some m =>
          if m > 10000 then df.mapColE (codes "strike") (fun v => vDivQ v 1000)
          else pure df
      | none => pure df
    else pure df
  let df : DF :=
    if df.hasCol (codes "date") then df.mapCol (codes "date") toDT else df
  pure df

/-- Cells of the non-key columns of a (right-side) row, for merging. -/
def dropKeyCells (cols : List (List Nat)) (keys : List (List Nat)) (r : List Val) : List Val :=
  ((cols.zip r).filter (fun p => decide (p.1 ∉ keys))).map (fun p => p.2)

/-- Column names of a merge result, with pandas suffixes on the
overlapping non-key names. -/
def mergeColNames (lc rc : List (List Nat)) (keys : List (List Nat))
    (sufL sufR : List Nat) : List (List Nat) :=
  lc.map (fun c => if c ∉ keys ∧ c ∈ rc then c ++ sufL else c) ++
  (rc.filter (fun c => decide (c ∉ keys))).map (fun c => if c ∈ lc then c ++ sufR else c)

/-- `left.merge(right, on=keys, how='inner')`: left-row order, matching
right rows in order; `KeyError` when a key column is missing. Merge keys
match structurally (pandas joins `NaN` keys to each other). -/
def DF.mergeInner (l r : DF) (keys : List (List Nat)) (sufL sufR : List Nat) :
    Except Err DF :=
  match keys.find? (fun k => !(l.hasCol k)) with
  | some k => .error (.keyError k)
  | none =>
    match keys.find? (fun k => !(r.hasCol k)) with
    | some k => .error (.keyError k)
    | none => .ok {
        cols := mergeColNames l.cols r.cols keys sufL sufR,
        rows := l.rows.flatMap (fun lr =>
          (r.rows.filter (fun rr =>
            keys.all (fun k =>
              decide (cellAt lr ((l.colIdx k).getD 0) = cellAt rr ((r.colIdx k).getD 0))))).map
            (fun rr => lr ++ dropKeyCells r.cols keys rr)) }

/-- Stable insertion into a list sorted by a rational key. -/
def insertSortedQ {α : Type} (key : α → ℚ) (a : α) : List α → List α
  | [] => [a]
  | b :: l => if key a < key b then a :: b :: l else b :: insertSortedQ key a l

/-- Stable sort by a rational key. -/
def insSortQ {α : Type} (key : α → ℚ) : List α → List α
  | [] => []
  | a :: l => insertSortedQ key a (insSortQ key l)

/-- `df.sort_values(name)`: stable sort on a numeric column, missing
values last; non-numeric cells are a type error. -/
def DF.sortValuesQ (df : DF) (n : List Nat) : Except Err DF := do
  let col ← df.getCol n
  let tagged ← (df.rows.zip col).mapM (fun p =>
    match p.2 with
    | .num q => pure (p.1, some q)
    | .null => pure (p.1, (none : Option ℚ))
    | _ => (.error .typeError : Except Err (List Val × Option ℚ)))
  let numRows := tagged.filterMap (fun p => p.2.map (fun q => (p.1, q)))
  let naRows := (tagged.filter (fun p => p.2.isNone)).map (fun p => p.1)
  pure { df with rows := (insSortQ (fun p => p.2) numRows).map (fun p => p.1) ++ naRows }

/-- Strictly numeric view of a column (used where prior filters have
removed all missing values before scipy sees the series). -/
def colQs (vs : List Val) : Option (List ℚ) :=
  vs.mapM (fun v => match v with | .num q => some q | _ => none)

/-- `np.searchsorted(xs, t, side='left')`. -/
def searchsortedLeft (xs : List ℚ) (t : ℚ) : Nat :=
  (xs.findIdx? (fun x => decide (t ≤ x))).getD xs.length

/-- `scipy.interpolate.interp1d(xs, ys, kind='linear', bounds_error=True)`
evaluated at `t`, as used under the engine's `try/except`: fewer than two
points or an out-of-bounds target raise (caught to `NaN` = `none`); a
zero-length bracketing segment yields `0/0 = NaN`. -/
def interp1dCall (xs ys : List ℚ) (t : ℚ) : Option ℚ :=
  if xs.length < 2 then none
  else if t < xs.headD 0 ∨ xs.getLastD 0 < t then none
  else
    let i := min (max (searchsortedLeft xs t) 1) (xs.length - 1)
    let x0 := xs.getD (i - 1) 0
    let x1 := xs.getD i 0
    let y0 := ys.getD (i - 1) 0
    let y1 := ys.getD i 0
    if x0 = x1 then none
    else some (y0 + (y1 - y0) / (x1 - x0) * (t - x0))

/-- `int(x)` on a float: truncation toward zero. -/
def qTrunc (q : ℚ) : ℤ := q.num / q.den

/-- Elementwise product of two columns scaled by a constant
(`df[a] * df[b] * scale`). -/
def prodCol (df : DF) (a b : List Nat) (scale : ℚ) : Except Err (List Val) := do
  let ca ← df.getCol a
  let cb ← df.getCol b
  (ca.zip cb).mapM (fun p => do
    let v ← vMul p.1 p.2
    vMul v (.num scale))

/-- The `interpolate_iv_at_delta` of src/core/calculations.py:
IV at a target absolute delta via linear interpolation; `none` is `np.nan`. -/
def interpolate_iv_at_delta (df0 : DF) (target_delta : ℚ) (option_type : List Nat) :
    Except Err (Option ℚ) := do
  let df ← normalize_columns df0
  if !(df.hasCol (codes "right") && df.hasCol (codes "iv_pct") && df.hasCol (codes "delta")) then
    pure none
  else do
    let target_type :=
      if option_type = codes "PUT" ∨ option_type = codes "P" then codes "PUT" else codes "CALL"
    let m1 ← df.maskE (codes "right") (fun v => pure (vEqCmp v (.str target_type)))
    let m2 ← df.maskE (codes "iv_pct") (fun v => vGtQ v 0)
    let m3 ← df.maskE (codes "delta") (fun v => pure (vNotNa v))
    let dff := df.applyMask (maskAnd (maskAnd m1 m2) m3)
    let dff ← if dff.hasCol (codes "volume") then do
        let mv ← dff.maskE (codes "volume") (fun v => vGtQ v 0)
        pure (dff.applyMask mv)
      else pure dff
    if dff.isEmpty then pure none
    else do
      let dcol ← dff.getCol (codes "delta")
      let acol ← dcol.mapM vAbs
      let dff := dff.setCol (codes "abs_delta") acol
      let dff ← dff.sortValuesQ (codes "abs_delta")
      let acol2 ← dff.getCol (codes "abs_delta")
      let mn ← colMinQ acol2
      let mx ← colMaxQ acol2
      match mn, mx with
      | some mnv, some mxv =>
        if mnv > target_delta ∨ mxv < target_delta then pure none
        else do
          let ivcol ← dff.getCol (codes "iv_pct")
          match colQs acol2, colQs ivcol with
          | some xs, some ys => pure (interp1dCall xs ys target_delta)
          | _, _ => pure none
      | _, _ => pure none

/-- Result record of `calculate_skew_metrics`. -/
structure SkewM where
  iv_atm : Option ℚ
  iv_25d_put : Option ℚ
  iv_25d_call : Option ℚ
  rr25 : Option ℚ
  iv_10d_put : Option ℚ
  bf25 : Option ℚ
deriving DecidableEq

/-- `np.nanmean` of two values. -/
def nanMean2 (a b : Option ℚ) : Option ℚ :=
  match a, b with
  | some x, some y => some ((x + y) / 2)
  | some x, none => some x
  | none, some y => some y
  | none, none => none

/-- The `calculate_skew_metrics` of src/core/calculations.py. -/
def calculate_skew_metrics (df_greeks : DF) : Except Err SkewM := do
  let df ← normalize_columns df_greeks
  if df.isEmpty then
    pure ⟨none, none, none, none, none, none⟩
  else do
    let ivac ← interpolate_iv_at_delta df (1/2) (codes "CALL")
    let ivap ← interpolate_iv_at_delta df (1/2) (codes "PUT")
    let iv_atm := nanMean2 ivac ivap
    let p25 ← interpolate_iv_at_delta df (1/4) (codes "PUT")
    let c25 ← interpolate_iv_at_delta df (1/4) (codes "CALL")
    let rr25 : Option ℚ :=
      match p25, c25 with
      | some p, some c => some (p - c)
      | _, _ => none
    let p10 ← interpolate_iv_at_delta df (1/10) (codes "PUT")
    let bf25 : Option ℚ :=
      match p25, iv_atm, c25 with
      | some p, some a, some c => some ((p + c) / 2 - a)
      | _, _, _ => none
    pure ⟨iv_atm, p25, c25, rr25, p10, bf25⟩

/-- The all-zero default record of `calculate_net_exposures`. -/
def zeroMetricsNE : List (String × ℚ) :=
  [("net_delta", 0), ("net_gamma", 0),
   ("net_delta_calls", 0), ("net_delta_puts", 0),
   ("net_gamma_calls", 0), ("net_gamma_puts", 0),
   ("total_oi", 0), ("call_oi", 0), ("put_oi", 0),
   ("net_gamma_billions", 0), ("net_delta_millions", 0)]

/-- The `calculate_net_exposures` of src/core/calculations.py.
An empty dict `{}` is the empty list. -/
def calculate_net_exposures (df_greeks df_oi : DF) (spot_price : ℚ) :
    Except Err (List (String × ℚ)) := do
  let dg ← normalize_columns df_greeks
  let doi ← normalize_columns df_oi
  if !(dg.hasCol (codes "strike") && dg.hasCol (codes "right")
      && doi.hasCol (codes "strike") && doi.hasCol (codes "right")) then
    pure []
  else do
    let df ← dg.mergeInner doi [codes "strike", codes "right"] (codes "_x") (codes "_y")
    if df.isEmpty then pure zeroMetricsNE
    else if !(df.hasCol (codes "delta") && df.hasCol (codes "gamma")
        && df.hasCol (codes "open_interest")) then
      pure zeroMetricsNE
    else do
      let md ← df.maskE (codes "delta") (fun v => pure (vNotNa v))
      let mg ← df.maskE (codes "gamma") (fun v => pure (vNotNa v))
      let mo ← df.maskE (codes "open_interest") (fun v => vGtQ v 0)
      let df := df.applyMask (maskAnd (maskAnd md mg) mo)
      let mc ← df.maskE (codes "right") (fun v => pure (vEqCmp v (.str (codes "CALL"))))
      let calls := df.applyMask mc
      let mp ← df.maskE (codes "right") (fun v => pure (vEqCmp v (.str (codes "PUT"))))
      let puts := df.applyMask mp
      let cde ← prodCol calls (codes "delta") (codes "open_interest") 100
      let pde ← prodCol puts (codes "delta") (codes "open_interest") 100
      let ndc ← colSumQ cde
      let ndp ← colSumQ pde
      let nd := ndc + ndp
      let cge ← prodCol calls (codes "gamma") (codes "open_interest") (100 * spot_price)
      let pge ← prodCol puts (codes "gamma") (codes "open_interest") (100 * spot_price)
      let ngc ← colSumQ cge
      let ngp ← colSumQ pge
      let ng := ngc - ngp
      let toi ← df.getCol (codes "open_interest") >>= colSumQ
      let coi ← calls.getCol (codes "open_interest") >>= colSumQ
      let poi ← puts.getCol (codes "open_interest") >>= colSumQ
      pure [("net_delta", nd), ("net_gamma", ng),
            ("net_delta_calls", ndc), ("net_delta_puts", ndp),
            ("net_gamma_calls", ngc), ("net_gamma_puts", ngp),
            ("total_oi", (qTrunc toi : ℚ)), ("call_oi", (qTrunc coi : ℚ)),
            ("put_oi", (qTrunc poi : ℚ)),
            ("net_gamma_billions", ng / 1000000000), ("net_delta_millions", nd / 1000000)]

/-- `series <= q` on one cell. -/
def vLeQ (v : Val) (q : ℚ) : Except Err Bool :=
  match v with
  | .num x => pure (decide (x ≤ q))
  | .null => pure false
  | _ => .error .typeError

/-- Maximum of a rational list (`none` on empty). -/
def listMax : List ℚ → Option ℚ
  | [] => none
  | a :: t => some (t.foldl max a)

/-- Minimum of a rational list (`none` on empty). -/
def listMin : List ℚ → Option ℚ
  | [] => none
  | a :: t => some (t.foldl min a)

/-- `series.idxmax()`: position of the first maximal numeric entry. -/
def firstMaxIdx (vs : List Val) : Option Nat :=
  (listMax (colNums vs)).bind (fun m => vs.findIdx? (fun v => decide (v = .num m)))

/-- `series.idxmin()`: position of the first minimal numeric entry. -/
def firstMinIdx (vs : List Val) : Option Nat :=
  (listMin (colNums vs)).bind (fun m => vs.findIdx? (fun v => decide (v = .num m)))

/-- `df.loc[row, col] = True` (flag assignment at one position). -/
def DF.setCellTrue (df : DF) (n : List Nat) (ri : Nat) : DF :=
  match df.colIdx n with
  | some i => { df with rows := df.rows.set ri ((df.rows.getD ri []).set i (.bool true)) }
  | none => df

/-- `df.loc[mask, col] *= q` (conditional in-place multiply). -/
def DF.locMul (df : DF) (n : List Nat) (mask : List Bool) (q : ℚ) : Except Err DF :=
  match df.colIdx n with
  | some i => do
      let rows ← (df.rows.zip mask).mapM (fun p =>
        if p.2 then do
          let v ← vMul (cellAt p.1 i) (.num q)
          pure (p.1.set i v)
        else pure p.1)
      pure { df with rows := rows }
  | none => .error (.keyError n)

/-- Insert into a strictly ascending key list, dropping duplicates. -/
def insertKeyQ (a : ℚ) : List ℚ → List ℚ
  | [] => [a]
  | b :: l => if a < b then a :: b :: l else if a = b then b :: l else b :: insertKeyQ a l

/-- Distinct keys in ascending order (pandas `groupby(sort=True)`). -/
def sortedKeysQ : List ℚ → List ℚ
  | [] => []
  | a :: l => insertKeyQ a (sortedKeysQ l)

/-- `df.groupby(key).agg(sum).reset_index()`: numeric group keys sorted
ascending (missing keys dropped, non-numeric keys a type error), with
skipna sums of the aggregated columns. -/
def DF.groupbySum (df : DF) (key : List Nat) (aggs : List (List Nat)) : Except Err DF := do
  let kcol ← df.getCol key
  let ks ← kcol.mapM (fun v =>
    match v with
    | .num q => pure (some q)
    | .null => pure none
    | _ => (.error .typeError : Except Err (Option ℚ)))
  let keys := sortedKeysQ (ks.filterMap id)
  let rows ← keys.mapM (fun k => do
    let sub := df.applyMask (ks.map (fun o => decide (o = some k)))
    let cells ← aggs.mapM (fun a => do
      let c ← sub.getCol a
      let s ← colSumQ c
      pure (Val.num s))
    pure (Val.num k :: cells))
  pure (DF.mk (key :: aggs) rows)

/-- The wall-detection and final sort of `calculate_gex_distribution`
(src/core/calculations.py): flag the first row holding the maximum `gex`
as the call wall when that maximum is positive, the first row holding the
minimum as the put wall when that minimum is negative, then sort by
strike ascending. -/
def gexWalls (gb : DF) : Except Err DF := do
  let gb ←
    if !gb.isEmpty then do
      let gcol ← gb.getCol (codes "gex")
      let gb ← match firstMaxIdx gcol with
        | some mi =>
            pure (if (match gcol.getD mi Val.null with
                      | .num q => decide (0 < q) | _ => false) then
              gb.setCellTrue (codes "is_call_wall") mi else gb)
        | none => (.error .valueError : Except Err DF)
      let gcol2 ← gb.getCol (codes "gex")
      match firstMinIdx gcol2 with
      | some mi =>
          pure (if (match gcol2.getD mi Val.null with
                    | .num q => decide (q < 0) | _ => false) then
            gb.setCellTrue (codes "is_put_wall") mi else gb)
      | none => (.error .valueError : Except Err DF)
    else pure gb
  gb.sortValuesQ (codes "strike")

/-- The `calculate_gex_distribution` of src/core/calculations.py. -/
def calculate_gex_distribution (df_greeks df_oi : DF) (spot_price : ℚ) :
    Except Err DF := do
  let dg ← normalize_columns df_greeks
  let doi ← normalize_columns df_oi
  let df ← dg.mergeInner doi [codes "strike", codes "right"] (codes "_x") (codes "_y")
  if df.isEmpty || !(df.hasCol (codes "gamma")) || !(df.hasCol (codes "open_interest")) then
    pure (DF.mk [] [])
  else do
    let ge ← prodCol df (codes "gamma") (codes "open_interest") (100 * spot_price)
    let df := df.setCol (codes "gex") ge
    let mput ← df.maskE (codes "right") (fun v => pure (vEqCmp v (.str (codes "PUT"))))
    let df ← df.locMul (codes "gex") mput (-1)
    let gb ← df.groupbySum (codes "strike") [codes "gex", codes "open_interest"]
    let gb := gb.setCol (codes "spot_price") (gb.rows.map (fun _ => Val.num spot_price))
    let sc ← gb.getCol (codes "strike")
    let dist ← sc.mapM (fun v => vSub v (.num spot_price))
    let gb := gb.setCol (codes "distance_to_spot") dist
    let gc ← gb.getCol (codes "gex")
    let gbil ← gc.mapM (fun v => vDivQ v 1000000000)
    let gb := gb.setCol (codes "gex_billions") gbil
    let gb := gb.setCol (codes "is_call_wall") (gb.rows.map (fun _ => Val.bool false))
    let gb := gb.setCol (codes "is_put_wall") (gb.rows.map (fun _ => Val.bool false))
    gexWalls gb

/-- `np.where(close > 0, spread_abs / close * 100, 0)` on one row. -/
def vWhereSpread (sa close : Val) : Except Err Val :=
  match close with
  | .num c =>
      if 0 < c then
        match sa with
        | .num s => pure (.num (s / c * 100))
        | .null => pure .null
        | _ => .error .typeError
      else pure (.num 0)
  | .null => pure (.num 0)
  | _ => .error .typeError

/-- `series.median()` (skipna, interpolating between middle entries). -/
def medianQ (l : List ℚ) : Option ℚ :=
  match insSortQ id l with
  | [] => none
  | s =>
      if s.length % 2 = 1 then some (s.getD (s.length / 2) 0)
      else some ((s.getD (s.length / 2 - 1) 0 + s.getD (s.length / 2) 0) / 2)

/-- The `analyze_liquidity` of src/core/calculations.py.
Values are cells so that `NaN` aggregates stay representable. -/
def analyze_liquidity (df_price : DF) : Except Err (List (String × Val)) := do
  let df ← normalize_columns df_price
  if df.isEmpty then pure []
  else do
    let df ←
      if df.hasCol (codes "ask") && df.hasCol (codes "bid") && df.hasCol (codes "close") then do
        let ac ← df.getCol (codes "ask")
        let bc ← df.getCol (codes "bid")
        let sa ← (ac.zip bc).mapM (fun p => vSub p.1 p.2)
        let df := df.setCol (codes "spread_abs") sa
        let cc ← df.getCol (codes "close")
        let sac ← df.getCol (codes "spread_abs")
        let sp ← (sac.zip cc).mapM (fun p => vWhereSpread p.1 p.2)
        let df := df.setCol (codes "spread_pct") sp
        let m ← df.maskE (codes "spread_pct") (fun v => vLtQ v 100)
        pure (df.applyMask m)
      else
        pure (df.setCol (codes "spread_pct") (df.rows.map (fun _ => Val.num 0)))
    let df :=
      if !(df.hasCol (codes "volume")) then
        df.setCol (codes "volume") (df.rows.map (fun _ => Val.num 0))
      else df
    let spc ← df.getCol (codes "spread_pct")
    let vcol ← df.getCol (codes "volume")
    let avgO ← colMeanQ spc
    let avg : Val := if !df.isEmpty then (match avgO with | some a => .num a | none => .null)
      else .num 0
    let med : Val := if !df.isEmpty then (match medianQ (colNums spc) with
      | some a => .num a | none => .null) else .num 0
    let mxO ← colMaxQ spc
    let mx : Val := if !df.isEmpty then (match mxO with | some a => .num a | none => .null)
      else .num 0
    let tv ← colSumQ vcol
    let avO ← colMeanQ vcol
    let av : Val := if !df.isEmpty then (match avO with | some a => .num a | none => .null)
      else .num 0
    let milq ← spc.mapM (fun v => vGtQ v 10)
    let ilq : ℚ := (milq.count true : ℕ)
    let zv : ℚ := ((vcol.map (fun v => vEqCmp v (.num 0))).count true : ℕ)
    let stress : Val :=
      if 0 < df.rows.length then
        match avgO with
        | some a => .num (min (a / 5 * 50 + ilq / (df.rows.length : ℚ) * 50) 100)
        | none => .null
      else .num 0
    pure [("avg_spread_pct", avg), ("median_spread_pct", med), ("max_spread_pct", mx),
          ("total_volume", .num tv), ("avg_volume", av),
          ("illiquid_contracts", .num ilq), ("zero_volume_contracts", .num zv),
          ("liquidity_stress_index", stress)]

/-- One maturity bucket of the term-structure result
(`rr25_{t}dte`, `iv_atm_{t}dte`, `actual_dte_{t}`). -/
structure TSBucket where
  rr25 : Option ℚ
  iv_atm : Option ℚ
  actual_dte : Option ℤ
deriving DecidableEq

/-- The `find_nearest_expiration` of src/core/term_structure.py. -/
def find_nearest_expiration (df_greeks : DF) (target_dte tolerance : ℤ) :
    Except Err DF := do
  if df_greeks.isEmpty || !df_greeks.hasCol (codes "dte") then pure (DF.mk [] [])
  else do
    let m1 ← df_greeks.maskE (codes "dte") (fun v => vGeQ v ((target_dte : ℚ) - (tolerance : ℚ)))
    let m2 ← df_greeks.maskE (codes "dte") (fun v => vLeQ v ((target_dte : ℚ) + (tolerance : ℚ)))
    let dff := df_greeks.applyMask (maskAnd m1 m2)
    if dff.isEmpty then pure (DF.mk [] [])
    else do
      let dcol ← dff.getCol (codes "dte")
      let diffs ← dcol.mapM (fun v => do
        let s ← vSub v (.num (target_dte : ℚ))
        vAbs s)
      match firstMinIdx diffs with
      | some i => do
          let ecol ← dff.getCol (codes "expiration")
          let closest := ecol.getD i Val.null
          let me ← df_greeks.maskE (codes "expiration") (fun v => pure (vEqCmp v closest))
          pure (df_greeks.applyMask me)
      | none => .error .valueError

/-- The `interpolate_iv_at_delta_local` of src/core/term_structure.py
(no normalization, no required-column guard, no volume filter). -/
def interpolate_iv_at_delta_local (df : DF) (target_delta : ℚ) (option_type : List Nat) :
    Except Err (Option ℚ) := do
  let m ← df.maskE (codes "right") (fun v => pure (vEqCmp v (.str option_type)))
  let dff := df.applyMask m
  if dff.isEmpty then pure none
  else do
    let dcol ← dff.getCol (codes "delta")
    let acol ← dcol.mapM vAbs
    let dff := dff.setCol (codes "abs_delta") acol
    let dff ← dff.sortValuesQ (codes "abs_delta")
    let acol2 ← dff.getCol (codes "abs_delta")
    let mn ← colMinQ acol2
    let mx ← colMaxQ acol2
    match mn, mx with
    | some mnv, some mxv =>
        if mnv > target_delta ∨ mxv < target_delta then pure none
        else do
          let ivcol ← dff.getCol (codes "iv_pct")
          match colQs acol2, colQs ivcol with
          | some xs, some ys => pure (interp1dCall xs ys target_delta)
          | _, _ => pure none
    | _, _ => pure none

/-- Nanosecond epoch value of a cell under plain `pd.to_datetime`
(no `errors='coerce'`: unparseable strings raise). -/
def toNsE (v : Val) : Except Err (Option ℤ) :=
  match v with
  | .date d => pure (some (d * 86400000000000))
  | .num q => pure (some (⌊q⌋))
  | .str s => (match parseDateCodes s with
      | some d => pure (some (d * 86400000000000))
      | none => .error .valueError)
  | .null => pure none
  | .bool _ => .error .typeError

/-- One row of `(pd.to_datetime(expiration) - pd.to_datetime(date)).dt.days`. -/
def dteDays (e d : Val) : Except Err Val := do
  let ne ← toNsE e
  let nd ← toNsE d
  match ne, nd with
  | some a, some b => pure (.num (((a - b).fdiv 86400000000000 : ℤ) : ℚ))
  | _, _ => pure .null

/-- The adaptive tolerance of `calculate_rr25_by_dte`. -/
def adaptiveTol (t : ℤ) : ℤ := if t = 0 then 1 else if t = 7 then 2 else 5

/-- Body of the per-target loop of `calculate_rr25_by_dte` (given the
frame that already carries a `dte` column). -/
def rr25Bucket (dfg : DF) (t : ℤ) : Except Err TSBucket := do
  let df_dte ← find_nearest_expiration dfg t (adaptiveTol t)
  if df_dte.isEmpty then pure ⟨none, none, none⟩
  else do
    let dcol ← df_dte.getCol (codes "dte")
    let a ← match dcol.headD Val.null with
      | .num q => pure (qTrunc q)
      | _ => (.error .valueError : Except Err ℤ)
    let m1 ← df_dte.maskE (codes "iv_pct") (fun v => vGtQ v 0)
    let m2 ← df_dte.maskE (codes "delta") (fun v => pure (vNotNa v))
    let m3 ← df_dte.maskE (codes "volume") (fun v => vGtQ v 0)
    let m4 ← df_dte.maskE (codes "bid") (fun v => vGtQ v 0)
    let df_clean := df_dte.applyMask (maskAnd (maskAnd (maskAnd m1 m2) m3) m4)
    if df_clean.isEmpty then pure ⟨none, none, some a⟩
    else do
      let p25 ← interpolate_iv_at_delta_local df_clean (1/4) (codes "PUT")
      let c25 ← interpolate_iv_at_delta_local df_clean (1/4) (codes "CALL")
      let rr : Option ℚ :=
        match p25, c25 with
        | some p, some c => some (p - c)
        | _, _ => none
      let ac ← interpolate_iv_at_delta_local df_clean (1/2) (codes "CALL")
      let ap ← interpolate_iv_at_delta_local df_clean (1/2) (codes "PUT")
      pure ⟨rr, nanMean2 ac ap, some a⟩

/-- The `calculate_rr25_by_dte` of src/core/term_structure.py. The second
component is the caller's frame after the call: the function writes the
derived `dte` column into its argument in place when it is missing. -/
def calculate_rr25_by_dte (df_greeks : DF) (target_dtes : List ℤ) :
    Except Err (List (ℤ × TSBucket) × DF) := do
  if df_greeks.isEmpty then
    pure (target_dtes.map (fun t => (t, ⟨none, none, none⟩)), df_greeks)
  else do
    let dfg ←
      if !df_greeks.hasCol (codes "dte") then
        if df_greeks.hasCol (codes "expiration") && df_greeks.hasCol (codes "date") then do
          let ec ← df_greeks.getCol (codes "expiration")
          let dc ← df_greeks.getCol (codes "date")
          let dte ← (ec.zip dc).mapM (fun p => dteDays p.1 p.2)
          pure (some (df_greeks.setCol (codes "dte") dte))
        else pure none
      else pure (some df_greeks)
    match dfg with
    | none => pure (target_dtes.map (fun t => (t, ⟨none, none, none⟩)), df_greeks)
    | some dfg => do
        let buckets ← target_dtes.mapM (fun t => do
          let b ← rr25Bucket dfg t
          pure (t, b))
        pure (buckets, dfg)

/-- Result record of `calculate_term_structure_metrics`. -/
structure TermM where
  buckets : List (ℤ × TSBucket)
  rr25_term_spread : Option ℚ
  iv_term_spread : Option ℚ
deriving DecidableEq

/-- `metrics.get(f'rr25_{t}dte', nan)` on the bucket list. -/
def bucketRr (m : List (ℤ × TSBucket)) (t : ℤ) : Option ℚ :=
  match m.lookup t with
  | some b => b.rr25
  | none => none

/-- `metrics.get(f'iv_atm_{t}dte', nan)` on the bucket list. -/
def bucketIv (m : List (ℤ × TSBucket)) (t : ℤ) : Option ℚ :=
  match m.lookup t with
  | some b => b.iv_atm
  | none => none

/-- The `calculate_term_structure_metrics` of src/core/term_structure.py
(result plus the caller-visible state of the argument). -/
def calculate_term_structure_metrics (df_greeks : DF) : Except Err (TermM × DF) := do
  let (m, st) ← calculate_rr25_by_dte df_greeks [0, 7, 30, 60]
  let rrs : Option ℚ :=
    match bucketRr m 60, bucketRr m 7 with
    | some a, some b => some (a - b)
    | _, _ => none
  let ivs : Option ℚ :=
    match bucketIv m 60, bucketIv m 7 with
    | some a, some b => some (a - b)
    | _, _ => none
  pure (⟨m, rrs, ivs⟩, st)

deriving instance DecidableEq for Except

/-- A Greeks table that carries `dte` and `expiration` (so a bucket is
matched) but no `iv_pct` column: the quality filter of
`calculate_rr25_by_dte` then accesses a missing column. -/
def tsMissingIvPct : DF :=
  DF.mk [codes "dte", codes "expiration", codes "right"]
    [[Val.num 30, Val.num 20250303, Val.str (codes "CALL")]]

unseal Rat.add Rat.mul Rat.sub Rat.inv in
/-- C1: the spec says every calculator is total and never raises, with
missing required columns yielding a neutral result. The code violates
this: on a Greeks table holding a `dte` column (value 30, inside the
30-day bucket window) but no `iv_pct` column, `calculate_rr25_by_dte`
raises `KeyError: 'iv_pct'` from its liquidity filter instead of
returning the documented NaN metrics. -/
theorem c1_rr25_raises_on_missing_iv_pct :
    calculate_rr25_by_dte tsMissingIvPct [0, 7, 30, 60] =
      .error (.keyError (codes "iv_pct")) := by
  decide

/-- An open-interest table with proper key columns. -/
def c2OiTable : DF :=
  DF.mk [codes "strike", codes "right", codes "open_interest"]
    [[Val.num 100, Val.str (codes "CALL"), Val.num 5]]

unseal Rat.add Rat.mul Rat.sub Rat.inv in
/-- C2 counterexample: an empty Greeks table (the frame `pd.DataFrame()`,
which has no columns) makes `calculate_net_exposures` return the empty
dict `{}`, not the all-zero record claimed. -/
theorem c2_counterexample :
    calculate_net_exposures (DF.mk [] []) c2OiTable 100 = .ok [] ∧
      ([] : List (String × ℚ)) ≠ zeroMetricsNE := by
  constructor
  · decide
  · decide

/-- A table whose strike values exceed ten million: the milli-strike
division fires on both the first and the second normalization pass. -/
def c7Table : DF := DF.mk [codes "strike"] [[Val.num 20000000]]

unseal Rat.add Rat.mul Rat.sub Rat.inv in
/-- C7 counterexample: `normalize_columns` is not idempotent. On a strike
of 20,000,000 (milli-strike for $20,000) the first pass divides to 20,000,
which still exceeds the 10,000 threshold, so a second pass divides again
to 20. -/
theorem c7_counterexample :
    normalize_columns c7Table >>= normalize_columns ≠ normalize_columns c7Table := by
  decide

/-- A Greeks table lacking `dte` but carrying `expiration` and `date`
(100 days apart, so every target bucket window is empty and the call
succeeds). -/
def c9Table : DF :=
  DF.mk [codes "expiration", codes "date", codes "right"]
    [[Val.date 20215, Val.date 20115, Val.str (codes "CALL")]]

/-- The caller's frame after `calculate_rr25_by_dte` on `c9Table`: the
derived `dte` column has been written into it in place. -/
def c9Mutated : DF :=
  DF.mk [codes "expiration", codes "date", codes "right", codes "dte"]
    [[Val.date 20215, Val.date 20115, Val.str (codes "CALL"), Val.num 100]]

unseal Rat.add Rat.mul Rat.sub Rat.inv in
/-- C9 counterexample: `calculate_rr25_by_dte` on a Greeks table lacking a
`dte` column mutates its argument, appending the derived `dte` column;
the caller's input table is not unchanged after the call. -/
theorem c9_counterexample :
    calculate_rr25_by_dte c9Table [0, 7, 30, 60] =
      .ok ([(0, ⟨none, none, none⟩), (7, ⟨none, none, none⟩),
            (30, ⟨none, none, none⟩), (60, ⟨none, none, none⟩)], c9Mutated) ∧
      c9Mutated ≠ c9Table := by
  constructor
  · decide
  · decide

/-- State analysis of `calculate_rr25_by_dte`: the caller's frame is
unchanged unless the mutation branch ran. -/
theorem rr25_state_cases (df : DF) (ts : List ℤ) (res : List (ℤ × TSBucket)) (st : DF)
    (h : calculate_rr25_by_dte df ts = .ok (res, st)) :
    (df.isEmpty = true → st = df) ∧
    (df.isEmpty = false → df.hasCol (codes "dte") = true → st = df) ∧
    (df.isEmpty = false → df.hasCol (codes "dte") = false →
      (df.hasCol (codes "expiration") && df.hasCol (codes "date")) = false → st = df) ∧
    (df.isEmpty = false → df.hasCol (codes "dte") = false →
      (df.hasCol (codes "expiration") && df.hasCol (codes "date")) = true →
      ∃ vs, st = df.setCol (codes "dte") vs) := by
  by_cases he : df.isEmpty = true
  · refine ⟨fun _ => ?_, fun hne => absurd he (by simp [hne]), fun hne => absurd he (by simp [hne]),
      fun hne => absurd he (by simp [hne])⟩
    simp only [calculate_rr25_by_dte, he, if_true] at h
    simp only [pure, Except.pure, Except.ok.injEq, Prod.mk.injEq] at h
    exact h.2.symm
  · have he2 : df.isEmpty = false := by simpa using he
    refine ⟨fun h1 => absurd h1 he, ?_, ?_, ?_⟩
    · intro _ hd
      simp only [calculate_rr25_by_dte, he2, if_false, Bool.false_eq_true, hd,
        Bool.not_true, Bind.bind, Except.bind, pure, Except.pure] at h
      split at h
      · simp at h
      · simp only [Except.ok.injEq, Prod.mk.injEq] at h
        exact h.2.symm
    · intro _ hd hed
      simp only [calculate_rr25_by_dte, he2, if_false, Bool.false_eq_true, hd,
        Bool.not_false, if_true, hed, Bind.bind, Except.bind, pure, Except.pure,
        Except.ok.injEq, Prod.mk.injEq] at h
      exact h.2.symm
    · intro _ hd hed
      simp only [calculate_rr25_by_dte, he2, if_false, Bool.false_eq_true, hd,
        Bool.not_false, if_true, hed, Bind.bind, Except.bind, pure, Except.pure] at h
      split at h
      · simp at h
      · split at h
        · simp at h
        · split at h
          · simp at h
          · rename_i dtev heq
            split at h
            · simp at h
            · simp only [Except.ok.injEq, Prod.mk.injEq] at h
              exact ⟨dtev, h.2.symm⟩

/-- C9, amended: `calculate_rr25_by_dte` (and so
`calculate_term_structure_metrics`) leaves its input frame unchanged
exactly when the table is empty, already has a `dte` column, or lacks the
`expiration`/`date` pair; on a non-empty frame without `dte` but with
`expiration` and `date` it writes the derived `dte` column into the
caller's frame in place. -/
theorem c9_amended (df : DF) (ts : List ℤ) (res : List (ℤ × TSBucket)) (st : DF)
    (h : calculate_rr25_by_dte df ts = .ok (res, st)) :
    ((df.isEmpty = true ∨ df.hasCol (codes "dte") = true ∨
        (df.hasCol (codes "expiration") && df.hasCol (codes "date")) = false) → st = df) ∧
    (df.isEmpty = false → df.hasCol (codes "dte") = false →
      (df.hasCol (codes "expiration") && df.hasCol (codes "date")) = true →
      ∃ vs, st = df.setCol (codes "dte") vs) ∧
    (∀ tm st2, calculate_term_structure_metrics df = .ok (tm, st2) →
      calculate_rr25_by_dte df [0, 7, 30, 60] = .ok (tm.buckets, st2)) := by
  obtain ⟨h1, h2, h3, h4⟩ := rr25_state_cases df ts res st h
  refine ⟨?_, h4, ?_⟩
  · intro hc
    by_cases he : df.isEmpty = true
    · exact h1 he
    · have he2 : df.isEmpty = false := by simpa using he
      rcases hc with hc | hc | hc
      · exact h1 hc
      · exact h2 he2 hc
      · by_cases hd : df.hasCol (codes "dte") = true
        · exact h2 he2 hd
        · exact h3 he2 (by simpa using hd) hc
  · intro tm st2 htm
    simp only [calculate_term_structure_metrics, Bind.bind, Except.bind] at htm
    split at htm
    · simp at htm
    · rename_i p hp
      simp only [pure, Except.pure, Except.ok.injEq, Prod.mk.injEq] at htm
      rw [hp]
      obtain ⟨rfl, rfl⟩ := htm
      rfl

/-- A table that already has a `dte` column (value 100: outside every
bucket window). -/
def w9Table : DF := DF.mk [codes "dte"] [[Val.num 100]]

/-- Buckets produced on `w9Table`: every window is empty. -/
def w9Res : List (ℤ × TSBucket) :=
  [(0, ⟨none, none, none⟩), (7, ⟨none, none, none⟩),
   (30, ⟨none, none, none⟩), (60, ⟨none, none, none⟩)]

unseal Rat.add Rat.mul Rat.sub Rat.inv in
/-- C9 amended-claim witness: on a frame that already has `dte` the call
succeeds and leaves the argument unchanged. -/
theorem c9_amended_witness : w9Table.isEmpty = false ∧ w9Table = w9Table :=
  ⟨by decide,
   (c9_amended w9Table [0, 7, 30, 60] w9Res w9Table (by decide)).1 (Or.inr (Or.inl (by decide)))⟩

/-- C2, amended: when either normalized input lacks a key column
(`strike`/`right`) — in particular for a column-less empty Greeks frame —
`calculate_net_exposures` returns the empty record `{}`; the all-zero
record is returned when both inputs have the key columns but the inner
join is empty or lacks `delta`, `gamma` or `open_interest`. -/
theorem c2_amended (g oi : DF) (spot : ℚ) (g2 oi2 : DF)
    (hg : normalize_columns g = .ok g2) (hoi : normalize_columns oi = .ok oi2) :
    ((g2.hasCol (codes "strike") && g2.hasCol (codes "right")
        && oi2.hasCol (codes "strike") && oi2.hasCol (codes "right")) = false →
      calculate_net_exposures g oi spot = .ok []) ∧
    ((g2.hasCol (codes "strike") && g2.hasCol (codes "right")
        && oi2.hasCol (codes "strike") && oi2.hasCol (codes "right")) = true →
      ∀ m, DF.mergeInner g2 oi2 [codes "strike", codes "right"]
          (codes "_x") (codes "_y") = .ok m →
      (m.isEmpty = true ∨ (m.hasCol (codes "delta") && m.hasCol (codes "gamma")
          && m.hasCol (codes "open_interest")) = false) →
      calculate_net_exposures g oi spot = .ok zeroMetricsNE) := by
  constructor
  · intro hc
    simp only [calculate_net_exposures, Bind.bind, Except.bind, hg, hoi, hc,
      Bool.not_false, if_true, pure, Except.pure]
  · intro hc m hm hz
    simp only [calculate_net_exposures, Bind.bind, Except.bind, hg, hoi, hc,
      Bool.not_true, Bool.false_eq_true, if_false, hm, pure, Except.pure]
    by_cases he : m.isEmpty = true
    · simp only [he, if_true]
    · have he2 : m.isEmpty = false := by simpa using he
      rcases hz with hz | hz
      · exact absurd hz he
      · simp only [he2, Bool.false_eq_true, if_false, hz, Bool.not_false, if_true]

/-- A well-formed Greeks table for the C2 witness. -/
def c2Greeks : DF :=
  DF.mk [codes "strike", codes "right", codes "delta", codes "gamma"]
    [[Val.num 100, Val.str (codes "CALL"), Val.num (1/2), Val.num (1/100)]]

/-- An open-interest table whose strikes match nothing in `c2Greeks`. -/
def c2OiMismatch : DF :=
  DF.mk [codes "strike", codes "right", codes "open_interest"]
    [[Val.num 999, Val.str (codes "CALL"), Val.num 5]]

/-- The (empty) inner join of `c2Greeks` with `c2OiMismatch`. -/
def c2Merged : DF :=
  DF.mk [codes "strike", codes "right", codes "delta", codes "gamma",
    codes "open_interest"] []

unseal Rat.add Rat.mul Rat.sub Rat.inv in
/-- C2 amended-claim witness: key columns present but an empty join gives
the all-zero record. -/
theorem c2_amended_witness :
    calculate_net_exposures c2Greeks c2OiMismatch 100 = .ok zeroMetricsNE :=
  (c2_amended c2Greeks c2OiMismatch 100 c2Greeks c2OiMismatch
    (by decide) (by decide)).2 (by decide) c2Merged (by decide) (Or.inl (by decide))

section TypedEval

variable {β : Type}

/-- `mapM` of a function that is everywhere `ok` is `ok` of the `map`. -/
theorem mapM_ok (f : β → Except Err γ) (g : β → γ) (hf : ∀ a, f a = .ok (g a)) :
    ∀ l : List β, l.mapM f = .ok (l.map g) := by
  intro l
  induction l with
  | nil => rfl
  | cons a t ih =>
      rw [List.mapM_cons, hf a]
      simp only [Bind.bind, Except.bind, ih, pure, Except.pure, List.map_cons]

theorem zip_map_eq_map (enc : β → γ) (p : β → δ) (rs : List β) :
    (rs.map enc).zip (rs.map p) = rs.map (fun r => (enc r, p r)) := by
  induction rs with
  | nil => rfl
  | cons a t ih => simp [ih]

theorem zip_map_filter_fst (enc : β → γ) (p : β → Bool) (rs : List β) :
    (((rs.map enc).zip (rs.map p)).filter (fun x => x.2)).map (fun x => x.1)
      = (rs.filter p).map enc := by
  induction rs with
  | nil => rfl
  | cons a t ih =>
      by_cases hp : p a = true <;> simp [List.filter_cons, hp, ih]

/-- `maskAnd` of two typed masks. -/
theorem maskAnd_typed (p q : β → Bool) (rs : List β) :
    maskAnd (rs.map p) (rs.map q) = rs.map (fun r => p r && q r) := by
  simp [maskAnd, zip_map_eq_map]

/-- Column extraction on a typed table. -/
theorem getCol_typed (C : List (List Nat)) (n : List Nat) (i : Nat)
    (hC : C.findIdx? (fun c => decide (c = n)) = some i)
    (enc : β → List Val) (g : β → Val) (hg : ∀ r, cellAt (enc r) i = g r) (rs : List β) :
    (DF.mk C (rs.map enc)).getCol n = .ok (rs.map g) := by
  simp only [DF.getCol, DF.colIdx, hC, List.map_map]
  congr 1
  apply List.map_congr_left
  intro a _
  exact hg a

/-- `mapM` along an encoded list, pointwise `ok`. -/
theorem mapM_ok_comp (f : γ → Except Err δ) (h : β → γ) (g : β → δ)
    (hf : ∀ a, f (h a) = .ok (g a)) (l : List β) : (l.map h).mapM f = .ok (l.map g) := by
  induction l with
  | nil => rfl
  | cons a t ih =>
      rw [List.map_cons, List.mapM_cons, hf a]
      simp only [Bind.bind, Except.bind, ih, pure, Except.pure, List.map_cons]

/-- Mask construction on a typed table. -/
theorem maskE_typed (C : List (List Nat)) (n : List Nat) (i : Nat)
    (hC : C.findIdx? (fun c => decide (c = n)) = some i)
    (enc : β → List Val) (f : Val → Except Err Bool) (p : β → Bool)
    (hp : ∀ r, f (cellAt (enc r) i) = .ok (p r)) (rs : List β) :
    (DF.mk C (rs.map enc)).maskE n f = .ok (rs.map p) := by
  simp only [DF.maskE, Bind.bind, Except.bind,
    getCol_typed C n i hC enc (fun r => cellAt (enc r) i) (fun _ => rfl) rs]
  rw [mapM_ok_comp f (fun r => cellAt (enc r) i) p hp rs]

/-- Row filtering by a typed mask. -/
theorem applyMask_typed (C : List (List Nat)) (enc : β → List Val) (p : β → Bool)
    (rs : List β) :
    DF.applyMask (DF.mk C (rs.map enc)) (rs.map p) = DF.mk C ((rs.filter p).map enc) := by
  simp only [DF.applyMask, zip_map_filter_fst]

/-- Appending a new column to a typed table. -/
theorem setCol_typed (C : List (List Nat)) (n : List Nat)
    (hC : C.findIdx? (fun c => decide (c = n)) = none)
    (enc : β → List Val) (g : β → Val) (rs : List β) :
    (DF.mk C (rs.map enc)).setCol n (rs.map g)
      = DF.mk (C ++ [n]) (rs.map (fun r => enc r ++ [g r])) := by
  simp only [DF.setCol, DF.colIdx, hC, zip_map_eq_map, List.map_map]
  rfl

theorem insertSortedQ_map (f : β → γ) (k : γ → ℚ) (a : β) (l : List β) :
    insertSortedQ k (f a) (l.map f) = (insertSortedQ (fun x => k (f x)) a l).map f := by
  induction l with
  | nil => rfl
  | cons b t ih =>
      simp only [List.map_cons, insertSortedQ]
      by_cases hk : k (f a) < k (f b)
      · rw [if_pos hk, if_pos hk]
        rfl
      · rw [if_neg hk, if_neg hk, List.map_cons, ih]

theorem insSortQ_map (f : β → γ) (k : γ → ℚ) (l : List β) :
    insSortQ k (l.map f) = (insSortQ (fun x => k (f x)) l).map f := by
  induction l with
  | nil => rfl
  | cons a t ih => simp only [List.map_cons, insSortQ, ih, insertSortedQ_map]

/-- Sorting a typed table by an always-numeric column. -/
theorem sortValues_typed (C : List (List Nat)) (n : List Nat) (i : Nat)
    (hC : C.findIdx? (fun c => decide (c = n)) = some i)
    (enc : β → List Val) (key : β → ℚ)
    (hkey : ∀ r, cellAt (enc r) i = Val.num (key r)) (rs : List β) :
    (DF.mk C (rs.map enc)).sortValuesQ n
      = .ok (DF.mk C ((insSortQ key rs).map enc)) := by
  simp only [DF.sortValuesQ, Bind.bind, Except.bind,
    getCol_typed C n i hC enc (fun r => Val.num (key r)) hkey rs]
  rw [zip_map_eq_map]
  rw [mapM_ok_comp _ (fun r => (enc r, Val.num (key r)))
    (fun r => (enc r, some (key r))) (fun a => rfl)]
  simp only [pure, Except.pure, Except.ok.injEq]
  have h1 : (rs.map (fun r => (enc r, some (key r)))).filterMap
      (fun p => p.2.map (fun q => (p.1, q))) = rs.map (fun r => (enc r, key r)) := by
    induction rs with
    | nil => rfl
    | cons a t ih => simp [ih]
  have h2 : ((rs.map (fun r => (enc r, some (key r)))).filter
      (fun p => p.2.isNone)).map (fun p => p.1) = [] := by
    induction rs with
    | nil => rfl
    | cons a t ih => simp [ih]
  rw [h1, h2, List.append_nil]
  have h3 : insSortQ (fun p => p.2) (rs.map (fun r => (enc r, key r)))
      = (insSortQ key rs).map (fun r => (enc r, key r)) :=
    insSortQ_map (fun r => (enc r, key r)) (fun p => p.2) rs
  rw [h3, List.map_map]
  congr 1

/-- Skipna sum of an all-numeric typed column. -/
theorem colSumQ_num (g : β → ℚ) (rs : List β) :
    colSumQ (rs.map (fun r => Val.num (g r))) = .ok ((rs.map g).sum) := by
  have key : ∀ (l : List β) (acc : ℚ),
      (l.map (fun r => Val.num (g r))).foldlM sumStepQ acc = .ok (acc + (l.map g).sum) := by
    intro l
    induction l with
    | nil => intro acc; simp [List.foldlM, pure, Except.pure]
    | cons a t ih =>
        intro acc
        rw [List.map_cons, List.foldlM_cons]
        rw [show sumStepQ acc (Val.num (g a)) = pure (acc + g a) from rfl]
        simp only [Bind.bind, Except.bind, pure, Except.pure]
        rw [ih]
        rw [List.map_cons, List.sum_cons, add_assoc]
  rw [colSumQ, key rs 0]
  rw [zero_add]

end TypedEval

section TypedAgg

variable {β : Type}

theorem colNums_num (g : β → ℚ) (rs : List β) :
    colNums (rs.map (fun r => Val.num (g r))) = rs.map g := by
  induction rs with
  | nil => rfl
  | cons a t ih => simp [colNums, List.filterMap_cons] at ih ⊢; exact ih

/-- Skipna mean of an all-numeric typed column. -/
theorem colMeanQ_num (g : β → ℚ) (rs : List β) :
    colMeanQ (rs.map (fun r => Val.num (g r)))
      = .ok (match rs.map g with
             | [] => none
             | l => some (l.sum / l.length)) := by
  have hguard : ∀ l : List β, (l.map (fun r => Val.num (g r))).foldlM numGuardStep ()
      = .ok () := by
    intro l
    induction l with
    | nil => rfl
    | cons a t ih =>
        rw [List.map_cons, List.foldlM_cons]
        rw [show numGuardStep () (Val.num (g a)) = pure () from rfl]
        simp only [Bind.bind, Except.bind, pure, Except.pure] at ih ⊢
        exact ih
  rw [colMeanQ, hguard, colNums_num]
  cases rs with
  | nil => rfl
  | cons a t => rfl

theorem foldlM_max_num (g : β → ℚ) :
    ∀ (l : List β) (x : ℚ), (l.map (fun r => Val.num (g r))).foldlM maxStepQ (some x)
      = .ok (some (List.foldl max x (l.map g))) := by
  intro l
  induction l with
  | nil => intro x; rfl
  | cons a t ih =>
      intro x
      rw [List.map_cons, List.foldlM_cons]
      rw [show maxStepQ (some x) (Val.num (g a)) = pure (some (max x (g a))) from rfl]
      simp only [Bind.bind, Except.bind, pure, Except.pure]
      rw [ih (max x (g a))]
      rw [List.map_cons, List.foldl_cons]

/-- Skipna max of an all-numeric typed column. -/
theorem colMaxQ_num (g : β → ℚ) (rs : List β) :
    colMaxQ (rs.map (fun r => Val.num (g r))) = .ok (listMax (rs.map g)) := by
  cases rs with
  | nil => rfl
  | cons a t =>
      rw [colMaxQ, List.map_cons, List.foldlM_cons]
      rw [show maxStepQ none (Val.num (g a)) = pure (some (g a)) from rfl]
      simp only [Bind.bind, Except.bind, pure, Except.pure]
      rw [foldlM_max_num g t (g a)]
      rfl

theorem foldlM_min_num (g : β → ℚ) :
    ∀ (l : List β) (x : ℚ), (l.map (fun r => Val.num (g r))).foldlM minStepQ (some x)
      = .ok (some (List.foldl min x (l.map g))) := by
  intro l
  induction l with
  | nil => intro x; rfl
  | cons a t ih =>
      intro x
      rw [List.map_cons, List.foldlM_cons]
      rw [show minStepQ (some x) (Val.num (g a)) = pure (some (min x (g a))) from rfl]
      simp only [Bind.bind, Except.bind, pure, Except.pure]
      rw [ih (min x (g a))]
      rw [List.map_cons, List.foldl_cons]

/-- Skipna min of an all-numeric typed column. -/
theorem colMinQ_num (g : β → ℚ) (rs : List β) :
    colMinQ (rs.map (fun r => Val.num (g r))) = .ok (listMin (rs.map g)) := by
  cases rs with
  | nil => rfl
  | cons a t =>
      rw [colMinQ, List.map_cons, List.foldlM_cons]
      rw [show minStepQ none (Val.num (g a)) = pure (some (g a)) from rfl]
      simp only [Bind.bind, Except.bind, pure, Except.pure]
      rw [foldlM_min_num g t (g a)]
      rfl

end TypedAgg

/-- A found index lies within the list (with the zero start). -/
theorem findIdx?_lt_length {α : Type} {p : α → Bool} :
    ∀ {l : List α} {s i : Nat}, List.findIdx? p l s = some i → s ≤ i ∧ i < s + l.length := by
  intro l
  induction l with
  | nil => intro s i h; simp [List.findIdx?_nil] at h
  | cons a t ih =>
      intro s i h
      rw [List.findIdx?_cons] at h
      by_cases hp : p a = true
      · rw [if_pos hp] at h
        cases h
        simp
      · rw [if_neg hp] at h
        have := ih h
        simp only [List.length_cons]
        omega

/-- Finding in `C ++ [x]` when `C` misses the name and `x` is not it. -/
theorem findIdx?_append_one_none {α : Type} {p : α → Bool} {C : List α} {x : α}
    (hC : List.findIdx? p C = none) (hx : p x = false) :
    List.findIdx? p (C ++ [x]) = none := by
  rw [List.findIdx?_append, hC, Option.none_or]
  simp [List.findIdx?_cons, hx, List.findIdx?_nil]

/-- Finding in `C ++ [x]` when `C` misses the name and `x` is it. -/
theorem findIdx?_append_one_some {α : Type} {p : α → Bool} {C : List α} {x : α}
    (hC : List.findIdx? p C = none) (hx : p x = true) :
    List.findIdx? p (C ++ [x]) = some C.length := by
  rw [List.findIdx?_append, hC, Option.none_or]
  simp [List.findIdx?_cons, hx]

/-- Finding in `C ++ l2` when `C` has the name. -/
theorem findIdx?_append_left {α : Type} {p : α → Bool} {C l2 : List α} {i : Nat}
    (hC : List.findIdx? p C = some i) :
    List.findIdx? p (C ++ l2) = some i := by
  rw [List.findIdx?_append, hC]
  rfl

/-- A cell before an appended column is unchanged. -/
theorem cellAt_append_left {u w : List Val} {i : Nat} (h : i < u.length) :
    cellAt (u ++ w) i = cellAt u i := by
  simp only [cellAt, List.getD]
  rw [List.get?_append h]

/-- The cell of the appended column. -/
theorem cellAt_append_self {u : List Val} {v : Val} {i : Nat} (h : u.length = i) :
    cellAt (u ++ [v]) i = v := by
  subst h
  simp only [cellAt, List.getD, List.get?_concat_length]
  rfl

/-- One row of the price table consumed by `analyze_liquidity`. -/
structure LRow where
  bid : ℚ
  ask : ℚ
  close : ℚ
  volume : ℚ
deriving DecidableEq

/-- Per-row `spread_pct` as computed by the engine
(`np.where(close > 0, (ask - bid) / close * 100, 0)`). -/
def spQ (r : LRow) : ℚ := if 0 < r.close then (r.ask - r.bid) / r.close * 100 else 0

/-- The `spread_pct < 100` data-artifact filter. -/
def spKeep (r : LRow) : Bool := decide (spQ r < 100)

/-- Closed form of the `analyze_liquidity` record on retained rows `l`,
with per-row spread `sp` and volume `vol`. -/
def liqMetrics (sp vol : LRow → ℚ) (l : List LRow) : List (String × Val) :=
  let spc := l.map sp
  let ilq : ℚ := ((l.map (fun r => decide ((10 : ℚ) < sp r))).count true : ℕ)
  [("avg_spread_pct", if l.isEmpty then Val.num 0 else Val.num (spc.sum / spc.length)),
   ("median_spread_pct", if l.isEmpty then Val.num 0 else
     (match medianQ spc with | some m => Val.num m | none => Val.null)),
   ("max_spread_pct", if l.isEmpty then Val.num 0 else
     (match listMax spc with | some m => Val.num m | none => Val.null)),
   ("total_volume", Val.num ((l.map vol).sum)),
   ("avg_volume", if l.isEmpty then Val.num 0 else
     Val.num ((l.map vol).sum / (l.map vol).length)),
   ("illiquid_contracts", Val.num ilq),
   ("zero_volume_contracts",
     Val.num (((l.map (fun r => decide (vol r = 0))).count true : ℕ))),
   ("liquidity_stress_index", if l.isEmpty then Val.num 0 else
     Val.num (min (spc.sum / spc.length / 5 * 50 + ilq / (l.length : ℚ) * 50) 100))]

/-- Full evaluation of `analyze_liquidity` on a typed table carrying
`bid`, `ask`, `close` and `volume` columns. -/
theorem analyze_liquidity_spread_vol
    (C : List (List Nat)) (enc : LRow → List Val)
    (hlen : ∀ r, (enc r).length = C.length)
    (ib ia ic jv : Nat)
    (hib : C.findIdx? (fun c => decide (c = codes "bid")) = some ib)
    (hia : C.findIdx? (fun c => decide (c = codes "ask")) = some ia)
    (hic : C.findIdx? (fun c => decide (c = codes "close")) = some ic)
    (hjv : C.findIdx? (fun c => decide (c = codes "volume")) = some jv)
    (hcb : ∀ r, cellAt (enc r) ib = .num r.bid)
    (hca : ∀ r, cellAt (enc r) ia = .num r.ask)
    (hcc : ∀ r, cellAt (enc r) ic = .num r.close)
    (hcv : ∀ r, cellAt (enc r) jv = .num r.volume)
    (hsa : C.findIdx? (fun c => decide (c = codes "spread_abs")) = none)
    (hsp : C.findIdx? (fun c => decide (c = codes "spread_pct")) = none)
    (rs0 : List LRow) (hne : rs0 ≠ [])
    (hn : normalize_columns (DF.mk C (rs0.map enc)) = .ok (DF.mk C (rs0.map enc))) :
    analyze_liquidity (DF.mk C (rs0.map enc))
      = .ok (liqMetrics spQ LRow.volume (rs0.filter spKeep)) := by
  have hicl : ic < C.length := by
    have := findIdx?_lt_length hic
    omega
  have hjvl : jv < C.length := by
    have := findIdx?_lt_length hjv
    omega
  have hE : (DF.mk C (rs0.map enc)).isEmpty = false := by
    have hCne : C ≠ [] := by
      intro hC
      rw [hC, List.findIdx?_nil] at hib
      exact Option.noConfusion hib
    simp [DF.isEmpty, List.isEmpty_iff, hne, hCne]
  have hcond : ((DF.mk C (rs0.map enc)).hasCol (codes "ask")
      && (DF.mk C (rs0.map enc)).hasCol (codes "bid")
      && (DF.mk C (rs0.map enc)).hasCol (codes "close")) = true := by
    simp [DF.hasCol, DF.colIdx, hia, hib, hic]
  rw [analyze_liquidity, hn]
  simp only [Bind.bind, Except.bind, hE, Bool.false_eq_true, if_false, hcond, if_true]
  rw [getCol_typed C (codes "ask") ia hia enc (fun r => Val.num r.ask) hca rs0,
    getCol_typed C (codes "bid") ib hib enc (fun r => Val.num r.bid) hcb rs0]
  simp only [Except.bind]
  rw [zip_map_eq_map,
    mapM_ok_comp (fun p => vSub p.1 p.2) (fun (r : LRow) => (Val.num r.ask, Val.num r.bid))
      (fun (r : LRow) => Val.num (r.ask - r.bid)) (fun r => rfl) rs0]
  simp only [Except.bind]
  rw [setCol_typed C (codes "spread_abs") hsa enc (fun r => Val.num (r.ask - r.bid)) rs0]
  rw [getCol_typed (C ++ [codes "spread_abs"]) (codes "close") ic (findIdx?_append_left hic)
    (fun r => enc r ++ [Val.num (r.ask - r.bid)]) (fun r => Val.num r.close)
    (fun r => by rw [cellAt_append_left (by rw [hlen r]; exact hicl)]; exact hcc r) rs0]
  simp only [Except.bind]
  rw [getCol_typed (C ++ [codes "spread_abs"]) (codes "spread_abs") C.length
    (findIdx?_append_one_some hsa (by decide))
    (fun r => enc r ++ [Val.num (r.ask - r.bid)]) (fun r => Val.num (r.ask - r.bid))
    (fun r => cellAt_append_self (hlen r)) rs0]
  simp only [Except.bind]
  rw [zip_map_eq_map,
    mapM_ok_comp (fun p => vWhereSpread p.1 p.2)
      (fun (r : LRow) => (Val.num (r.ask - r.bid), Val.num r.close))
      (fun (r : LRow) => Val.num (spQ r))
      (fun r => by
        by_cases h : 0 < r.close
        · simp [vWhereSpread, spQ, h, pure, Except.pure]
        · simp [vWhereSpread, spQ, h, pure, Except.pure]) rs0]
  simp only [Except.bind]
  rw [setCol_typed (C ++ [codes "spread_abs"]) (codes "spread_pct")
    (findIdx?_append_one_none hsp (by decide))
    (fun r => enc r ++ [Val.num (r.ask - r.bid)]) (fun r => Val.num (spQ r)) rs0]
  rw [maskE_typed ((C ++ [codes "spread_abs"]) ++ [codes "spread_pct"]) (codes "spread_pct")
    (C ++ [codes "spread_abs"]).length
    (findIdx?_append_one_some (findIdx?_append_one_none hsp (by decide)) (by decide))
    (fun r => (enc r ++ [Val.num (r.ask - r.bid)]) ++ [Val.num (spQ r)])
    (fun v => vLtQ v 100) spKeep
    (fun r => by rw [cellAt_append_self (by simp [hlen r])]; rfl) rs0]
  simp only [Except.bind]
  rw [applyMask_typed ((C ++ [codes "spread_abs"]) ++ [codes "spread_pct"])
    (fun r => (enc r ++ [Val.num (r.ask - r.bid)]) ++ [Val.num (spQ r)]) spKeep rs0]
  simp only [pure, Except.pure]
  have hv3 : (DF.mk (C ++ [codes "spread_abs"] ++ [codes "spread_pct"])
      ((rs0.filter spKeep).map
        (fun r => enc r ++ [Val.num (r.ask - r.bid)] ++ [Val.num (spQ r)]))).hasCol
      (codes "volume") = true := by
    simp only [DF.hasCol, DF.colIdx]
    rw [findIdx?_append_left (findIdx?_append_left hjv)]
    rfl
  simp only [hv3, Bool.not_true, Bool.false_eq_true, if_false]
  rw [getCol_typed (C ++ [codes "spread_abs"] ++ [codes "spread_pct"]) (codes "spread_pct")
    (C ++ [codes "spread_abs"]).length
    (findIdx?_append_one_some (findIdx?_append_one_none hsp (by decide)) (by decide))
    (fun r => enc r ++ [Val.num (r.ask - r.bid)] ++ [Val.num (spQ r)])
    (fun r => Val.num (spQ r))
    (fun r => cellAt_append_self (by simp [hlen r]))
    (rs0.filter spKeep)]
  rw [getCol_typed (C ++ [codes "spread_abs"] ++ [codes "spread_pct"]) (codes "volume")
    jv (findIdx?_append_left (findIdx?_append_left hjv))
    (fun r => enc r ++ [Val.num (r.ask - r.bid)] ++ [Val.num (spQ r)])
    (fun r => Val.num r.volume)
    (fun r => by
      rw [cellAt_append_left (by simp only [List.length_append, List.length_cons,
        List.length_nil, hlen r]; omega)]
      rw [cellAt_append_left (by rw [hlen r]; exact hjvl)]
      exact hcv r)
    (rs0.filter spKeep)]
  simp only []
  rw [colMeanQ_num spQ (rs0.filter spKeep), colMaxQ_num spQ (rs0.filter spKeep),
    colSumQ_num LRow.volume (rs0.filter spKeep), colMeanQ_num LRow.volume (rs0.filter spKeep)]
  rw [mapM_ok_comp (fun v => vGtQ v 10) (fun (r : LRow) => Val.num (spQ r))
    (fun (r : LRow) => decide ((10 : ℚ) < spQ r)) (fun r => rfl) (rs0.filter spKeep)]
  simp only [Except.bind]
  have hvz : ∀ r : LRow, vEqCmp (Val.num r.volume) (Val.num 0) = decide (r.volume = 0) := by
    intro r
    simp [vEqCmp]
  rw [List.map_map]
  rw [show List.map ((fun v => vEqCmp v (Val.num 0)) ∘ (fun (r : LRow) => Val.num r.volume))
      (List.filter spKeep rs0)
    = List.map (fun (r : LRow) => decide (r.volume = 0)) (List.filter spKeep rs0)
    from List.map_congr_left (fun a _ => hvz a)]
  have hco : (C ++ [codes "spread_abs"] ++ [codes "spread_pct"]).isEmpty = false := by
    cases C <;> rfl
  have hme : ∀ (l : List LRow),
      (List.map (fun r => enc r ++ [Val.num (r.ask - r.bid)] ++ [Val.num (spQ r)]) l).isEmpty
        = l.isEmpty := by
    intro l
    cases l <;> rfl
  rw [colNums_num spQ (rs0.filter spKeep)]
  simp only [DF.isEmpty, hco, Bool.or_false, hme, List.length_map]
  cases hfl : List.filter spKeep rs0 with
  | nil => rfl
  | cons x xs =>
      simp only [liqMetrics, List.isEmpty_cons, Bool.not_false, if_true, List.map_cons,
        List.length_cons, Bool.false_eq_true, if_false]
      rw [if_pos (Nat.succ_pos xs.length)]

/-- Full evaluation of `analyze_liquidity` on a typed table carrying
`bid`, `ask`, `close` but no `volume` column. -/
theorem analyze_liquidity_spread_novol
    (C : List (List Nat)) (enc : LRow → List Val)
    (hlen : ∀ r, (enc r).length = C.length)
    (ib ia ic : Nat)
    (hib : C.findIdx? (fun c => decide (c = codes "bid")) = some ib)
    (hia : C.findIdx? (fun c => decide (c = codes "ask")) = some ia)
    (hic : C.findIdx? (fun c => decide (c = codes "close")) = some ic)
    (hjv : C.findIdx? (fun c => decide (c = codes "volume")) = none)
    (hcb : ∀ r, cellAt (enc r) ib = .num r.bid)
    (hca : ∀ r, cellAt (enc r) ia = .num r.ask)
    (hcc : ∀ r, cellAt (enc r) ic = .num r.close)
    (hsa : C.findIdx? (fun c => decide (c = codes "spread_abs")) = none)
    (hsp : C.findIdx? (fun c => decide (c = codes "spread_pct")) = none)
    (rs0 : List LRow) (hne : rs0 ≠ [])
    (hn : normalize_columns (DF.mk C (rs0.map enc)) = .ok (DF.mk C (rs0.map enc))) :
    analyze_liquidity (DF.mk C (rs0.map enc))
      = .ok (liqMetrics spQ (fun _ => 0) (rs0.filter spKeep)) := by
  have hicl : ic < C.length := by
    have := findIdx?_lt_length hic
    omega
  have hE : (DF.mk C (rs0.map enc)).isEmpty = false := by
    have hCne : C ≠ [] := by
      intro hC
      rw [hC, List.findIdx?_nil] at hib
      exact Option.noConfusion hib
    simp [DF.isEmpty, List.isEmpty_iff, hne, hCne]
  have hcond : ((DF.mk C (rs0.map enc)).hasCol (codes "ask")
      && (DF.mk C (rs0.map enc)).hasCol (codes "bid")
      && (DF.mk C (rs0.map enc)).hasCol (codes "close")) = true := by
    simp [DF.hasCol, DF.colIdx, hia, hib, hic]
  rw [analyze_liquidity, hn]
  simp only [Bind.bind, Except.bind, hE, Bool.false_eq_true, if_false, hcond, if_true]
  rw [getCol_typed C (codes "ask") ia hia enc (fun r => Val.num r.ask) hca rs0,
    getCol_typed C (codes "bid") ib hib enc (fun r => Val.num r.bid) hcb rs0]
  simp only [Except.bind]
  rw [zip_map_eq_map,
    mapM_ok_comp (fun p => vSub p.1 p.2) (fun (r : LRow) => (Val.num r.ask, Val.num r.bid))
      (fun (r : LRow) => Val.num (r.ask - r.bid)) (fun r => rfl) rs0]
  simp only [Except.bind]
  rw [setCol_typed C (codes "spread_abs") hsa enc (fun r => Val.num (r.ask - r.bid)) rs0]
  rw [getCol_typed (C ++ [codes "spread_abs"]) (codes "close") ic (findIdx?_append_left hic)
    (fun r => enc r ++ [Val.num (r.ask - r.bid)]) (fun r => Val.num r.close)
    (fun r => by rw [cellAt_append_left (by rw [hlen r]; exact hicl)]; exact hcc r) rs0]
  simp only [Except.bind]
  rw [getCol_typed (C ++ [codes "spread_abs"]) (codes "spread_abs") C.length
    (findIdx?_append_one_some hsa (by decide))
    (fun r => enc r ++ [Val.num (r.ask - r.bid)]) (fun r => Val.num (r.ask - r.bid))
    (fun r => cellAt_append_self (hlen r)) rs0]
  simp only [Except.bind]
  rw [zip_map_eq_map,
    mapM_ok_comp (fun p => vWhereSpread p.1 p.2)
      (fun (r : LRow) => (Val.num (r.ask - r.bid), Val.num r.close))
      (fun (r : LRow) => Val.num (spQ r))
      (fun r => by
        by_cases h : 0 < r.close
        · simp [vWhereSpread, spQ, h, pure, Except.pure]
        · simp [vWhereSpread, spQ, h, pure, Except.pure]) rs0]
  simp only [Except.bind]
  rw [setCol_typed (C ++ [codes "spread_abs"]) (codes "spread_pct")
    (findIdx?_append_one_none hsp (by decide))
    (fun r => enc r ++ [Val.num (r.ask - r.bid)]) (fun r => Val.num (spQ r)) rs0]
  rw [maskE_typed ((C ++ [codes "spread_abs"]) ++ [codes "spread_pct"]) (codes "spread_pct")
    (C ++ [codes "spread_abs"]).length
    (findIdx?_append_one_some (findIdx?_append_one_none hsp (by decide)) (by decide))
    (fun r => (enc r ++ [Val.num (r.ask - r.bid)]) ++ [Val.num (spQ r)])
    (fun v => vLtQ v 100) spKeep
    (fun r => by rw [cellAt_append_self (by simp [hlen r])]; rfl) rs0]
  simp only [Except.bind]
  rw [applyMask_typed ((C ++ [codes "spread_abs"]) ++ [codes "spread_pct"])
    (fun r => (enc r ++ [Val.num (r.ask - r.bid)]) ++ [Val.num (spQ r)]) spKeep rs0]
  simp only [pure, Except.pure]
  have hv3 : (DF.mk (C ++ [codes "spread_abs"] ++ [codes "spread_pct"])
      ((rs0.filter spKeep).map
        (fun r => enc r ++ [Val.num (r.ask - r.bid)] ++ [Val.num (spQ r)]))).hasCol
      (codes "volume") = false := by
    simp only [DF.hasCol, DF.colIdx]
    rw [findIdx?_append_one_none (findIdx?_append_one_none hjv (by decide)) (by decide)]
    rfl
  simp only [hv3, Bool.not_false, if_true]
  rw [show (DF.mk (C ++ [codes "spread_abs"] ++ [codes "spread_pct"])
      ((rs0.filter spKeep).map
        (fun r => enc r ++ [Val.num (r.ask - r.bid)] ++ [Val.num (spQ r)]))).rows.map
      (fun _ => Val.num 0)
      = (rs0.filter spKeep).map (fun (_ : LRow) => Val.num 0) from by
    rw [List.map_map]
    exact List.map_congr_left (fun a _ => rfl)]
  rw [setCol_typed (C ++ [codes "spread_abs"] ++ [codes "spread_pct"]) (codes "volume")
    (findIdx?_append_one_none (findIdx?_append_one_none hjv (by decide)) (by decide))
    (fun r => enc r ++ [Val.num (r.ask - r.bid)] ++ [Val.num (spQ r)])
    (fun _ => Val.num 0) (rs0.filter spKeep)]
  rw [getCol_typed (C ++ [codes "spread_abs"] ++ [codes "spread_pct"] ++ [codes "volume"])
    (codes "spread_pct") (C ++ [codes "spread_abs"]).length
    (findIdx?_append_left
      (findIdx?_append_one_some (findIdx?_append_one_none hsp (by decide)) (by decide)))
    (fun r => enc r ++ [Val.num (r.ask - r.bid)] ++ [Val.num (spQ r)] ++ [Val.num 0])
    (fun r => Val.num (spQ r))
    (fun r => by
      rw [cellAt_append_left (by simp only [List.length_append, List.length_cons,
        List.length_nil, hlen r]; omega)]
      exact cellAt_append_self (by simp [hlen r]))
    (rs0.filter spKeep)]
  rw [getCol_typed (C ++ [codes "spread_abs"] ++ [codes "spread_pct"] ++ [codes "volume"])
    (codes "volume") (C ++ [codes "spread_abs"] ++ [codes "spread_pct"]).length
    (findIdx?_append_one_some
      (findIdx?_append_one_none (findIdx?_append_one_none hjv (by decide)) (by decide))
      (by decide))
    (fun r => enc r ++ [Val.num (r.ask - r.bid)] ++ [Val.num (spQ r)] ++ [Val.num 0])
    (fun _ => Val.num 0)
    (fun r => cellAt_append_self (by simp [hlen r]))
    (rs0.filter spKeep)]
  simp only []
  rw [colMeanQ_num spQ (rs0.filter spKeep), colMaxQ_num spQ (rs0.filter spKeep),
    colSumQ_num (fun _ => (0 : ℚ)) (rs0.filter spKeep),
    colMeanQ_num (fun _ => (0 : ℚ)) (rs0.filter spKeep)]
  rw [mapM_ok_comp (fun v => vGtQ v 10) (fun (r : LRow) => Val.num (spQ r))
    (fun (r : LRow) => decide ((10 : ℚ) < spQ r)) (fun r => rfl) (rs0.filter spKeep)]
  simp only [Except.bind]
  have hvz : ∀ r : LRow, vEqCmp (Val.num 0) (Val.num 0) = decide ((fun (_ : LRow) => (0 : ℚ)) r = 0) := by
    intro r
    simp [vEqCmp]
  rw [List.map_map]
  rw [show List.map ((fun v => vEqCmp v (Val.num 0)) ∘ (fun (_ : LRow) => Val.num 0))
      (List.filter spKeep rs0)
    = List.map (fun (r : LRow) => decide ((fun (_ : LRow) => (0 : ℚ)) r = 0)) (List.filter spKeep rs0)
    from List.map_congr_left (fun a _ => hvz a)]
  rw [colNums_num spQ (rs0.filter spKeep)]
  have hco : (C ++ [codes "spread_abs"] ++ [codes "spread_pct"] ++ [codes "volume"]).isEmpty
      = false := by
    cases C <;> rfl
  have hme : ∀ (l : List LRow),
      (List.map (fun r => enc r ++ [Val.num (r.ask - r.bid)] ++ [Val.num (spQ r)]
        ++ [Val.num 0]) l).isEmpty = l.isEmpty := by
    intro l
    cases l <;> rfl
  simp only [DF.isEmpty, hco, Bool.or_false, hme, List.length_map]
  cases hfl : List.filter spKeep rs0 with
  | nil => rfl
  | cons x xs =>
      simp only [liqMetrics, List.isEmpty_cons, Bool.not_false, if_true, List.map_cons,
        List.length_cons, Bool.false_eq_true, if_false]
      rw [if_pos (Nat.succ_pos xs.length)]

/-- Full evaluation of `analyze_liquidity` when the bid/ask/close triple
is incomplete but a `volume` column exists: all spreads are zero. -/
theorem analyze_liquidity_nospread_vol
    (C : List (List Nat)) (enc : LRow → List Val)
    (hlen : ∀ r, (enc r).length = C.length)
    (jv : Nat)
    (hjv : C.findIdx? (fun c => decide (c = codes "volume")) = some jv)
    (hcv : ∀ r, cellAt (enc r) jv = .num r.volume)
    (hncond : ((C.findIdx? (fun c => decide (c = codes "ask"))).isSome
      && (C.findIdx? (fun c => decide (c = codes "bid"))).isSome
      && (C.findIdx? (fun c => decide (c = codes "close"))).isSome) = false)
    (hsp : C.findIdx? (fun c => decide (c = codes "spread_pct")) = none)
    (rs0 : List LRow) (hne : rs0 ≠ [])
    (hn : normalize_columns (DF.mk C (rs0.map enc)) = .ok (DF.mk C (rs0.map enc))) :
    analyze_liquidity (DF.mk C (rs0.map enc))
      = .ok (liqMetrics (fun _ => 0) LRow.volume rs0) := by
  have hjvl : jv < C.length := by
    have := findIdx?_lt_length hjv
    omega
  have hE : (DF.mk C (rs0.map enc)).isEmpty = false := by
    have hCne : C ≠ [] := by
      intro hC
      rw [hC, List.findIdx?_nil] at hjv
      exact Option.noConfusion hjv
    simp [DF.isEmpty, List.isEmpty_iff, hne, hCne]
  have hcond : ((DF.mk C (rs0.map enc)).hasCol (codes "ask")
      && (DF.mk C (rs0.map enc)).hasCol (codes "bid")
      && (DF.mk C (rs0.map enc)).hasCol (codes "close")) = false := hncond
  rw [analyze_liquidity, hn]
  simp only [Bind.bind, Except.bind, hE, Bool.false_eq_true, if_false, hcond]
  rw [show (DF.mk C (rs0.map enc)).rows.map (fun _ => Val.num 0)
      = rs0.map (fun (_ : LRow) => Val.num 0) from by
    rw [List.map_map]
    exact List.map_congr_left (fun a _ => rfl)]
  rw [setCol_typed C (codes "spread_pct") hsp enc (fun _ => Val.num 0) rs0]
  simp only [pure, Except.pure]
  have hv3 : (DF.mk (C ++ [codes "spread_pct"])
      (rs0.map (fun r => enc r ++ [Val.num 0]))).hasCol (codes "volume") = true := by
    simp only [DF.hasCol, DF.colIdx]
    rw [findIdx?_append_left hjv]
    rfl
  simp only [hv3, Bool.not_true, Bool.false_eq_true, if_false]
  rw [getCol_typed (C ++ [codes "spread_pct"]) (codes "spread_pct") C.length
    (findIdx?_append_one_some hsp (by decide))
    (fun r => enc r ++ [Val.num 0]) (fun _ => Val.num 0)
    (fun r => cellAt_append_self (hlen r)) rs0]
  rw [getCol_typed (C ++ [codes "spread_pct"]) (codes "volume") jv
    (findIdx?_append_left hjv)
    (fun r => enc r ++ [Val.num 0]) (fun r => Val.num r.volume)
    (fun r => by
      rw [cellAt_append_left (by rw [hlen r]; exact hjvl)]
      exact hcv r) rs0]
  simp only []
  rw [colMeanQ_num (fun _ => (0 : ℚ)) rs0, colMaxQ_num (fun _ => (0 : ℚ)) rs0,
    colSumQ_num LRow.volume rs0, colMeanQ_num LRow.volume rs0]
  rw [mapM_ok_comp (fun v => vGtQ v 10) (fun (_ : LRow) => Val.num 0)
    (fun (_ : LRow) => decide ((10 : ℚ) < (0 : ℚ))) (fun r => rfl) rs0]
  simp only [Except.bind]
  have hvz : ∀ r : LRow, vEqCmp (Val.num r.volume) (Val.num 0) = decide (r.volume = 0) := by
    intro r
    simp [vEqCmp]
  rw [List.map_map]
  rw [show List.map ((fun v => vEqCmp v (Val.num 0)) ∘ (fun (r : LRow) => Val.num r.volume)) rs0
    = List.map (fun (r : LRow) => decide (r.volume = 0)) rs0
    from List.map_congr_left (fun a _ => hvz a)]
  rw [colNums_num (fun _ => (0 : ℚ)) rs0]
  have hco : (C ++ [codes "spread_pct"]).isEmpty = false := by
    cases C <;> rfl
  have hme : ∀ (l : List LRow),
      (List.map (fun r => enc r ++ [Val.num 0]) l).isEmpty = l.isEmpty := by
    intro l
    cases l <;> rfl
  simp only [DF.isEmpty, hco, Bool.or_false, hme, List.length_map]
  cases rs0 with
  | nil => exact absurd rfl hne
  | cons x xs =>
      simp only [liqMetrics, List.isEmpty_cons, Bool.not_false, if_true, List.map_cons,
        List.length_cons, Bool.false_eq_true, if_false]
      rw [if_pos (Nat.succ_pos xs.length)]

/-- Full evaluation of `analyze_liquidity` when neither the bid/ask/close
triple nor a `volume` column is available. -/
theorem analyze_liquidity_nospread_novol
    (C : List (List Nat)) (enc : LRow → List Val)
    (hlen : ∀ r, (enc r).length = C.length)
    (hCne : C ≠ [])
    (hjv : C.findIdx? (fun c => decide (c = codes "volume")) = none)
    (hncond : ((C.findIdx? (fun c => decide (c = codes "ask"))).isSome
      && (C.findIdx? (fun c => decide (c = codes "bid"))).isSome
      && (C.findIdx? (fun c => decide (c = codes "close"))).isSome) = false)
    (hsp : C.findIdx? (fun c => decide (c = codes "spread_pct")) = none)
    (rs0 : List LRow) (hne : rs0 ≠ [])
    (hn : normalize_columns (DF.mk C (rs0.map enc)) = .ok (DF.mk C (rs0.map enc))) :
    analyze_liquidity (DF.mk C (rs0.map enc))
      = .ok (liqMetrics (fun _ => 0) (fun _ => 0) rs0) := by
  have hE : (DF.mk C (rs0.map enc)).isEmpty = false := by
    simp [DF.isEmpty, List.isEmpty_iff, hne, hCne]
  have hcond : ((DF.mk C (rs0.map enc)).hasCol (codes "ask")
      && (DF.mk C (rs0.map enc)).hasCol (codes "bid")
      && (DF.mk C (rs0.map enc)).hasCol (codes "close")) = false := hncond
  rw [analyze_liquidity, hn]
  simp only [Bind.bind, Except.bind, hE, Bool.false_eq_true, if_false, hcond]
  rw [show (DF.mk C (rs0.map enc)).rows.map (fun _ => Val.num 0)
      = rs0.map (fun (_ : LRow) => Val.num 0) from by
    rw [List.map_map]
    exact List.map_congr_left (fun a _ => rfl)]
  rw [setCol_typed C (codes "spread_pct") hsp enc (fun _ => Val.num 0) rs0]
  simp only [pure, Except.pure]
  have hv3 : (DF.mk (C ++ [codes "spread_pct"])
      (rs0.map (fun r => enc r ++ [Val.num 0]))).hasCol (codes "volume") = false := by
    simp only [DF.hasCol, DF.colIdx]
    rw [findIdx?_append_one_none hjv (by decide)]
    rfl
  simp only [hv3, Bool.not_false, if_true]
  rw [show (DF.mk (C ++ [codes "spread_pct"])
      (rs0.map (fun r => enc r ++ [Val.num 0]))).rows.map (fun _ => Val.num 0)
      = rs0.map (fun (_ : LRow) => Val.num 0) from by
    rw [List.map_map]
    exact List.map_congr_left (fun a _ => rfl)]
  rw [setCol_typed (C ++ [codes "spread_pct"]) (codes "volume")
    (findIdx?_append_one_none hjv (by decide))
    (fun r => enc r ++ [Val.num 0]) (fun _ => Val.num 0) rs0]
  rw [getCol_typed (C ++ [codes "spread_pct"] ++ [codes "volume"]) (codes "spread_pct")
    C.length
    (findIdx?_append_left (findIdx?_append_one_some hsp (by decide)))
    (fun r => enc r ++ [Val.num 0] ++ [Val.num 0]) (fun _ => Val.num 0)
    (fun r => by
      rw [cellAt_append_left (by simp only [List.length_append, List.length_cons,
        List.length_nil, hlen r]; omega)]
      exact cellAt_append_self (hlen r)) rs0]
  rw [getCol_typed (C ++ [codes "spread_pct"] ++ [codes "volume"]) (codes "volume")
    (C ++ [codes "spread_pct"]).length
    (findIdx?_append_one_some (findIdx?_append_one_none hjv (by decide)) (by decide))
    (fun r => enc r ++ [Val.num 0] ++ [Val.num 0]) (fun _ => Val.num 0)
    (fun r => cellAt_append_self (by simp [hlen r])) rs0]
  simp only []
  rw [colMeanQ_num (fun _ => (0 : ℚ)) rs0, colMaxQ_num (fun _ => (0 : ℚ)) rs0,
    colSumQ_num (fun _ => (0 : ℚ)) rs0]
  rw [mapM_ok_comp (fun v => vGtQ v 10) (fun (_ : LRow) => Val.num 0)
    (fun (_ : LRow) => decide ((10 : ℚ) < (0 : ℚ))) (fun r => rfl) rs0]
  simp only [Except.bind]
  have hvz : ∀ r : LRow, vEqCmp (Val.num 0) (Val.num 0)
      = decide ((fun (_ : LRow) => (0 : ℚ)) r = 0) := by
    intro r
    simp [vEqCmp]
  rw [List.map_map]
  rw [show List.map ((fun v => vEqCmp v (Val.num 0)) ∘ (fun (_ : LRow) => Val.num 0)) rs0
    = List.map (fun (r : LRow) => decide ((fun (_ : LRow) => (0 : ℚ)) r = 0)) rs0
    from List.map_congr_left (fun a _ => hvz a)]
  rw [colNums_num (fun _ => (0 : ℚ)) rs0]
  have hco : (C ++ [codes "spread_pct"] ++ [codes "volume"]).isEmpty = false := by
    cases C <;> rfl
  have hme : ∀ (l : List LRow),
      (List.map (fun r => enc r ++ [Val.num 0] ++ [Val.num 0]) l).isEmpty = l.isEmpty := by
    intro l
    cases l <;> rfl
  simp only [DF.isEmpty, hco, Bool.or_false, hme, List.length_map]
  cases rs0 with
  | nil => exact absurd rfl hne
  | cons x xs =>
      simp only [liqMetrics, List.isEmpty_cons, Bool.not_false, if_true, List.map_cons,
        List.length_cons, Bool.false_eq_true, if_false]
      rw [if_pos (Nat.succ_pos xs.length)]

/-- Uncrossed quotes give a nonnegative per-row spread. -/
theorem spQ_nonneg (r : LRow) (h : r.bid ≤ r.ask) : 0 ≤ spQ r := by
  unfold spQ
  split
  · next hclose =>
      apply mul_nonneg (div_nonneg (by linarith) (le_of_lt hclose))
      norm_num
  · exact le_refl 0

/-- The stress index of the closed-form record is defined and bounded in
`[0, 100]` whenever every retained spread is nonnegative. -/
theorem liqStress_bounds (sp vol : LRow → ℚ) (l : List LRow)
    (hnn : ∀ r ∈ l, 0 ≤ sp r) :
    ∃ s : ℚ, (liqMetrics sp vol l).lookup "liquidity_stress_index" = some (Val.num s) ∧
      0 ≤ s ∧ s ≤ 100 := by
  cases l with
  | nil => exact ⟨0, rfl, le_refl 0, by norm_num⟩
  | cons x xs =>
      refine ⟨min (((x :: xs).map sp).sum / ((x :: xs).map sp).length / 5 * 50 +
        (((x :: xs).map (fun r => decide ((10 : ℚ) < sp r))).count true : ℕ)
          / ((x :: xs).length : ℚ) * 50) 100, ?_, ?_, min_le_right _ _⟩
      · rfl
      · apply le_min _ (by norm_num)
        apply add_nonneg
        · apply mul_nonneg _ (by norm_num)
          apply div_nonneg _ (by norm_num)
          apply div_nonneg _ (by positivity)
          apply List.sum_nonneg
          intro q hq
          obtain ⟨r, hr, rfl⟩ := List.mem_map.mp hq
          exact hnn r hr
        · apply mul_nonneg _ (by norm_num)
          apply div_nonneg (by positivity) (by positivity)

/-- Column layout of the typed price table for `analyze_liquidity`
(each of `bid`, `ask`, `close`, `volume` present iff its flag is set). -/
def liqCols (hb ha hc hv : Bool) : List (List Nat) :=
  (if hb then [codes "bid"] else []) ++ (if ha then [codes "ask"] else []) ++
    (if hc then [codes "close"] else []) ++ (if hv then [codes "volume"] else [])

/-- Cells of one typed price row, matching `liqCols`. -/
def liqCells (hb ha hc hv : Bool) (r : LRow) : List Val :=
  (if hb then [Val.num r.bid] else []) ++ (if ha then [Val.num r.ask] else []) ++
    (if hc then [Val.num r.close] else []) ++ (if hv then [Val.num r.volume] else [])

/-- A typed price table with any combination of the four columns. -/
def liqTable (hb ha hc hv : Bool) (rs : List LRow) : DF :=
  DF.mk (liqCols hb ha hc hv) (rs.map (liqCells hb ha hc hv))

/-- C8, amended: for every non-empty price table (any combination of
present/absent `bid`/`ask`/`close`/`volume` columns) whose quotes are
uncrossed (`bid ≤ ask` whenever the spread is computed at all), the
`liquidity_stress_index` is defined and lies in `[0, 100]`; a table with
no rows yields the empty record `{}` instead of an index of 0. -/
theorem c8_amended (hb ha hc hv : Bool) (rs : List LRow)
    (hne : rs ≠ []) (hcols : (hb || ha || hc || hv) = true)
    (hcross : (hb && ha && hc) = true → ∀ r ∈ rs, r.bid ≤ r.ask) :
    (∃ s : ℚ, Except.map (fun m => m.lookup "liquidity_stress_index")
        (analyze_liquidity (liqTable hb ha hc hv rs)) = .ok (some (Val.num s)) ∧
      0 ≤ s ∧ s ≤ 100) ∧
    analyze_liquidity (liqTable hb ha hc hv []) = .ok [] := by
  obtain ⟨a, rs2, rfl⟩ := List.exists_cons_of_ne_nil hne
  cases hb <;> cases ha <;> cases hc <;> cases hv
  · simp at hcols
  · refine ⟨?_, rfl⟩
    obtain ⟨s, hs, h0, h1⟩ := liqStress_bounds (fun _ => 0) LRow.volume (a :: rs2) (fun r _ => le_refl 0)
    refine ⟨s, ?_, h0, h1⟩
    rw [show liqTable false false false true (a :: rs2) = DF.mk [codes "volume"] ((a :: rs2).map (liqCells false false false true)) from rfl]
    rw [analyze_liquidity_nospread_vol [codes "volume"] (liqCells false false false true) (fun r => rfl) 0 rfl (fun r => rfl) rfl rfl (a :: rs2) (List.cons_ne_nil a rs2) rfl]
    simp only [Except.map]
    rw [hs]
  · refine ⟨?_, rfl⟩
    obtain ⟨s, hs, h0, h1⟩ := liqStress_bounds (fun _ => 0) (fun _ => 0) (a :: rs2) (fun r _ => le_refl 0)
    refine ⟨s, ?_, h0, h1⟩
    rw [show liqTable false false true false (a :: rs2) = DF.mk [codes "close"] ((a :: rs2).map (liqCells false false true false)) from rfl]
    rw [analyze_liquidity_nospread_novol [codes "close"] (liqCells false false true false) (fun r => rfl) (by decide) rfl rfl rfl (a :: rs2) (List.cons_ne_nil a rs2) rfl]
    simp only [Except.map]
    rw [hs]
  · refine ⟨?_, rfl⟩
    obtain ⟨s, hs, h0, h1⟩ := liqStress_bounds (fun _ => 0) LRow.volume (a :: rs2) (fun r _ => le_refl 0)
    refine ⟨s, ?_, h0, h1⟩
    rw [show liqTable false false true true (a :: rs2) = DF.mk [codes "close", codes "volume"] ((a :: rs2).map (liqCells false false true true)) from rfl]
    rw [analyze_liquidity_nospread_vol [codes "close", codes "volume"] (liqCells false false true true) (fun r => rfl) 1 rfl (fun r => rfl) rfl rfl (a :: rs2) (List.cons_ne_nil a rs2) rfl]
    simp only [Except.map]
    rw [hs]
  · refine ⟨?_, rfl⟩
    obtain ⟨s, hs, h0, h1⟩ := liqStress_bounds (fun _ => 0) (fun _ => 0) (a :: rs2) (fun r _ => le_refl 0)
    refine ⟨s, ?_, h0, h1⟩
    rw [show liqTable false true false false (a :: rs2) = DF.mk [codes "ask"] ((a :: rs2).map (liqCells false true false false)) from rfl]
    rw [analyze_liquidity_nospread_novol [codes "ask"] (liqCells false true false false) (fun r => rfl) (by decide) rfl rfl rfl (a :: rs2) (List.cons_ne_nil a rs2) rfl]
    simp only [Except.map]
    rw [hs]
  · refine ⟨?_, rfl⟩
    obtain ⟨s, hs, h0, h1⟩ := liqStress_bounds (fun _ => 0) LRow.volume (a :: rs2) (fun r _ => le_refl 0)
    refine ⟨s, ?_, h0, h1⟩
    rw [show liqTable false true false true (a :: rs2) = DF.mk [codes "ask", codes "volume"] ((a :: rs2).map (liqCells false true false true)) from rfl]
    rw [analyze_liquidity_nospread_vol [codes "ask", codes "volume"] (liqCells false true false true) (fun r => rfl) 1 rfl (fun r => rfl) rfl rfl (a :: rs2) (List.cons_ne_nil a rs2) rfl]
    simp only [Except.map]
    rw [hs]
  · refine ⟨?_, rfl⟩
    obtain ⟨s, hs, h0, h1⟩ := liqStress_bounds (fun _ => 0) (fun _ => 0) (a :: rs2) (fun r _ => le_refl 0)
    refine ⟨s, ?_, h0, h1⟩
    rw [show liqTable false true true false (a :: rs2) = DF.mk [codes "ask", codes "close"] ((a :: rs2).map (liqCells false true true false)) from rfl]
    rw [analyze_liquidity_nospread_novol [codes "ask", codes "close"] (liqCells false true true false) (fun r => rfl) (by decide) rfl rfl rfl (a :: rs2) (List.cons_ne_nil a rs2) rfl]
    simp only [Except.map]
    rw [hs]
  · refine ⟨?_, rfl⟩
    obtain ⟨s, hs, h0, h1⟩ := liqStress_bounds (fun _ => 0) LRow.volume (a :: rs2) (fun r _ => le_refl 0)
    refine ⟨s, ?_, h0, h1⟩
    rw [show liqTable false true true true (a :: rs2) = DF.mk [codes "ask", codes "close", codes "volume"] ((a :: rs2).map (liqCells false true true true)) from rfl]
    rw [analyze_liquidity_nospread_vol [codes "ask", codes "close", codes "volume"] (liqCells false true true true) (fun r => rfl) 2 rfl (fun r => rfl) rfl rfl (a :: rs2) (List.cons_ne_nil a rs2) rfl]
    simp only [Except.map]
    rw [hs]
  · refine ⟨?_, rfl⟩
    obtain ⟨s, hs, h0, h1⟩ := liqStress_bounds (fun _ => 0) (fun _ => 0) (a :: rs2) (fun r _ => le_refl 0)
    refine ⟨s, ?_, h0, h1⟩
    rw [show liqTable true false false false (a :: rs2) = DF.mk [codes "bid"] ((a :: rs2).map (liqCells true false false false)) from rfl]
    rw [analyze_liquidity_nospread_novol [codes "bid"] (liqCells true false false false) (fun r => rfl) (by decide) rfl rfl rfl (a :: rs2) (List.cons_ne_nil a rs2) rfl]
    simp only [Except.map]
    rw [hs]
  · refine ⟨?_, rfl⟩
    obtain ⟨s, hs, h0, h1⟩ := liqStress_bounds (fun _ => 0) LRow.volume (a :: rs2) (fun r _ => le_refl 0)
    refine ⟨s, ?_, h0, h1⟩
    rw [show liqTable true false false true (a :: rs2) = DF.mk [codes "bid", codes "volume"] ((a :: rs2).map (liqCells true false false true)) from rfl]
    rw [analyze_liquidity_nospread_vol [codes "bid", codes "volume"] (liqCells true false false true) (fun r => rfl) 1 rfl (fun r => rfl) rfl rfl (a :: rs2) (List.cons_ne_nil a rs2) rfl]
    simp only [Except.map]
    rw [hs]
  · refine ⟨?_, rfl⟩
    obtain ⟨s, hs, h0, h1⟩ := liqStress_bounds (fun _ => 0) (fun _ => 0) (a :: rs2) (fun r _ => le_refl 0)
    refine ⟨s, ?_, h0, h1⟩
    rw [show liqTable true false true false (a :: rs2) = DF.mk [codes "bid", codes "close"] ((a :: rs2).map (liqCells true false true false)) from rfl]
    rw [analyze_liquidity_nospread_novol [codes "bid", codes "close"] (liqCells true false true false) (fun r => rfl) (by decide) rfl rfl rfl (a :: rs2) (List.cons_ne_nil a rs2) rfl]
    simp only [Except.map]
    rw [hs]
  · refine ⟨?_, rfl⟩
    obtain ⟨s, hs, h0, h1⟩ := liqStress_bounds (fun _ => 0) LRow.volume (a :: rs2) (fun r _ => le_refl 0)
    refine ⟨s, ?_, h0, h1⟩
    rw [show liqTable true false true true (a :: rs2) = DF.mk [codes "bid", codes "close", codes "volume"] ((a :: rs2).map (liqCells true false true true)) from rfl]
    rw [analyze_liquidity_nospread_vol [codes "bid", codes "close", codes "volume"] (liqCells true false true true) (fun r => rfl) 2 rfl (fun r => rfl) rfl rfl (a :: rs2) (List.cons_ne_nil a rs2) rfl]
    simp only [Except.map]
    rw [hs]
  · refine ⟨?_, rfl⟩
    obtain ⟨s, hs, h0, h1⟩ := liqStress_bounds (fun _ => 0) (fun _ => 0) (a :: rs2) (fun r _ => le_refl 0)
    refine ⟨s, ?_, h0, h1⟩
    rw [show liqTable true true false false (a :: rs2) = DF.mk [codes "bid", codes "ask"] ((a :: rs2).map (liqCells true true false false)) from rfl]
    rw [analyze_liquidity_nospread_novol [codes "bid", codes "ask"] (liqCells true true false false) (fun r => rfl) (by decide) rfl rfl rfl (a :: rs2) (List.cons_ne_nil a rs2) rfl]
    simp only [Except.map]
    rw [hs]
  · refine ⟨?_, rfl⟩
    obtain ⟨s, hs, h0, h1⟩ := liqStress_bounds (fun _ => 0) LRow.volume (a :: rs2) (fun r _ => le_refl 0)
    refine ⟨s, ?_, h0, h1⟩
    rw [show liqTable true true false true (a :: rs2) = DF.mk [codes "bid", codes "ask", codes "volume"] ((a :: rs2).map (liqCells true true false true)) from rfl]
    rw [analyze_liquidity_nospread_vol [codes "bid", codes "ask", codes "volume"] (liqCells true true false true) (fun r => rfl) 2 rfl (fun r => rfl) rfl rfl (a :: rs2) (List.cons_ne_nil a rs2) rfl]
    simp only [Except.map]
    rw [hs]
  · refine ⟨?_, rfl⟩
    have hnn : ∀ r ∈ (a :: rs2).filter spKeep, 0 ≤ spQ r := by
      intro r hr
      exact spQ_nonneg r (hcross rfl r (List.mem_of_mem_filter hr))
    obtain ⟨s, hs, h0, h1⟩ := liqStress_bounds spQ (fun _ => 0) ((a :: rs2).filter spKeep) hnn
    refine ⟨s, ?_, h0, h1⟩
    rw [show liqTable true true true false (a :: rs2) = DF.mk [codes "bid", codes "ask", codes "close"] ((a :: rs2).map (liqCells true true true false)) from rfl]
    rw [analyze_liquidity_spread_novol [codes "bid", codes "ask", codes "close"] (liqCells true true true false) (fun r => rfl) 0 1 2 rfl rfl rfl rfl (fun r => rfl) (fun r => rfl) (fun r => rfl) rfl rfl (a :: rs2) (List.cons_ne_nil a rs2) rfl]
    simp only [Except.map]
    rw [hs]
  · refine ⟨?_, rfl⟩
    have hnn : ∀ r ∈ (a :: rs2).filter spKeep, 0 ≤ spQ r := by
      intro r hr
      exact spQ_nonneg r (hcross rfl r (List.mem_of_mem_filter hr))
    obtain ⟨s, hs, h0, h1⟩ := liqStress_bounds spQ LRow.volume ((a :: rs2).filter spKeep) hnn
    refine ⟨s, ?_, h0, h1⟩
    rw [show liqTable true true true true (a :: rs2) = DF.mk [codes "bid", codes "ask", codes "close", codes "volume"] ((a :: rs2).map (liqCells true true true true)) from rfl]
    rw [analyze_liquidity_spread_vol [codes "bid", codes "ask", codes "close", codes "volume"] (liqCells true true true true) (fun r => rfl) 0 1 2 3 rfl rfl rfl rfl (fun r => rfl) (fun r => rfl) (fun r => rfl) (fun r => rfl) rfl rfl (a :: rs2) (List.cons_ne_nil a rs2) rfl]
    simp only [Except.map]
    rw [hs]

unseal Rat.add Rat.mul Rat.sub Rat.inv in
/-- C8 counterexample: a crossed quote (bid 10, ask 5, close 10) drives
the liquidity stress index to −500, outside the claimed `[0, 100]`; and a
table with no rows returns the empty record, not an index of 0. -/
theorem c8_counterexample :
    Except.map (fun m => m.lookup "liquidity_stress_index")
      (analyze_liquidity (liqTable true true true true [⟨10, 5, 10, 1⟩]))
      = .ok (some (Val.num (-500))) ∧
    ¬((0 : ℚ) ≤ -500) ∧
    analyze_liquidity (DF.mk [] []) = .ok [] := by
  refine ⟨by decide, by decide, rfl⟩

unseal Rat.add Rat.mul Rat.sub Rat.inv in
/-- C8 amended-claim witness: an uncrossed one-row table has a defined
stress index within bounds. -/
theorem c8_amended_witness :
    ∃ s : ℚ, Except.map (fun m => m.lookup "liquidity_stress_index")
        (analyze_liquidity (liqTable true true true true [⟨10, 11, 10, 1⟩]))
        = .ok (some (Val.num s)) ∧ 0 ≤ s ∧ s ≤ 100 :=
  (c8_amended true true true true [⟨10, 11, 10, 1⟩] (by decide) (by decide)
    (fun _ => by decide)).1

/-- The canonical `right` strings, indexed by put/call. -/
def rightStr (b : Bool) : List Nat := if b then codes "PUT" else codes "CALL"

/-- Cell of an optional numeric field (`NaN` when missing). -/
def optCell (o : Option ℚ) : Val :=
  match o with
  | some q => Val.num q
  | none => Val.null

/-- `abs` of an optional-delta cell. -/
def absCellO (o : Option ℚ) : Val :=
  match o with
  | some q => Val.num |q|
  | none => Val.null

/-- Absolute delta of a typed row (the engine's sort key). -/
def dKeyB {β : Type} (deltaB : β → Option ℚ) (r : β) : ℚ := |(deltaB r).getD 0|

/-- The row filter of `interpolate_iv_at_delta`: right matches the target,
IV positive, delta defined. -/
def interpPredB {β : Type} (putB : β → Bool) (ivB : β → ℚ) (deltaB : β → Option ℚ)
    (tgt : Bool) (r : β) : Bool :=
  ((putB r == tgt) && decide (0 < ivB r)) && (deltaB r).isSome

/-- Typed closed form of `interpolate_iv_at_delta` on a table whose rows
project to a right flag, an IV and an optional delta. -/
def interpCoreB {β : Type} (putB : β → Bool) (ivB : β → ℚ) (deltaB : β → Option ℚ)
    (tgt : Bool) (rs : List β) (t : ℚ) : Option ℚ :=
  if (rs.filter (interpPredB putB ivB deltaB tgt)).isEmpty then none
  else
    match listMin ((insSortQ (dKeyB deltaB) (rs.filter (interpPredB putB ivB deltaB tgt))).map
            (dKeyB deltaB)),
          listMax ((insSortQ (dKeyB deltaB) (rs.filter (interpPredB putB ivB deltaB tgt))).map
            (dKeyB deltaB)) with
    | some mn, some mx =>
        if mn > t ∨ mx < t then none
        else interp1dCall
          ((insSortQ (dKeyB deltaB) (rs.filter (interpPredB putB ivB deltaB tgt))).map
            (dKeyB deltaB))
          ((insSortQ (dKeyB deltaB) (rs.filter (interpPredB putB ivB deltaB tgt))).map ivB) t
    | _, _ => none

theorem colQs_num {β : Type} (g : β → ℚ) (rs : List β) :
    colQs (rs.map (fun r => Val.num (g r))) = some (rs.map g) := by
  induction rs with
  | nil => rfl
  | cons a u ih =>
      simp only [colQs] at ih ⊢
      rw [List.map_cons, List.mapM_cons, ih]
      rfl

theorem vEqCmp_rightStr (b c : Bool) :
    vEqCmp (Val.str (rightStr b)) (Val.str (rightStr c)) = (b == c) := by
  cases b <;> cases c <;> decide

theorem vNotNa_optCell (o : Option ℚ) : vNotNa (optCell o) = o.isSome := by
  cases o <;> rfl

theorem vAbs_optCell (o : Option ℚ) : vAbs (optCell o) = .ok (absCellO o) := by
  cases o <;> rfl

/-- `insertSortedQ` always yields a nonempty list. -/
theorem insertSortedQ_exists_cons {α : Type} (k : α → ℚ) (a : α) (l : List α) :
    ∃ b m, insertSortedQ k a l = b :: m := by
  cases l with
  | nil => exact ⟨a, [], rfl⟩
  | cons c u =>
      by_cases h : k a < k c
      · exact ⟨a, c :: u, by rw [insertSortedQ, if_pos h]⟩
      · exact ⟨c, insertSortedQ k a u, by rw [insertSortedQ, if_neg h]⟩

/-- `insSortQ` of a nonempty list is nonempty (in cons form). -/
theorem insSortQ_exists_cons {α : Type} (k : α → ℚ) (a : α) (l : List α) :
    ∃ b m, insSortQ k (a :: l) = b :: m := by
  rw [insSortQ]
  exact insertSortedQ_exists_cons k a (insSortQ k l)

/-- Full evaluation of `interpolate_iv_at_delta` on a typed table carrying
`right`, `iv_pct` and `delta` columns (and no `volume` column): the result
is `interpCoreB` of the row projections. -/
theorem interpolate_iv_typed {β : Type}
    (C : List (List Nat)) (enc : β → List Val)
    (hlen : ∀ r, (enc r).length = C.length)
    (ir ii idl : Nat)
    (hir : C.findIdx? (fun c => decide (c = codes "right")) = some ir)
    (hii : C.findIdx? (fun c => decide (c = codes "iv_pct")) = some ii)
    (hidl : C.findIdx? (fun c => decide (c = codes "delta")) = some idl)
    (putB : β → Bool) (ivB : β → ℚ) (deltaB : β → Option ℚ)
    (hcr : ∀ r, cellAt (enc r) ir = .str (rightStr (putB r)))
    (hci : ∀ r, cellAt (enc r) ii = .num (ivB r))
    (hcd : ∀ r, cellAt (enc r) idl = optCell (deltaB r))
    (hvol : C.findIdx? (fun c => decide (c = codes "volume")) = none)
    (hab : C.findIdx? (fun c => decide (c = codes "abs_delta")) = none)
    (tgt : Bool) (t : ℚ) (rs0 : List β)
    (hn : normalize_columns (DF.mk C (rs0.map enc)) = .ok (DF.mk C (rs0.map enc))) :
    interpolate_iv_at_delta (DF.mk C (rs0.map enc)) t (rightStr tgt)
      = .ok (interpCoreB putB ivB deltaB tgt rs0 t) := by
  have hiil : ii < C.length := by
    have := findIdx?_lt_length hii
    omega
  have hcols : ((DF.mk C (rs0.map enc)).hasCol (codes "right")
      && (DF.mk C (rs0.map enc)).hasCol (codes "iv_pct")
      && (DF.mk C (rs0.map enc)).hasCol (codes "delta")) = true := by
    simp [DF.hasCol, DF.colIdx, hir, hii, hidl]
  rw [interpolate_iv_at_delta, hn]
  simp only [Bind.bind, Except.bind, hcols, Bool.not_true, Bool.false_eq_true, if_false]
  have htt : (if rightStr tgt = codes "PUT" ∨ rightStr tgt = codes "P"
      then codes "PUT" else codes "CALL") = rightStr tgt := by
    cases tgt
    · rw [show rightStr false = codes "CALL" from rfl, if_neg (by decide)]
    · rw [show rightStr true = codes "PUT" from rfl, if_pos (Or.inl rfl)]
  rw [htt]
  rw [maskE_typed C (codes "right") ir hir enc
    (fun v => pure (vEqCmp v (Val.str (rightStr tgt))))
    (fun r => putB r == tgt)
    (fun r => by simp [hcr r, vEqCmp_rightStr, pure, Except.pure]) rs0]
  simp only [Except.bind]
  rw [maskE_typed C (codes "iv_pct") ii hii enc (fun v => vGtQ v 0)
    (fun r => decide (0 < ivB r)) (fun r => by rw [hci r]; rfl) rs0]
  simp only [Except.bind]
  rw [maskE_typed C (codes "delta") idl hidl enc (fun v => pure (vNotNa v))
    (fun r => (deltaB r).isSome) (fun r => by simp [hcd r, vNotNa_optCell, pure, Except.pure]) rs0]
  simp only [Except.bind]
  rw [show maskAnd (maskAnd (rs0.map (fun r => putB r == tgt))
        (rs0.map (fun r => decide (0 < ivB r)))) (rs0.map (fun r => (deltaB r).isSome))
      = rs0.map (interpPredB putB ivB deltaB tgt) from by
    rw [maskAnd_typed, maskAnd_typed]
    rfl]
  rw [applyMask_typed C enc (interpPredB putB ivB deltaB tgt) rs0]
  have hnvol : (DF.mk C ((rs0.filter (interpPredB putB ivB deltaB tgt)).map enc)).hasCol
      (codes "volume") = false := by
    simp [DF.hasCol, DF.colIdx, hvol]
  simp only [hnvol, Bool.false_eq_true, if_false, pure, Except.pure, Except.bind]
  simp only [interpCoreB]
  by_cases hfs : rs0.filter (interpPredB putB ivB deltaB tgt) = []
  · rw [hfs]
    simp [DF.isEmpty]
  · have hmem : ∀ r ∈ rs0.filter (interpPredB putB ivB deltaB tgt),
        (deltaB r).isSome = true := by
      intro r hr
      have hpr := List.of_mem_filter hr
      simp only [interpPredB, Bool.and_eq_true] at hpr
      exact hpr.2
    obtain ⟨a, u, hfs2⟩ := List.exists_cons_of_ne_nil hfs
    rw [hfs2]
    have hCne : C ≠ [] := by
      intro hC
      rw [hC, List.findIdx?_nil] at hir
      exact Option.noConfusion hir
    have hEf : (DF.mk C ((a :: u).map enc)).isEmpty = false := by
      simp [DF.isEmpty, List.isEmpty_iff, hCne]
    simp only [hEf, Bool.false_eq_true, if_false]
    rw [getCol_typed C (codes "delta") idl hidl enc (fun r => optCell (deltaB r)) hcd (a :: u)]
    simp only [Except.bind]
    rw [mapM_ok_comp vAbs (fun r => optCell (deltaB r)) (fun r => absCellO (deltaB r))
      (fun r => vAbs_optCell (deltaB r)) (a :: u)]
    simp only [Except.bind]
    have habsmap : (a :: u).map (fun r => absCellO (deltaB r))
        = (a :: u).map (fun r => Val.num (dKeyB deltaB r)) := by
      apply List.map_congr_left
      intro r hr
      have hr2 : r ∈ rs0.filter (interpPredB putB ivB deltaB tgt) := by
        rw [hfs2]
        exact hr
      obtain ⟨q, hq⟩ := Option.isSome_iff_exists.mp (hmem r hr2)
      simp [absCellO, dKeyB, hq]
    rw [habsmap]
    rw [setCol_typed C (codes "abs_delta") hab enc (fun r => Val.num (dKeyB deltaB r)) (a :: u)]
    rw [sortValues_typed (C ++ [codes "abs_delta"]) (codes "abs_delta") C.length
      (findIdx?_append_one_some hab (by decide))
      (fun r => enc r ++ [Val.num (dKeyB deltaB r)]) (dKeyB deltaB)
      (fun r => cellAt_append_self (hlen r)) (a :: u)]
    simp only [Except.bind]
    rw [getCol_typed (C ++ [codes "abs_delta"]) (codes "abs_delta") C.length
      (findIdx?_append_one_some hab (by decide))
      (fun r => enc r ++ [Val.num (dKeyB deltaB r)]) (fun r => Val.num (dKeyB deltaB r))
      (fun r => cellAt_append_self (hlen r)) (insSortQ (dKeyB deltaB) (a :: u))]
    simp only [Except.bind]
    rw [colMinQ_num (dKeyB deltaB) (insSortQ (dKeyB deltaB) (a :: u))]
    simp only [Except.bind]
    rw [colMaxQ_num (dKeyB deltaB) (insSortQ (dKeyB deltaB) (a :: u))]
    simp only [Except.bind]
    obtain ⟨b, m, hbm⟩ := insSortQ_exists_cons (dKeyB deltaB) a u
    rw [hbm]
    rw [show listMin ((b :: m).map (dKeyB deltaB))
        = some ((m.map (dKeyB deltaB)).foldl min (dKeyB deltaB b)) from rfl,
      show listMax ((b :: m).map (dKeyB deltaB))
        = some ((m.map (dKeyB deltaB)).foldl max (dKeyB deltaB b)) from rfl]
    simp only []
    by_cases hrg : (m.map (dKeyB deltaB)).foldl min (dKeyB deltaB b) > t
        ∨ (m.map (dKeyB deltaB)).foldl max (dKeyB deltaB b) < t
    · rw [if_pos hrg, if_pos hrg]
      rfl
    · rw [if_neg hrg, if_neg hrg]
      rw [getCol_typed (C ++ [codes "abs_delta"]) (codes "iv_pct") ii (findIdx?_append_left hii)
        (fun r => enc r ++ [Val.num (dKeyB deltaB r)]) (fun r => Val.num (ivB r))
        (fun r => by rw [cellAt_append_left (by rw [hlen r]; exact hiil)]; exact hci r)
        (b :: m)]
      simp only [Except.bind]
      rw [colQs_num (dKeyB deltaB) (b :: m), colQs_num ivB (b :: m)]
      rfl

/-- `normalize_columns` fixes a typed table whose column names are already
canonical, which lacks `implied_vol`, `strike` and `date`, and whose
`right` cells (if that column is present) are already normalized. -/
theorem normalize_typed {β : Type} (C : List (List Nat)) (enc : β → List Val)
    (hcanon : C.map (fun c => renameAlias (canonName c)) = C)
    (hiv : C.findIdx? (fun c => decide (c = codes "implied_vol")) = none)
    (hst : C.findIdx? (fun c => decide (c = codes "strike")) = none)
    (hdt : C.findIdx? (fun c => decide (c = codes "date")) = none)
    (hright : ∀ i, C.findIdx? (fun c => decide (c = codes "right")) = some i →
      ∀ r, (enc r).set i (vNormRight (cellAt (enc r) i)) = enc r)
    (rs : List β) :
    normalize_columns (DF.mk C (rs.map enc)) = .ok (DF.mk C (rs.map enc)) := by
  by_cases hC : C = []
  · subst hC
    rw [normalize_columns]
    rw [show (DF.mk [] (rs.map enc)).isEmpty = true from by simp [DF.isEmpty]]
    rw [if_pos rfl]
    rfl
  cases rs with
  | nil =>
      rw [normalize_columns]
      rw [show (DF.mk C (List.map enc [])).isEmpty = true from by simp [DF.isEmpty]]
      rw [if_pos rfl]
      rfl
  | cons a u =>
      have h1 : (DF.mk C ((a :: u).map enc)).isEmpty = false := by
        simp [DF.isEmpty, List.isEmpty_iff, hC]
      rw [normalize_columns]
      simp only [h1, Bool.false_eq_true, if_false]
      rw [show ({ DF.mk C ((a :: u).map enc) with
          cols := (DF.mk C ((a :: u).map enc)).cols.map (fun c => renameAlias (canonName c)) }
            : DF)
        = DF.mk C ((a :: u).map enc) from by
          simp only []
          rw [hcanon]]
      have hivF : (DF.mk C ((a :: u).map enc)).hasCol (codes "implied_vol") = false := by
        simp [DF.hasCol, DF.colIdx, hiv]
      have hstF : (DF.mk C ((a :: u).map enc)).hasCol (codes "strike") = false := by
        simp [DF.hasCol, DF.colIdx, hst]
      have hdtF : (DF.mk C ((a :: u).map enc)).hasCol (codes "date") = false := by
        simp [DF.hasCol, DF.colIdx, hdt]
      cases hre : C.findIdx? (fun c => decide (c = codes "right")) with
      | none =>
          have hrF : (DF.mk C ((a :: u).map enc)).hasCol (codes "right") = false := by
            simp [DF.hasCol, DF.colIdx, hre]
          simp only [hrF, Bool.false_eq_true, if_false, hivF, hstF, hdtF, Bool.false_and,
            Bind.bind, Except.bind, pure, Except.pure]
      | some i =>
          have hrT : (DF.mk C ((a :: u).map enc)).hasCol (codes "right") = true := by
            simp [DF.hasCol, DF.colIdx, hre]
          simp only [hrT, if_true]
          rw [show (DF.mk C ((a :: u).map enc)).mapCol (codes "right") vNormRight
              = DF.mk C ((a :: u).map enc) from by
            simp only [DF.mapCol, DF.colIdx, hre, List.map_map]
            congr 1
            apply List.map_congr_left
            intro r _
            exact hright i hre r]
          simp only [hivF, hstF, hdtF, Bool.false_and, Bool.false_eq_true, if_false,
            Bind.bind, Except.bind, pure, Except.pure]

/-- One row of a Greeks chain slice consumed by the skew engine. -/
structure SRow where
  put : Bool
  iv : ℚ
  delta : ℚ
deriving DecidableEq

/-- Cells of a skew row (`right`, `iv_pct`, `delta`). -/
def encS (r : SRow) : List Val :=
  [Val.str (rightStr r.put), Val.num r.iv, Val.num r.delta]

/-- Column names of the skew chain slice. -/
def skewCols : List (List Nat) := [codes "right", codes "iv_pct", codes "delta"]

/-- A typed chain slice for `calculate_skew_metrics`. -/
def skewTable (rs : List SRow) : DF := DF.mk skewCols (rs.map encS)

theorem normalize_skewTable (rs : List SRow) :
    normalize_columns (skewTable rs) = .ok (skewTable rs) := by
  refine normalize_typed skewCols encS (by decide) (by decide) (by decide) (by decide) ?_ rs
  intro i hi r
  rw [show List.findIdx? (fun c => decide (c = codes "right")) skewCols = some 0 from by
    decide] at hi
  injection hi with h
  subst h
  obtain ⟨b, iv, d⟩ := r
  cases b <;> rfl

/-- C6: the skew engine's `rr25` is exactly `iv25Put − iv25Call`, defined
precisely when both 25-delta interpolations are defined; the record's put
and call legs are the corresponding `interpolate_iv_at_delta` results. -/
theorem c6_rr25 (rs : List SRow) :
    ∃ m, calculate_skew_metrics (skewTable rs) = .ok m ∧
      interpolate_iv_at_delta (skewTable rs) (1/4) (codes "PUT") = .ok m.iv_25d_put ∧
      interpolate_iv_at_delta (skewTable rs) (1/4) (codes "CALL") = .ok m.iv_25d_call ∧
      m.rr25 = (match m.iv_25d_put, m.iv_25d_call with
                | some p, some c => some (p - c)
                | _, _ => none) := by
  cases rs with
  | nil =>
      refine ⟨⟨none, none, none, none, none, none⟩, ?_, ?_, ?_, rfl⟩
      · rfl
      · rfl
      · rfl
  | cons a u =>
      have hn := normalize_skewTable (a :: u)
      have hint : ∀ (tgt : Bool) (t : ℚ),
          interpolate_iv_at_delta (skewTable (a :: u)) t (rightStr tgt)
            = .ok (interpCoreB SRow.put SRow.iv (fun r => some r.delta) tgt (a :: u) t) :=
        fun tgt t =>
          interpolate_iv_typed skewCols encS (fun _ => rfl) 0 1 2
            (by decide) (by decide) (by decide)
            SRow.put SRow.iv (fun r => some r.delta)
            (fun _ => rfl) (fun _ => rfl) (fun _ => rfl)
            (by decide) (by decide) tgt t (a :: u) hn
      exact ⟨{
          iv_atm :=
            nanMean2 (interpCoreB SRow.put SRow.iv (fun r => some r.delta) false (a :: u) (1/2))
              (interpCoreB SRow.put SRow.iv (fun r => some r.delta) true (a :: u) (1/2)),
          iv_25d_put := interpCoreB SRow.put SRow.iv (fun r => some r.delta) true (a :: u) (1/4),
          iv_25d_call :=
            interpCoreB SRow.put SRow.iv (fun r => some r.delta) false (a :: u) (1/4),
          rr25 :=
            match interpCoreB SRow.put SRow.iv (fun r => some r.delta) true (a :: u) (1/4),
              interpCoreB SRow.put SRow.iv (fun r => some r.delta) false (a :: u) (1/4) with
            | some p, some c => some (p - c)
            | _, _ => none,
          iv_10d_put := interpCoreB SRow.put SRow.iv (fun r => some r.delta) true (a :: u) (1/10),
          bf25 :=
            match interpCoreB SRow.put SRow.iv (fun r => some r.delta) true (a :: u) (1/4),
              nanMean2
                (interpCoreB SRow.put SRow.iv (fun r => some r.delta) false (a :: u) (1/2))
                (interpCoreB SRow.put SRow.iv (fun r => some r.delta) true (a :: u) (1/2)),
              interpCoreB SRow.put SRow.iv (fun r => some r.delta) false (a :: u) (1/4) with
            | some p, some a, some c => some ((p + c) / 2 - a)
            | _, _, _ => none },
        by
          rw [calculate_skew_metrics, hn]
          simp only [Bind.bind, Except.bind]
          rw [show (skewTable (a :: u)).isEmpty = false from rfl]
          simp only [Bool.false_eq_true, if_false]
          rw [show (codes "CALL") = rightStr false from rfl,
            show (codes "PUT") = rightStr true from rfl]
          rw [hint false (1/2), hint true (1/2), hint true (1/4), hint false (1/4),
            hint true (1/10)]
          simp only [Except.bind, pure, Except.pure],
        by rw [show (codes "PUT") = rightStr true from rfl, hint true (1/4)],
        by rw [show (codes "CALL") = rightStr false from rfl, hint false (1/4)],
        by rfl⟩

/-- Full evaluation of `interpolate_iv_at_delta` on a typed table that also
carries a `volume` column: the result is `interpCoreB` of the row
projections restricted to the rows with positive volume. -/
theorem interpolate_iv_typed_vol {β : Type}
    (C : List (List Nat)) (enc : β → List Val)
    (hlen : ∀ r, (enc r).length = C.length)
    (ir ii idl jv : Nat)
    (hir : C.findIdx? (fun c => decide (c = codes "right")) = some ir)
    (hii : C.findIdx? (fun c => decide (c = codes "iv_pct")) = some ii)
    (hidl : C.findIdx? (fun c => decide (c = codes "delta")) = some idl)
    (hjv : C.findIdx? (fun c => decide (c = codes "volume")) = some jv)
    (putB : β → Bool) (ivB : β → ℚ) (deltaB : β → Option ℚ) (volB : β → ℚ)
    (hcr : ∀ r, cellAt (enc r) ir = .str (rightStr (putB r)))
    (hci : ∀ r, cellAt (enc r) ii = .num (ivB r))
    (hcd : ∀ r, cellAt (enc r) idl = optCell (deltaB r))
    (hcv : ∀ r, cellAt (enc r) jv = .num (volB r))
    (hab : C.findIdx? (fun c => decide (c = codes "abs_delta")) = none)
    (tgt : Bool) (t : ℚ) (rs0 : List β)
    (hn : normalize_columns (DF.mk C (rs0.map enc)) = .ok (DF.mk C (rs0.map enc))) :
    interpolate_iv_at_delta (DF.mk C (rs0.map enc)) t (rightStr tgt)
      = .ok (interpCoreB putB ivB deltaB tgt
          (rs0.filter (fun r => decide (0 < volB r))) t) := by
  have hiil : ii < C.length := by
    have := findIdx?_lt_length hii
    omega
  have hcols : ((DF.mk C (rs0.map enc)).hasCol (codes "right")
      && (DF.mk C (rs0.map enc)).hasCol (codes "iv_pct")
      && (DF.mk C (rs0.map enc)).hasCol (codes "delta")) = true := by
    simp [DF.hasCol, DF.colIdx, hir, hii, hidl]
  rw [interpolate_iv_at_delta, hn]
  simp only [Bind.bind, Except.bind, hcols, Bool.not_true, Bool.false_eq_true, if_false]
  have htt : (if rightStr tgt = codes "PUT" ∨ rightStr tgt = codes "P"
      then codes "PUT" else codes "CALL") = rightStr tgt := by
    cases tgt
    · rw [show rightStr false = codes "CALL" from rfl, if_neg (by decide)]
    · rw [show rightStr true = codes "PUT" from rfl, if_pos (Or.inl rfl)]
  rw [htt]
  rw [maskE_typed C (codes "right") ir hir enc
    (fun v => pure (vEqCmp v (Val.str (rightStr tgt))))
    (fun r => putB r == tgt)
    (fun r => by simp [hcr r, vEqCmp_rightStr, pure, Except.pure]) rs0]
  simp only [Except.bind]
  rw [maskE_typed C (codes "iv_pct") ii hii enc (fun v => vGtQ v 0)
    (fun r => decide (0 < ivB r)) (fun r => by rw [hci r]; rfl) rs0]
  simp only [Except.bind]
  rw [maskE_typed C (codes "delta") idl hidl enc (fun v => pure (vNotNa v))
    (fun r => (deltaB r).isSome)
    (fun r => by simp [hcd r, vNotNa_optCell, pure, Except.pure]) rs0]
  simp only [Except.bind]
  rw [show maskAnd (maskAnd (rs0.map (fun r => putB r == tgt))
        (rs0.map (fun r => decide (0 < ivB r)))) (rs0.map (fun r => (deltaB r).isSome))
      = rs0.map (interpPredB putB ivB deltaB tgt) from by
    rw [maskAnd_typed, maskAnd_typed]
    rfl]
  rw [applyMask_typed C enc (interpPredB putB ivB deltaB tgt) rs0]
  have hvolT : (DF.mk C ((rs0.filter (interpPredB putB ivB deltaB tgt)).map enc)).hasCol
      (codes "volume") = true := by
    simp [DF.hasCol, DF.colIdx, hjv]
  simp only [hvolT, if_true]
  rw [maskE_typed C (codes "volume") jv hjv enc (fun v => vGtQ v 0)
    (fun r => decide (0 < volB r)) (fun r => by rw [hcv r]; rfl)
    (rs0.filter (interpPredB putB ivB deltaB tgt))]
  simp only [Except.bind]
  rw [applyMask_typed C enc (fun r => decide (0 < volB r))
    (rs0.filter (interpPredB putB ivB deltaB tgt))]
  rw [show (rs0.filter (interpPredB putB ivB deltaB tgt)).filter
        (fun r => decide (0 < volB r))
      = (rs0.filter (fun r => decide (0 < volB r))).filter
        (interpPredB putB ivB deltaB tgt) from List.filter_comm _ _ _]
  simp only [pure, Except.pure, Except.bind]
  simp only [interpCoreB]
  by_cases hfs : (rs0.filter (fun r => decide (0 < volB r))).filter
      (interpPredB putB ivB deltaB tgt) = []
  · rw [hfs]
    simp [DF.isEmpty]
  · have hmem : ∀ r ∈ (rs0.filter (fun r => decide (0 < volB r))).filter
        (interpPredB putB ivB deltaB tgt), (deltaB r).isSome = true := by
      intro r hr
      have hpr := List.of_mem_filter hr
      simp only [interpPredB, Bool.and_eq_true] at hpr
      exact hpr.2
    obtain ⟨a, u, hfs2⟩ := List.exists_cons_of_ne_nil hfs
    rw [hfs2]
    have hCne : C ≠ [] := by
      intro hC
      rw [hC, List.findIdx?_nil] at hir
      exact Option.noConfusion hir
    have hEf : (DF.mk C ((a :: u).map enc)).isEmpty = false := by
      simp [DF.isEmpty, List.isEmpty_iff, hCne]
    simp only [hEf, Bool.false_eq_true, if_false]
    rw [getCol_typed C (codes "delta") idl hidl enc (fun r => optCell (deltaB r)) hcd (a :: u)]
    simp only [Except.bind]
    rw [mapM_ok_comp vAbs (fun r => optCell (deltaB r)) (fun r => absCellO (deltaB r))
      (fun r => vAbs_optCell (deltaB r)) (a :: u)]
    simp only [Except.bind]
    have habsmap : (a :: u).map (fun r => absCellO (deltaB r))
        = (a :: u).map (fun r => Val.num (dKeyB deltaB r)) := by
      apply List.map_congr_left
      intro r hr
      have hr2 : r ∈ (rs0.filter (fun r => decide (0 < volB r))).filter
          (interpPredB putB ivB deltaB tgt) := by
        rw [hfs2]
        exact hr
      obtain ⟨q, hq⟩ := Option.isSome_iff_exists.mp (hmem r hr2)
      simp [absCellO, dKeyB, hq]
    rw [habsmap]
    rw [setCol_typed C (codes "abs_delta") hab enc (fun r => Val.num (dKeyB deltaB r)) (a :: u)]
    rw [sortValues_typed (C ++ [codes "abs_delta"]) (codes "abs_delta") C.length
      (findIdx?_append_one_some hab (by decide))
      (fun r => enc r ++ [Val.num (dKeyB deltaB r)]) (dKeyB deltaB)
      (fun r => cellAt_append_self (hlen r)) (a :: u)]
    simp only [Except.bind]
    rw [getCol_typed (C ++ [codes "abs_delta"]) (codes "abs_delta") C.length
      (findIdx?_append_one_some hab (by decide))
      (fun r => enc r ++ [Val.num (dKeyB deltaB r)]) (fun r => Val.num (dKeyB deltaB r))
      (fun r => cellAt_append_self (hlen r)) (insSortQ (dKeyB deltaB) (a :: u))]
    simp only [Except.bind]
    rw [colMinQ_num (dKeyB deltaB) (insSortQ (dKeyB deltaB) (a :: u))]
    simp only [Except.bind]
    rw [colMaxQ_num (dKeyB deltaB) (insSortQ (dKeyB deltaB) (a :: u))]
    simp only [Except.bind]
    obtain ⟨b, m, hbm⟩ := insSortQ_exists_cons (dKeyB deltaB) a u
    rw [hbm]
    rw [show listMin ((b :: m).map (dKeyB deltaB))
        = some ((m.map (dKeyB deltaB)).foldl min (dKeyB deltaB b)) from rfl,
      show listMax ((b :: m).map (dKeyB deltaB))
        = some ((m.map (dKeyB deltaB)).foldl max (dKeyB deltaB b)) from rfl]
    simp only []
    by_cases hrg : (m.map (dKeyB deltaB)).foldl min (dKeyB deltaB b) > t
        ∨ (m.map (dKeyB deltaB)).foldl max (dKeyB deltaB b) < t
    · rw [if_pos hrg, if_pos hrg]
      rfl
    · rw [if_neg hrg, if_neg hrg]
      rw [getCol_typed (C ++ [codes "abs_delta"]) (codes "iv_pct") ii (findIdx?_append_left hii)
        (fun r => enc r ++ [Val.num (dKeyB deltaB r)]) (fun r => Val.num (ivB r))
        (fun r => by rw [cellAt_append_left (by rw [hlen r]; exact hiil)]; exact hci r)
        (b :: m)]
      simp only [Except.bind]
      rw [colQs_num (dKeyB deltaB) (b :: m), colQs_num ivB (b :: m)]
      rfl

theorem interpCoreB_map {β γ : Type} (f : β → γ) (p : γ → Bool) (v : γ → ℚ)
    (d : γ → Option ℚ) (tgt : Bool) (l : List β) (t : ℚ) :
    interpCoreB p v d tgt (l.map f) t
      = interpCoreB (fun r => p (f r)) (fun r => v (f r)) (fun r => d (f r)) tgt l t := by
  simp only [interpCoreB]
  rw [show (l.map f).filter (interpPredB p v d tgt)
      = (l.filter (interpPredB (fun r => p (f r)) (fun r => v (f r)) (fun r => d (f r)) tgt)).map
          f from by
    rw [List.filter_map]
    rfl]
  rw [show insSortQ (dKeyB d)
        ((l.filter (interpPredB (fun r => p (f r)) (fun r => v (f r)) (fun r => d (f r))
          tgt)).map f)
      = (insSortQ (dKeyB (fun r => d (f r)))
          (l.filter (interpPredB (fun r => p (f r)) (fun r => v (f r)) (fun r => d (f r))
            tgt))).map f from by
    rw [insSortQ_map]
    rfl]
  rw [List.map_map, List.map_map]
  rw [show ((l.filter (interpPredB (fun r => p (f r)) (fun r => v (f r)) (fun r => d (f r))
        tgt)).map f).isEmpty
      = (l.filter (interpPredB (fun r => p (f r)) (fun r => v (f r)) (fun r => d (f r))
        tgt)).isEmpty from by
    cases l.filter (interpPredB (fun r => p (f r)) (fun r => v (f r)) (fun r => d (f r)) tgt)
    · rfl
    · rfl]
  rfl

/-- One row of a chain slice that also carries a traded volume. -/
structure VRow where
  put : Bool
  iv : ℚ
  delta : ℚ
  volume : ℚ
deriving DecidableEq

/-- Cells of a volume-carrying row (`right`, `iv_pct`, `delta`, `volume`). -/
def encV (r : VRow) : List Val :=
  [Val.str (rightStr r.put), Val.num r.iv, Val.num r.delta, Val.num r.volume]

/-- Column names of the volume-carrying chain slice. -/
def volCols : List (List Nat) :=
  [codes "right", codes "iv_pct", codes "delta", codes "volume"]

/-- A typed chain slice with a `volume` column. -/
def volTable (rs : List VRow) : DF := DF.mk volCols (rs.map encV)

/-- Forget the volume of a row. -/
def vToS (r : VRow) : SRow := ⟨r.put, r.iv, r.delta⟩

theorem normalize_volTable (rs : List VRow) :
    normalize_columns (volTable rs) = .ok (volTable rs) := by
  refine normalize_typed volCols encV (by decide) (by decide) (by decide) (by decide) ?_ rs
  intro i hi r
  rw [show List.findIdx? (fun c => decide (c = codes "right")) volCols = some 0 from by
    decide] at hi
  injection hi with h
  subst h
  obtain ⟨b, iv, d, v⟩ := r
  cases b <;> rfl

/-- Two put rows with positive IV and defined delta bracketing the
25-delta target, but with zero traded volume. -/
def c10Rows : List VRow := [⟨true, 20, 1/5, 0⟩, ⟨true, 22, 3/10, 0⟩]

unseal Rat.add Rat.mul Rat.sub Rat.inv in
/-- C10: when the table carries a `volume` column, `interpolate_iv_at_delta`
additionally restricts the samples to rows with positive volume — it agrees
with the volume-free interpolation of exactly those rows; consequently a
target bracketed only by zero-volume rows (positive IV, defined delta) is
undefined, although the same rows without the volume column interpolate it. -/
theorem c10_volume_filter :
    (∀ (rs : List VRow) (t : ℚ) (tgt : Bool),
      interpolate_iv_at_delta (volTable rs) t (rightStr tgt)
        = interpolate_iv_at_delta
            (skewTable ((rs.filter (fun r => decide (0 < r.volume))).map vToS)) t
            (rightStr tgt))
    ∧ interpolate_iv_at_delta (volTable c10Rows) (1/4) (codes "PUT") = .ok none
    ∧ interpolate_iv_at_delta (skewTable (c10Rows.map vToS)) (1/4) (codes "PUT")
        = .ok (some 21) := by
  refine ⟨?_, by decide, by decide⟩
  intro rs t tgt
  simp only [volTable, skewTable]
  rw [interpolate_iv_typed_vol volCols encV (fun _ => rfl) 0 1 2 3
    (by decide) (by decide) (by decide) (by decide)
    VRow.put VRow.iv (fun r => some r.delta) VRow.volume
    (fun _ => rfl) (fun _ => rfl) (fun _ => rfl) (fun _ => rfl)
    (by decide) tgt t rs (normalize_volTable rs)]
  rw [interpolate_iv_typed skewCols encS (fun _ => rfl) 0 1 2
    (by decide) (by decide) (by decide)
    SRow.put SRow.iv (fun r => some r.delta)
    (fun _ => rfl) (fun _ => rfl) (fun _ => rfl)
    (by decide) (by decide) tgt t ((rs.filter (fun r : VRow => decide (0 < r.volume))).map vToS)
    (normalize_skewTable ((rs.filter (fun r : VRow => decide (0 < r.volume))).map vToS))]
  rw [interpCoreB_map vToS SRow.put SRow.iv (fun r => some r.delta) tgt
    (rs.filter (fun r : VRow => decide (0 < r.volume))) t]
  rfl

theorem insertSortedQ_perm {α : Type} (k : α → ℚ) (a : α) (l : List α) :
    (insertSortedQ k a l).Perm (a :: l) := by
  induction l with
  | nil => exact List.Perm.refl _
  | cons c u ih =>
      rw [insertSortedQ]
      by_cases h : k a < k c
      · rw [if_pos h]
      · rw [if_neg h]
        exact (ih.cons c).trans (List.Perm.swap a c u)

theorem insSortQ_perm {α : Type} (k : α → ℚ) (l : List α) : (insSortQ k l).Perm l := by
  induction l with
  | nil => exact List.Perm.refl _
  | cons a u ih =>
      rw [insSortQ]
      exact (insertSortedQ_perm k a (insSortQ k u)).trans (ih.cons a)

theorem insertSortedQ_sorted {α : Type} (k : α → ℚ) (a : α) (l : List α)
    (h : l.Pairwise (fun x y => k x ≤ k y)) :
    (insertSortedQ k a l).Pairwise (fun x y => k x ≤ k y) := by
  induction l with
  | nil => simp [insertSortedQ]
  | cons c u ih =>
      rw [insertSortedQ]
      rw [List.pairwise_cons] at h
      by_cases hk : k a < k c
      · rw [if_pos hk]
        rw [List.pairwise_cons]
        refine ⟨?_, List.pairwise_cons.mpr h⟩
        intro x hx
        rcases List.mem_cons.mp hx with hxc | hxu
        · rw [hxc]
          exact le_of_lt hk
        · exact le_of_lt (lt_of_lt_of_le hk (h.1 x hxu))
      · rw [if_neg hk]
        rw [List.pairwise_cons]
        refine ⟨?_, ih h.2⟩
        intro x hx
        rcases List.mem_cons.mp ((insertSortedQ_perm k a u).mem_iff.mp hx) with hxa | hxu
        · rw [hxa]
          exact le_of_not_lt hk
        · exact h.1 x hxu

theorem insSortQ_sorted {α : Type} (k : α → ℚ) (l : List α) :
    (insSortQ k l).Pairwise (fun x y => k x ≤ k y) := by
  induction l with
  | nil => exact List.Pairwise.nil
  | cons a u ih => exact insertSortedQ_sorted k a _ ih

theorem foldl_min_of_le : ∀ (l : List ℚ) (a : ℚ), (∀ x ∈ l, a ≤ x) → l.foldl min a = a := by
  intro l
  induction l with
  | nil =>
      intro a _
      rfl
  | cons x u ih =>
      intro a h
      rw [List.foldl_cons, min_eq_left (h x (List.mem_cons_self x u))]
      exact ih a (fun y hy => h y (List.mem_cons_of_mem x hy))

theorem foldl_max_sorted : ∀ (l : List ℚ) (a : ℚ),
    List.Pairwise (· ≤ ·) (a :: l) → l.foldl max a = l.getLastD a := by
  intro l
  induction l with
  | nil =>
      intro a _
      rfl
  | cons x u ih =>
      intro a h
      rw [List.pairwise_cons] at h
      rw [List.foldl_cons, max_eq_right (h.1 x (List.mem_cons_self x u))]
      rw [ih x h.2, List.getLastD_cons]

/-- The minimum of a nonempty ascending list is its head. -/
theorem listMin_sorted (xs : List ℚ) (hs : xs.Pairwise (· ≤ ·)) (hne : xs ≠ []) :
    listMin xs = some (xs.headD 0) := by
  cases xs with
  | nil => exact absurd rfl hne
  | cons a l =>
      rw [List.pairwise_cons] at hs
      rw [listMin, foldl_min_of_le l a hs.1]
      rfl

/-- The maximum of a nonempty ascending list is its last element. -/
theorem listMax_sorted (xs : List ℚ) (hs : xs.Pairwise (· ≤ ·)) (hne : xs ≠ []) :
    listMax xs = some (xs.getLastD 0) := by
  cases xs with
  | nil => exact absurd rfl hne
  | cons a l =>
      rw [listMax, foldl_max_sorted l a hs, List.getLastD_cons]

theorem map_getLastD {α β : Type} (f : α → β) (l : List α) (d : α) :
    (l.map f).getLastD (f d) = f (l.getLastD d) := by
  induction l generalizing d with
  | nil => rfl
  | cons a u ih => rw [List.map_cons, List.getLastD_cons, ih, List.getLastD_cons]

theorem searchsorted_cons_le (x : ℚ) (l : List ℚ) (t : ℚ) (h : t ≤ x) :
    searchsortedLeft (x :: l) t = 0 := by
  simp [searchsortedLeft, List.findIdx?_cons, h]

theorem searchsorted_cons_gt (x : ℚ) (l : List ℚ) (t : ℚ) (h : ¬ t ≤ x) :
    searchsortedLeft (x :: l) t = searchsortedLeft l t + 1 := by
  rw [searchsortedLeft, List.findIdx?_cons, if_neg (by simpa using h)]
  cases hf : List.findIdx? (fun y => decide (t ≤ y)) l with
  | none => simp [searchsortedLeft, hf]
  | some i => simp [searchsortedLeft, hf]

/-- The specification's piecewise-linear interpolant through sample points
sorted by ascending abscissa: the value on the first segment whose right
endpoint is at or beyond the target. -/
def linInterpSpec : List (ℚ × ℚ) → ℚ → ℚ
  | [], _ => 0
  | [p], _ => p.2
  | p :: q :: l, t =>
      if t ≤ q.1 then p.2 + (q.2 - p.2) * (t - p.1) / (q.1 - p.1)
      else linInterpSpec (q :: l) t

/-- Dropping the first point of an interpolation problem does not change
the result when the target lies strictly beyond the second point. -/
theorem interp1dCall_cons (x0 y0 t : ℚ) (xs ys : List ℚ)
    (hlen : 2 ≤ xs.length)
    (hx0 : x0 < t)
    (hhead : ¬ t ≤ xs.headD 0) :
    interp1dCall (x0 :: xs) (y0 :: ys) t = interp1dCall xs ys t := by
  obtain ⟨a, xs1, rfl⟩ : ∃ a xs1, xs = a :: xs1 := by
    cases xs with
    | nil => simp at hlen
    | cons a xs1 => exact ⟨a, xs1, rfl⟩
  obtain ⟨b, xs2, rfl⟩ : ∃ b xs2, xs1 = b :: xs2 := by
    cases xs1 with
    | nil => simp at hlen
    | cons b xs2 => exact ⟨b, xs2, rfl⟩
  have hat : a < t := lt_of_not_le hhead
  have hL2 : ¬ ((x0 :: a :: b :: xs2).length < 2) := by simp
  have hR2 : ¬ ((a :: b :: xs2).length < 2) := by simp
  rw [interp1dCall, interp1dCall, if_neg hL2, if_neg hR2]
  have hga : (x0 :: a :: b :: xs2).getLastD 0 = (a :: b :: xs2).getLastD 0 := by
    rw [List.getLastD_eq_getLast?, List.getLastD_eq_getLast?, List.getLast?_cons_cons]
  by_cases hup : (a :: b :: xs2).getLastD 0 < t
  · rw [if_pos (show t < (x0 :: a :: b :: xs2).headD 0
          ∨ (x0 :: a :: b :: xs2).getLastD 0 < t from Or.inr (by rw [hga]; exact hup)),
      if_pos (show t < (a :: b :: xs2).headD 0
          ∨ (a :: b :: xs2).getLastD 0 < t from Or.inr hup)]
  · rw [if_neg (show ¬ (t < (x0 :: a :: b :: xs2).headD 0
          ∨ (x0 :: a :: b :: xs2).getLastD 0 < t) from
        not_or.mpr ⟨not_lt.mpr (le_of_lt hx0), by rw [hga]; exact hup⟩),
      if_neg (show ¬ (t < (a :: b :: xs2).headD 0
          ∨ (a :: b :: xs2).getLastD 0 < t) from
        not_or.mpr ⟨not_lt.mpr (le_of_lt hat), hup⟩)]
    have hss : searchsortedLeft (x0 :: a :: b :: xs2) t
        = searchsortedLeft (a :: b :: xs2) t + 1 :=
      searchsorted_cons_gt _ _ _ (not_le.mpr hx0)
    have hsst : searchsortedLeft (a :: b :: xs2) t
        = searchsortedLeft (b :: xs2) t + 1 :=
      searchsorted_cons_gt _ _ _ hhead
    have h1s : 1 ≤ searchsortedLeft (a :: b :: xs2) t := by
      rw [hsst]
      omega
    have hi : min (max (searchsortedLeft (x0 :: a :: b :: xs2) t) 1)
          ((x0 :: a :: b :: xs2).length - 1)
        = min (max (searchsortedLeft (a :: b :: xs2) t) 1)
          ((a :: b :: xs2).length - 1) + 1 := by
      rw [hss]
      simp only [List.length_cons]
      rw [max_eq_left (by omega), max_eq_left h1s]
      rw [show xs2.length + 1 + 1 + 1 - 1 = (xs2.length + 1 + 1 - 1) + 1 from by omega]
      rw [Nat.succ_min_succ]
    have hit1 : 1 ≤ min (max (searchsortedLeft (a :: b :: xs2) t) 1)
        ((a :: b :: xs2).length - 1) :=
      le_min (le_max_right _ 1) (by simp)
    obtain ⟨j, hj⟩ : ∃ j, min (max (searchsortedLeft (a :: b :: xs2) t) 1)
        ((a :: b :: xs2).length - 1) = j + 1 :=
      ⟨_ - 1, (Nat.succ_pred_eq_of_pos hit1).symm⟩
    rw [hi, hj]
    simp only [Nat.add_sub_cancel, List.getD_cons_succ]

/-- On at least two samples with strictly increasing abscissas and an
in-range target, the scipy call computes exactly the specification's
piecewise-linear interpolant. -/
theorem interp1d_spec (ps : List (ℚ × ℚ)) : ∀ (t : ℚ),
    2 ≤ ps.length →
    ps.Pairwise (fun p q => p.1 < q.1) →
    (ps.map Prod.fst).headD 0 ≤ t →
    t ≤ (ps.map Prod.fst).getLastD 0 →
    interp1dCall (ps.map Prod.fst) (ps.map Prod.snd) t = some (linInterpSpec ps t) := by
  induction ps with
  | nil =>
      intro t h2 _ _ _
      simp at h2
  | cons p ps0 ih =>
      intro t h2 hpw hlo hhi
      cases ps0 with
      | nil => simp at h2
      | cons q l =>
          rw [List.pairwise_cons] at hpw
          have hpq : p.1 < q.1 := hpw.1 q (List.mem_cons_self _ _)
          simp only [List.map_cons] at hlo hhi ⊢
          by_cases hq : t ≤ q.1
          · have hss1 : searchsortedLeft (p.1 :: q.1 :: l.map Prod.fst) t ≤ 1 := by
              by_cases hp : t ≤ p.1
              · rw [searchsorted_cons_le _ _ _ hp]
                omega
              · rw [searchsorted_cons_gt _ _ _ hp, searchsorted_cons_le _ _ _ hq]
            have hi1 : min (max (searchsortedLeft (p.1 :: q.1 :: l.map Prod.fst) t) 1)
                ((p.1 :: q.1 :: l.map Prod.fst).length - 1) = 1 := by
              simp only [List.length_cons]
              rw [max_eq_right hss1]
              exact min_eq_left (by omega)
            rw [interp1dCall]
            rw [if_neg (show ¬ ((p.1 :: q.1 :: l.map Prod.fst).length < 2) from by simp)]
            rw [if_neg (show ¬ (t < (p.1 :: q.1 :: l.map Prod.fst).headD 0
                ∨ (p.1 :: q.1 :: l.map Prod.fst).getLastD 0 < t) from
              not_or.mpr ⟨not_lt.mpr hlo, not_lt.mpr hhi⟩)]
            rw [hi1]
            show (if p.1 = q.1 then none
              else some (p.2 + (q.2 - p.2) / (q.1 - p.1) * (t - p.1)))
              = some (linInterpSpec (p :: q :: l) t)
            rw [if_neg (ne_of_lt hpq), linInterpSpec, if_pos hq, div_mul_eq_mul_div]
          · have hq' : q.1 < t := lt_of_not_le hq
            have hl : l ≠ [] := by
              intro h0
              subst h0
              have : t ≤ q.1 := by simpa using hhi
              exact hq this
            obtain ⟨r, l', rfl⟩ := List.exists_cons_of_ne_nil hl
            simp only [List.map_cons] at hlo hhi ⊢
            rw [interp1dCall_cons p.1 p.2 t (q.1 :: r.1 :: l'.map Prod.fst)
              (q.2 :: r.2 :: l'.map Prod.snd) (by simp) (lt_trans hpq hq') hq]
            have hglast : (q.1 :: r.1 :: l'.map Prod.fst).getLastD 0
                = (p.1 :: q.1 :: r.1 :: l'.map Prod.fst).getLastD 0 := by
              simp only [List.getLastD_eq_getLast?, List.getLast?_cons_cons]
            have hrec := ih t (by simp) hpw.2 (le_of_lt hq')
              (by simp only [List.map_cons]; rw [hglast]; exact hhi)
            simp only [List.map_cons] at hrec
            rw [hrec]
            rw [show linInterpSpec (p :: q :: r :: l') t = linInterpSpec (q :: r :: l') t from
              by rw [linInterpSpec, if_neg hq]]

/-- Cells of one put sample row: `right = "PUT"`, `iv_pct`, `delta`. -/
def encP (p : ℚ × ℚ) : List Val :=
  [Val.str (rightStr true), Val.num p.2, Val.num p.1]

/-- A typed chain slice of put rows with delta/IV sample pairs
(`p.1` the delta cell, `p.2` the IV cell). -/
def putTable (pts : List (ℚ × ℚ)) : DF := DF.mk skewCols (pts.map encP)

/-- The spec's view of a sample: (absolute delta, IV). -/
def toAbs (p : ℚ × ℚ) : ℚ × ℚ := (|p.1|, p.2)

/-- The sample points in the spec's order: by ascending absolute delta. -/
def specSorted (pts : List (ℚ × ℚ)) : List (ℚ × ℚ) := insSortQ Prod.fst (pts.map toAbs)

theorem normalize_putTable (pts : List (ℚ × ℚ)) :
    normalize_columns (putTable pts) = .ok (putTable pts) := by
  refine normalize_typed skewCols encP (by decide) (by decide) (by decide) (by decide) ?_ pts
  intro i hi r
  rw [show List.findIdx? (fun c => decide (c = codes "right")) skewCols = some 0 from by
    decide] at hi
  injection hi with h
  subst h
  rfl

/-- C4: on put sample rows with positive IVs and pairwise-distinct absolute
deltas, `interpolate_iv_at_delta` returns the spec's piecewise-linear
interpolant whenever at least two samples exist and the target lies within
`[min, max]` of the observed absolute deltas, and `NaN` when the target is
out of range or fewer than two samples exist. -/
theorem c4_interpolation (pts : List (ℚ × ℚ)) (t : ℚ)
    (hiv : ∀ p ∈ pts, 0 < p.2)
    (hdist : (pts.map (fun p => |p.1|)).Pairwise (· ≠ ·)) :
    (2 ≤ pts.length → ((specSorted pts).headD (0, 0)).1 ≤ t →
      t ≤ ((specSorted pts).getLastD (0, 0)).1 →
      interpolate_iv_at_delta (putTable pts) t (codes "PUT")
        = .ok (some (linInterpSpec (specSorted pts) t)))
    ∧ (t < ((specSorted pts).headD (0, 0)).1 ∨ ((specSorted pts).getLastD (0, 0)).1 < t →
      interpolate_iv_at_delta (putTable pts) t (codes "PUT") = .ok none)
    ∧ (pts.length < 2 →
      interpolate_iv_at_delta (putTable pts) t (codes "PUT") = .ok none) := by
  have hcore : interpolate_iv_at_delta (putTable pts) t (codes "PUT")
      = .ok (interpCoreB (fun _ => true) Prod.snd (fun p => some p.1) true pts t) := by
    rw [show (codes "PUT") = rightStr true from rfl]
    simp only [putTable]
    exact interpolate_iv_typed skewCols encP (fun _ => rfl) 0 1 2
      (by decide) (by decide) (by decide)
      (fun _ => true) Prod.snd (fun p => some p.1)
      (fun _ => rfl) (fun _ => rfl) (fun _ => rfl)
      (by decide) (by decide) true t pts (normalize_putTable pts)
  have hfil : pts.filter (interpPredB (fun _ => true) Prod.snd (fun p => some p.1) true)
      = pts := by
    rw [List.filter_eq_self]
    intro p hp
    simp only [interpPredB]
    simp [hiv p hp]
  have hkey : dKeyB (fun p : ℚ × ℚ => some p.1) = (fun p : ℚ × ℚ => |p.1|) := rfl
  have hsps : specSorted pts = (insSortQ (fun p : ℚ × ℚ => |p.1|) pts).map toAbs := by
    rw [specSorted, insSortQ_map]
    rfl
  have hperm := insSortQ_perm (fun p : ℚ × ℚ => |p.1|) pts
  have hsorted := insSortQ_sorted (fun p : ℚ × ℚ => |p.1|) pts
  have hdpts : pts.Pairwise (fun a b => |a.1| ≠ |b.1|) := List.pairwise_map.mp hdist
  have hdS : (insSortQ (fun p : ℚ × ℚ => |p.1|) pts).Pairwise
      (fun a b => |a.1| ≠ |b.1|) :=
    (List.Perm.pairwise_iff (fun h => Ne.symm h) hperm).mpr hdpts
  have hstrict : (insSortQ (fun p : ℚ × ℚ => |p.1|) pts).Pairwise
      (fun a b => |a.1| < |b.1|) :=
    List.Pairwise.imp (fun h => lt_of_le_of_ne h.1 h.2) (hsorted.and hdS)
  refine ⟨?_, ?_, ?_⟩
  · intro h2 hlo hhi
    cases hpts : pts with
    | nil =>
        rw [hpts] at h2
        simp at h2
    | cons p0 pts1 =>
        subst hpts
        obtain ⟨s0, S1, hS1⟩ := insSortQ_exists_cons (fun p : ℚ × ℚ => |p.1|) p0 pts1
        rw [hcore]
        simp only [interpCoreB, hfil, hkey, List.isEmpty_cons, Bool.false_eq_true, if_false]
        rw [hS1]
        have hsorted' : ((s0 :: S1).map (fun p : ℚ × ℚ => |p.1|)).Pairwise (· ≤ ·) :=
          List.pairwise_map.mpr (hS1 ▸ hsorted)
        rw [listMin_sorted _ hsorted' (by simp), listMax_sorted _ hsorted' (by simp)]
        simp only []
        have hhd : ((s0 :: S1).map (fun p : ℚ × ℚ => |p.1|)).headD 0 = |s0.1| := rfl
        have hlast : ((s0 :: S1).map (fun p : ℚ × ℚ => |p.1|)).getLastD 0
            = |((s0 :: S1).getLastD ((0 : ℚ), (0 : ℚ))).1| := by
          rw [List.getLastD_eq_getLast?, List.getLastD_eq_getLast?, List.getLast?_map]
          cases hgl : (s0 :: S1).getLast? with
          | none => simp [List.getLast?_eq_none] at hgl
          | some x => rfl
        have hsps2 : specSorted (p0 :: pts1) = (s0 :: S1).map toAbs := by
          rw [hsps, hS1]
        have hlo2 : |s0.1| ≤ t := by
          rw [hsps2] at hlo
          exact hlo
        have hhi2 : t ≤ |((s0 :: S1).getLastD ((0 : ℚ), (0 : ℚ))).1| := by
          rw [hsps2] at hhi
          rw [show ((((s0 :: S1).map toAbs).getLastD ((0 : ℚ), (0 : ℚ))).1)
              = |((s0 :: S1).getLastD ((0 : ℚ), (0 : ℚ))).1| from by
            rw [List.getLastD_eq_getLast?, List.getLastD_eq_getLast?, List.getLast?_map]
            cases hgl : (s0 :: S1).getLast? with
            | none => simp [List.getLast?_eq_none] at hgl
            | some x => rfl] at hhi
          exact hhi
        rw [if_neg (by
          rw [hhd, hlast]
          push_neg
          exact ⟨not_lt.mp (not_lt.mpr hlo2), hhi2⟩)]
        have hlen : 2 ≤ ((s0 :: S1).map toAbs).length := by
          have h1 := hperm.length_eq
          rw [hS1] at h1
          simp only [List.length_map]
          simp only [List.length_cons] at h1 h2 ⊢
          omega
        have hpw : ((s0 :: S1).map toAbs).Pairwise (fun p q => p.1 < q.1) :=
          List.pairwise_map.mpr (hS1 ▸ hstrict)
        have hxs : ((s0 :: S1).map toAbs).map Prod.fst
            = (s0 :: S1).map (fun p : ℚ × ℚ => |p.1|) := by
          rw [List.map_map]
          rfl
        have hys : ((s0 :: S1).map toAbs).map Prod.snd = (s0 :: S1).map Prod.snd := by
          rw [List.map_map]
          rfl
        have hspec := interp1d_spec ((s0 :: S1).map toAbs) t hlen hpw
          (by rw [hxs, hhd]; exact hlo2) (by rw [hxs, hlast]; exact hhi2)
        rw [hxs, hys] at hspec
        rw [hspec, hsps2]
  · intro hout
    cases hpts : pts with
    | nil =>
        subst hpts
        rw [hcore]
        rfl
    | cons p0 pts1 =>
        subst hpts
        obtain ⟨s0, S1, hS1⟩ := insSortQ_exists_cons (fun p : ℚ × ℚ => |p.1|) p0 pts1
        rw [hcore]
        simp only [interpCoreB, hfil, hkey, List.isEmpty_cons, Bool.false_eq_true, if_false]
        rw [hS1]
        have hsorted' : ((s0 :: S1).map (fun p : ℚ × ℚ => |p.1|)).Pairwise (· ≤ ·) :=
          List.pairwise_map.mpr (hS1 ▸ hsorted)
        rw [listMin_sorted _ hsorted' (by simp), listMax_sorted _ hsorted' (by simp)]
        simp only []
        have hhd : ((s0 :: S1).map (fun p : ℚ × ℚ => |p.1|)).headD 0 = |s0.1| := rfl
        have hlast : ((s0 :: S1).map (fun p : ℚ × ℚ => |p.1|)).getLastD 0
            = |((s0 :: S1).getLastD ((0 : ℚ), (0 : ℚ))).1| := by
          rw [List.getLastD_eq_getLast?, List.getLastD_eq_getLast?, List.getLast?_map]
          cases hgl : (s0 :: S1).getLast? with
          | none => simp [List.getLast?_eq_none] at hgl
          | some x => rfl
        have hsps2 : specSorted (p0 :: pts1) = (s0 :: S1).map toAbs := by
          rw [hsps, hS1]
        rw [hsps2] at hout
        have hout2 : t < |s0.1| ∨ |((s0 :: S1).getLastD ((0 : ℚ), (0 : ℚ))).1| < t := by
          rcases hout with h | h
          · exact Or.inl h
          · refine Or.inr ?_
            rw [show ((((s0 :: S1).map toAbs).getLastD ((0 : ℚ), (0 : ℚ))).1)
                = |((s0 :: S1).getLastD ((0 : ℚ), (0 : ℚ))).1| from by
              rw [List.getLastD_eq_getLast?, List.getLastD_eq_getLast?, List.getLast?_map]
              cases hgl : (s0 :: S1).getLast? with
              | none => simp [List.getLast?_eq_none] at hgl
              | some x => rfl] at h
            exact h
        rw [if_pos (by rw [hhd, hlast]; exact hout2)]
  · intro hlt
    cases hpts : pts with
    | nil =>
        subst hpts
        rw [hcore]
        rfl
    | cons p0 pts1 =>
        cases pts1 with
        | cons p1 pts2 =>
            rw [hpts] at hlt
            simp only [List.length_cons] at hlt
            omega
        | nil =>
            subst hpts
            rw [hcore]
            simp only [interpCoreB, hfil, hkey, List.isEmpty_cons, Bool.false_eq_true,
              if_false]
            rw [show insSortQ (fun p : ℚ × ℚ => |p.1|) [p0] = [p0] from rfl]
            simp only [List.map_cons, List.map_nil]
            rw [show listMin [|p0.1|] = some |p0.1| from rfl,
              show listMax [|p0.1|] = some |p0.1| from rfl]
            simp only []
            by_cases hr : |p0.1| > t ∨ |p0.1| < t
            · rw [if_pos hr]
            · rw [if_neg hr]
              rw [show interp1dCall [|p0.1|] [p0.2] t = none from by
                rw [interp1dCall, if_pos (by simp)]]

unseal Rat.add Rat.mul Rat.sub Rat.inv in
/-- C4 witness: the spec's example points {(0.1, 20), (0.25, 18), (0.5, 15)}
give exactly 18 at target 0.25 and `NaN` at the out-of-range target 0.6. -/
theorem c4_witness :
    interpolate_iv_at_delta (putTable [(1/10, 20), (1/4, 18), (1/2, 15)]) (1/4) (codes "PUT")
      = .ok (some 18)
    ∧ interpolate_iv_at_delta (putTable [(1/10, 20), (1/4, 18), (1/2, 15)]) (3/5)
        (codes "PUT") = .ok none := by
  constructor
  · rw [(c4_interpolation [(1/10, 20), (1/4, 18), (1/2, 15)] (1/4) (by decide) (by decide)).1
      (by decide) (by decide) (by decide)]
    decide
  · exact (c4_interpolation [(1/10, 20), (1/4, 18), (1/2, 15)] (3/5) (by decide)
      (by decide)).2.1 (by decide)

/-- Typed closed form of `interpolate_iv_at_delta_local` on a table whose
rows project to a right flag, an IV and a (plain) delta. -/
def interpCoreL {β : Type} (putB : β → Bool) (ivB deltaQ : β → ℚ)
    (tgt : Bool) (rs : List β) (t : ℚ) : Option ℚ :=
  if (rs.filter (fun r => putB r == tgt)).isEmpty then none
  else
    match listMin ((insSortQ (fun r => |deltaQ r|)
            (rs.filter (fun r => putB r == tgt))).map (fun r => |deltaQ r|)),
          listMax ((insSortQ (fun r => |deltaQ r|)
            (rs.filter (fun r => putB r == tgt))).map (fun r => |deltaQ r|)) with
    | some mn, some mx =>
        if mn > t ∨ mx < t then none
        else interp1dCall
          ((insSortQ (fun r => |deltaQ r|)
            (rs.filter (fun r => putB r == tgt))).map (fun r => |deltaQ r|))
          ((insSortQ (fun r => |deltaQ r|)
            (rs.filter (fun r => putB r == tgt))).map ivB) t
    | _, _ => none

/-- Full evaluation of `interpolate_iv_at_delta_local` on a typed table. -/
theorem interpolate_local_typed {β : Type}
    (C : List (List Nat)) (enc : β → List Val)
    (hlen : ∀ r, (enc r).length = C.length)
    (ir ii idl : Nat)
    (hir : C.findIdx? (fun c => decide (c = codes "right")) = some ir)
    (hii : C.findIdx? (fun c => decide (c = codes "iv_pct")) = some ii)
    (hidl : C.findIdx? (fun c => decide (c = codes "delta")) = some idl)
    (putB : β → Bool) (ivB deltaQ : β → ℚ)
    (hcr : ∀ r, cellAt (enc r) ir = .str (rightStr (putB r)))
    (hci : ∀ r, cellAt (enc r) ii = .num (ivB r))
    (hcd : ∀ r, cellAt (enc r) idl = .num (deltaQ r))
    (hab : C.findIdx? (fun c => decide (c = codes "abs_delta")) = none)
    (tgt : Bool) (t : ℚ) (rs0 : List β) :
    interpolate_iv_at_delta_local (DF.mk C (rs0.map enc)) t (rightStr tgt)
      = .ok (interpCoreL putB ivB deltaQ tgt rs0 t) := by
  have hiil : ii < C.length := by
    have := findIdx?_lt_length hii
    omega
  rw [interpolate_iv_at_delta_local]
  rw [maskE_typed C (codes "right") ir hir enc
    (fun v => pure (vEqCmp v (Val.str (rightStr tgt))))
    (fun r => putB r == tgt)
    (fun r => by simp [hcr r, vEqCmp_rightStr, pure, Except.pure]) rs0]
  simp only [Bind.bind, Except.bind]
  rw [applyMask_typed C enc (fun r => putB r == tgt) rs0]
  simp only [interpCoreL]
  by_cases hfs : rs0.filter (fun r => putB r == tgt) = []
  · rw [hfs]
    simp [DF.isEmpty]
    rfl
  · obtain ⟨a, u, hfs2⟩ := List.exists_cons_of_ne_nil hfs
    rw [hfs2]
    have hCne : C ≠ [] := by
      intro hC
      rw [hC, List.findIdx?_nil] at hir
      exact Option.noConfusion hir
    have hEf : (DF.mk C ((a :: u).map enc)).isEmpty = false := by
      simp [DF.isEmpty, List.isEmpty_iff, hCne]
    simp only [hEf, Bool.false_eq_true, if_false]
    rw [getCol_typed C (codes "delta") idl hidl enc (fun r => Val.num (deltaQ r)) hcd (a :: u)]
    simp only [Except.bind]
    rw [mapM_ok_comp vAbs (fun r => Val.num (deltaQ r)) (fun r => Val.num |deltaQ r|)
      (fun r => rfl) (a :: u)]
    simp only [Except.bind]
    rw [setCol_typed C (codes "abs_delta") hab enc (fun r => Val.num |deltaQ r|) (a :: u)]
    rw [sortValues_typed (C ++ [codes "abs_delta"]) (codes "abs_delta") C.length
      (findIdx?_append_one_some hab (by decide))
      (fun r => enc r ++ [Val.num |deltaQ r|]) (fun r => |deltaQ r|)
      (fun r => cellAt_append_self (hlen r)) (a :: u)]
    simp only [Except.bind]
    rw [getCol_typed (C ++ [codes "abs_delta"]) (codes "abs_delta") C.length
      (findIdx?_append_one_some hab (by decide))
      (fun r => enc r ++ [Val.num |deltaQ r|]) (fun r => Val.num |deltaQ r|)
      (fun r => cellAt_append_self (hlen r)) (insSortQ (fun r => |deltaQ r|) (a :: u))]
    simp only [Except.bind]
    rw [colMinQ_num (fun r => |deltaQ r|) (insSortQ (fun r => |deltaQ r|) (a :: u))]
    simp only [Except.bind]
    rw [colMaxQ_num (fun r => |deltaQ r|) (insSortQ (fun r => |deltaQ r|) (a :: u))]
    simp only [Except.bind]
    obtain ⟨b, m, hbm⟩ := insSortQ_exists_cons (fun r => |deltaQ r|) a u
    rw [hbm]
    rw [show listMin ((b :: m).map (fun r => |deltaQ r|))
        = some ((m.map (fun r => |deltaQ r|)).foldl min |deltaQ b|) from rfl,
      show listMax ((b :: m).map (fun r => |deltaQ r|))
        = some ((m.map (fun r => |deltaQ r|)).foldl max |deltaQ b|) from rfl]
    simp only []
    by_cases hrg : (m.map (fun r => |deltaQ r|)).foldl min |deltaQ b| > t
        ∨ (m.map (fun r => |deltaQ r|)).foldl max |deltaQ b| < t
    · rw [if_pos hrg, if_pos hrg]
      rfl
    · rw [if_neg hrg, if_neg hrg]
      rw [getCol_typed (C ++ [codes "abs_delta"]) (codes "iv_pct") ii (findIdx?_append_left hii)
        (fun r => enc r ++ [Val.num |deltaQ r|]) (fun r => Val.num (ivB r))
        (fun r => by rw [cellAt_append_left (by rw [hlen r]; exact hiil)]; exact hci r)
        (b :: m)]
      simp only [Except.bind]
      rw [colQs_num (fun r => |deltaQ r|) (b :: m), colQs_num ivB (b :: m)]
      rfl

theorem foldl_min_mem : ∀ (l : List ℚ) (a : ℚ), l.foldl min a ∈ a :: l := by
  intro l
  induction l with
  | nil =>
      intro a
      exact List.mem_cons_self _ _
  | cons x u ih =>
      intro a
      rw [List.foldl_cons]
      rcases List.mem_cons.mp (ih (min a x)) with h | h
      · rw [h]
        rcases min_choice a x with hm | hm
        · rw [hm]
          exact List.mem_cons_self _ _
        · rw [hm]
          exact List.mem_cons_of_mem _ (List.mem_cons_self _ _)
      · exact List.mem_cons_of_mem _ (List.mem_cons_of_mem _ h)

theorem foldl_min_le_all : ∀ (l : List ℚ) (a : ℚ),
    l.foldl min a ≤ a ∧ ∀ x ∈ l, l.foldl min a ≤ x := by
  intro l
  induction l with
  | nil =>
      intro a
      exact ⟨le_refl a, fun x hx => absurd hx (List.not_mem_nil x)⟩
  | cons x u ih =>
      intro a
      rw [List.foldl_cons]
      obtain ⟨h1, h2⟩ := ih (min a x)
      refine ⟨h1.trans (min_le_left a x), ?_⟩
      intro y hy
      rcases List.mem_cons.mp hy with h | h
      · exact h ▸ h1.trans (min_le_right a x)
      · exact h2 y h

/-- The position `idxmin` finds on an all-numeric column: some first row
attaining the minimum, which every later column read agrees on. -/
theorem findIdx_min_row {β : Type} (g : β → ℚ) :
    ∀ (l : List β) (m : ℚ), m ∈ l.map g →
    ∃ i r, r ∈ l ∧ g r = m ∧
      (l.map (fun x => Val.num (g x))).findIdx? (fun v => decide (v = Val.num m)) = some i ∧
      ∀ (h : β → Val), (l.map h).getD i Val.null = h r := by
  intro l
  induction l with
  | nil =>
      intro m hm
      simp at hm
  | cons a u ih =>
      intro m hm
      by_cases hga : g a = m
      · refine ⟨0, a, List.mem_cons_self _ _, hga, ?_, fun h => rfl⟩
        rw [List.map_cons, List.findIdx?_cons, if_pos (by simp [hga])]
      · have hm2 : m ∈ u.map g := by
          rw [List.map_cons] at hm
          rcases List.mem_cons.mp hm with h | h
          · exact absurd h.symm hga
          · exact h
        obtain ⟨i, r, hrmem, hgr, hfind, hget⟩ := ih m hm2
        refine ⟨i + 1, r, List.mem_cons_of_mem a hrmem, hgr, ?_, fun h => ?_⟩
        · rw [List.map_cons, List.findIdx?_cons, if_neg (by simp [hga]),
            List.findIdx?_succ, hfind]
          rfl
        · rw [List.map_cons, List.getD_cons_succ]
          exact hget h

theorem vEqCmp_date (a b : ℤ) : vEqCmp (Val.date a) (Val.date b) = decide (a = b) := by
  by_cases h : a = b <;> simp [vEqCmp, h]

theorem qTrunc_int (n : ℤ) : qTrunc ((n : ℤ) : ℚ) = n := by
  rw [qTrunc, Rat.num_intCast, Rat.den_intCast]
  exact Int.ediv_one n

/-- One row of the Greeks table consumed by the term-structure engine. -/
structure TRow where
  dte : ℤ
  expiration : ℤ
  put : Bool
  iv : ℚ
  delta : ℚ
  volume : ℚ
  bid : ℚ
deriving DecidableEq

/-- Column names of the term-structure Greeks table. -/
def tsCols : List (List Nat) :=
  [codes "dte", codes "expiration", codes "right", codes "iv_pct", codes "delta",
   codes "volume", codes "bid"]

/-- Cells of a term-structure row. -/
def encT (r : TRow) : List Val :=
  [Val.num (r.dte : ℚ), Val.date r.expiration, Val.str (rightStr r.put),
   Val.num r.iv, Val.num r.delta, Val.num r.volume, Val.num r.bid]

/-- A typed Greeks table with a `dte` column. -/
def tsTable (rs : List TRow) : DF := DF.mk tsCols (rs.map encT)

/-- The `[target − tolerance, target + tolerance]` window test on a row. -/
def windowT (t tol : ℤ) (r : TRow) : Bool :=
  decide (((t : ℚ) - (tol : ℚ)) ≤ (r.dte : ℚ)) && decide ((r.dte : ℚ) ≤ (t : ℚ) + (tol : ℚ))


/-- Reduction of a successful `Except` bind. -/
theorem bind_ok {γ δ : Type} (x : γ) (f : γ → Except Err δ) :
    (Except.ok x : Except Err γ) >>= f = f x := rfl

set_option maxHeartbeats 1000000 in
/-- Full evaluation of `find_nearest_expiration` on a typed table: an empty
tolerance window yields the empty frame; otherwise all rows of an
expiration whose `dte` distance to the target is minimal are returned. -/
theorem find_nearest_typed (rs : List TRow) (hne : rs ≠ []) (t tol : ℤ) :
    (rs.filter (windowT t tol) = [] →
      find_nearest_expiration (tsTable rs) t tol = .ok (DF.mk [] []))
    ∧ (rs.filter (windowT t tol) ≠ [] →
      ∃ rm ∈ rs.filter (windowT t tol),
        (∀ x ∈ rs.filter (windowT t tol),
          |(rm.dte : ℚ) - (t : ℚ)| ≤ |(x.dte : ℚ) - (t : ℚ)|) ∧
        find_nearest_expiration (tsTable rs) t tol
          = .ok (tsTable (rs.filter (fun r => decide (r.expiration = rm.expiration))))) := by
  have hE : (tsTable rs).isEmpty = false := by
    obtain ⟨a, u, rfl⟩ := List.exists_cons_of_ne_nil hne
    rfl
  have hdte : (tsTable rs).hasCol (codes "dte") = true := rfl
  have heval : ∀ (k : Except Err DF → Prop),
      (k (if (DF.mk tsCols ((rs.filter (windowT t tol)).map encT)).isEmpty
        then pure (DF.mk [] [])
        else do
          let dcol ← (DF.mk tsCols ((rs.filter (windowT t tol)).map encT)).getCol (codes "dte")
          let diffs ← dcol.mapM (fun v => do
            let s ← vSub v (.num (t : ℚ))
            vAbs s)
          match firstMinIdx diffs with
          | some i => do
              let ecol ← (DF.mk tsCols ((rs.filter (windowT t tol)).map encT)).getCol
                (codes "expiration")
              let me ← (tsTable rs).maskE (codes "expiration")
                (fun v => pure (vEqCmp v (ecol.getD i Val.null)))
              pure ((tsTable rs).applyMask me)
          | none => .error .valueError)) →
      k (find_nearest_expiration (tsTable rs) t tol) := by
    intro k hk
    rw [find_nearest_expiration]
    rw [hE, hdte]
    simp only [Bool.not_true, Bool.or_false, Bool.false_eq_true, if_false]
    rw [show tsTable rs = DF.mk tsCols (rs.map encT) from rfl]
    rw [maskE_typed tsCols (codes "dte") 0 (by decide) encT
      (fun v => vGeQ v ((t : ℚ) - (tol : ℚ)))
      (fun r => decide (((t : ℚ) - (tol : ℚ)) ≤ (r.dte : ℚ)))
      (fun r => rfl) rs]
    simp only [Bind.bind, Except.bind]
    rw [maskE_typed tsCols (codes "dte") 0 (by decide) encT
      (fun v => vLeQ v ((t : ℚ) + (tol : ℚ)))
      (fun r => decide ((r.dte : ℚ) ≤ (t : ℚ) + (tol : ℚ)))
      (fun r => rfl) rs]
    simp only [Bind.bind, Except.bind]
    rw [show maskAnd (rs.map (fun r => decide (((t : ℚ) - (tol : ℚ)) ≤ (r.dte : ℚ))))
          (rs.map (fun r => decide ((r.dte : ℚ) ≤ (t : ℚ) + (tol : ℚ))))
        = rs.map (windowT t tol) from by
      rw [maskAnd_typed]
      rfl]
    rw [applyMask_typed tsCols encT (windowT t tol) rs]
    exact hk
  constructor
  · intro hw
    refine heval (fun z => z = .ok (DF.mk [] [])) ?_
    rw [hw]
    rfl
  · intro hw
    obtain ⟨w0, W1, hW⟩ := List.exists_cons_of_ne_nil hw
    have hmmem : ((W1.map (fun r => |(r.dte : ℚ) - (t : ℚ)|)).foldl min
        |(w0.dte : ℚ) - (t : ℚ)|) ∈ (w0 :: W1).map (fun r => |(r.dte : ℚ) - (t : ℚ)|) := by
      rw [List.map_cons]
      exact foldl_min_mem _ _
    obtain ⟨i, rm, hrmem, hgr, hfind, hget⟩ :=
      findIdx_min_row (fun r => |(r.dte : ℚ) - (t : ℚ)|) (w0 :: W1)
        ((W1.map (fun r => |(r.dte : ℚ) - (t : ℚ)|)).foldl min
          |(w0.dte : ℚ) - (t : ℚ)|) hmmem
    refine ⟨rm, by rw [hW]; exact hrmem, ?_, ?_⟩
    · intro x hx
      rw [hW] at hx
      have hle := foldl_min_le_all (W1.map (fun r => |(r.dte : ℚ) - (t : ℚ)|))
        |(w0.dte : ℚ) - (t : ℚ)|
      rw [hgr]
      rcases List.mem_cons.mp hx with h | h
      · rw [h]
        exact hle.1
      · exact hle.2 _ (List.mem_map_of_mem _ h)
    · refine heval (fun z => z = .ok (tsTable
        (rs.filter (fun r => decide (r.expiration = rm.expiration))))) ?_
      rw [hW]
      rw [show (DF.mk tsCols ((w0 :: W1).map encT)).isEmpty = false from rfl]
      simp only [Bool.false_eq_true, if_false]
      rw [getCol_typed tsCols (codes "dte") 0 (by decide) encT
        (fun r => Val.num ((r.dte : ℚ))) (fun r => rfl) (w0 :: W1)]
      rw [bind_ok]
      rw [mapM_ok_comp (fun v => do
          let s ← vSub v (.num (t : ℚ))
          vAbs s)
        (fun r => Val.num ((r.dte : ℚ))) (fun r => Val.num |(r.dte : ℚ) - (t : ℚ)|)
        (fun r => by rfl) (w0 :: W1)]
      rw [bind_ok]
      rw [show firstMinIdx ((w0 :: W1).map (fun r => Val.num |(r.dte : ℚ) - (t : ℚ)|))
          = some i from by
        rw [firstMinIdx, colNums_num]
        rw [show listMin ((w0 :: W1).map (fun r => |(r.dte : ℚ) - (t : ℚ)|))
            = some ((W1.map (fun r => |(r.dte : ℚ) - (t : ℚ)|)).foldl min
              |(w0.dte : ℚ) - (t : ℚ)|) from by rw [List.map_cons]; rfl]
        rw [Option.some_bind]
        rw [← hgr] at hfind ⊢
        exact hfind]
      simp only []
      rw [getCol_typed tsCols (codes "expiration") 1 (by decide) encT
        (fun r => Val.date r.expiration) (fun r => rfl) (w0 :: W1)]
      rw [bind_ok]
      rw [hget (fun r => Val.date r.expiration)]
      rw [show tsTable rs = DF.mk tsCols (rs.map encT) from rfl]
      rw [maskE_typed tsCols (codes "expiration") 1 (by decide) encT
        (fun v => pure (vEqCmp v (Val.date rm.expiration)))
        (fun r => decide (r.expiration = rm.expiration))
        (fun r => by
          show pure (vEqCmp (cellAt (encT r) 1) (Val.date rm.expiration))
            = Except.ok (decide (r.expiration = rm.expiration))
          rw [show cellAt (encT r) 1 = Val.date r.expiration from rfl, vEqCmp_date]
          rfl) rs]
      rw [bind_ok]
      rw [applyMask_typed tsCols encT (fun r => decide (r.expiration = rm.expiration)) rs]
      rfl

/-- The liquidity filter of `calculate_rr25_by_dte` on a typed row:
`iv_pct > 0`, `delta` defined, `volume > 0`, `bid > 0`. -/
def liqT (r : TRow) : Bool :=
  ((decide (0 < r.iv) && true) && decide (0 < r.volume)) && decide (0 < r.bid)

/-- An empty tolerance window yields the all-undefined bucket. -/
theorem rr25Bucket_empty (rs : List TRow) (t : ℤ) (hne : rs ≠ [])
    (hw : rs.filter (windowT t (adaptiveTol t)) = []) :
    rr25Bucket (tsTable rs) t = .ok ⟨none, none, none⟩ := by
  rw [rr25Bucket, (find_nearest_typed rs hne t (adaptiveTol t)).1 hw]
  rw [show ((Except.ok (DF.mk [] []) : Except Err DF)
      >>= (fun df_dte => if df_dte.isEmpty then pure (⟨none, none, none⟩ : TSBucket)
        else _)) = _ from bind_ok _ _]
  rfl

set_option maxHeartbeats 1000000 in
/-- In a nonempty tolerance window, the bucket is computed from all rows of
a distance-minimal expiration: `actual_dte` records its `dte`, and the
25-delta legs are the local interpolations of the liquidity-filtered slice. -/
theorem rr25Bucket_sel (rs : List TRow) (t : ℤ) (hne : rs ≠ [])
    (hfd : ∀ r ∈ rs, ∀ r2 ∈ rs, r.expiration = r2.expiration → r.dte = r2.dte)
    (hw : rs.filter (windowT t (adaptiveTol t)) ≠ []) :
    ∃ rm ∈ rs.filter (windowT t (adaptiveTol t)),
      (∀ x ∈ rs.filter (windowT t (adaptiveTol t)),
        |(rm.dte : ℚ) - (t : ℚ)| ≤ |(x.dte : ℚ) - (t : ℚ)|) ∧
      ((rs.filter (fun r => decide (r.expiration = rm.expiration))).filter liqT = [] →
        rr25Bucket (tsTable rs) t = .ok ⟨none, none, some rm.dte⟩) ∧
      ((rs.filter (fun r => decide (r.expiration = rm.expiration))).filter liqT ≠ [] →
        ∃ p25 c25 ac ap,
          interpolate_iv_at_delta_local
            (tsTable ((rs.filter (fun r => decide (r.expiration = rm.expiration))).filter
              liqT)) (1/4) (codes "PUT") = .ok p25 ∧
          interpolate_iv_at_delta_local
            (tsTable ((rs.filter (fun r => decide (r.expiration = rm.expiration))).filter
              liqT)) (1/4) (codes "CALL") = .ok c25 ∧
          interpolate_iv_at_delta_local
            (tsTable ((rs.filter (fun r => decide (r.expiration = rm.expiration))).filter
              liqT)) (1/2) (codes "CALL") = .ok ac ∧
          interpolate_iv_at_delta_local
            (tsTable ((rs.filter (fun r => decide (r.expiration = rm.expiration))).filter
              liqT)) (1/2) (codes "PUT") = .ok ap ∧
          rr25Bucket (tsTable rs) t
            = .ok ⟨(match p25, c25 with
                    | some p, some c => some (p - c)
                    | _, _ => none), nanMean2 ac ap, some rm.dte⟩) := by
  obtain ⟨rm, hrmW, hmin, hfind⟩ := (find_nearest_typed rs hne t (adaptiveTol t)).2 hw
  have hrm_rs : rm ∈ rs := List.mem_of_mem_filter hrmW
  have hrm_sel : rm ∈ rs.filter (fun r => decide (r.expiration = rm.expiration)) :=
    List.mem_filter.mpr ⟨hrm_rs, by simp⟩
  obtain ⟨c0, cs, hsel⟩ := List.exists_cons_of_ne_nil (List.ne_nil_of_mem hrm_sel)
  have hc0 : c0 ∈ rs.filter (fun r => decide (r.expiration = rm.expiration)) := by
    rw [hsel]
    exact List.mem_cons_self _ _
  have hc0exp : c0.expiration = rm.expiration := by
    have := (List.mem_filter.mp hc0).2
    simpa using this
  have hc0dte : c0.dte = rm.dte := hfd c0 (List.mem_of_mem_filter hc0) rm hrm_rs hc0exp
  rw [hsel] at hfind
  have heval : ∀ (k : Except Err TSBucket → Prop),
      k (if (DF.mk tsCols (((c0 :: cs).filter liqT).map encT)).isEmpty then
           Except.ok (⟨none, none, some rm.dte⟩ : TSBucket)
         else do
           let p25 ← interpolate_iv_at_delta_local
             (DF.mk tsCols (((c0 :: cs).filter liqT).map encT)) (1/4) (codes "PUT")
           let c25 ← interpolate_iv_at_delta_local
             (DF.mk tsCols (((c0 :: cs).filter liqT).map encT)) (1/4) (codes "CALL")
           let ac ← interpolate_iv_at_delta_local
             (DF.mk tsCols (((c0 :: cs).filter liqT).map encT)) (1/2) (codes "CALL")
           let ap ← interpolate_iv_at_delta_local
             (DF.mk tsCols (((c0 :: cs).filter liqT).map encT)) (1/2) (codes "PUT")
           Except.ok (⟨(match p25, c25 with
                        | some p, some c => some (p - c)
                        | _, _ => none), nanMean2 ac ap, some rm.dte⟩ : TSBucket)) →
      k (rr25Bucket (tsTable rs) t) := by
    intro k hk
    rw [rr25Bucket, hfind]
    rw [bind_ok]
    rw [show tsTable (c0 :: cs) = DF.mk tsCols ((c0 :: cs).map encT) from rfl]
    rw [show (DF.mk tsCols ((c0 :: cs).map encT)).isEmpty = false from rfl]
    simp only [Bool.false_eq_true, if_false]
    rw [getCol_typed tsCols (codes "dte") 0 (by decide) encT
      (fun r => Val.num ((r.dte : ℚ))) (fun r => rfl) (c0 :: cs)]
    rw [bind_ok]
    rw [show ((c0 :: cs).map (fun r => Val.num ((r.dte : ℚ)))).headD Val.null
        = Val.num ((c0.dte : ℚ)) from rfl]
    simp only [pure, Except.pure]
    rw [bind_ok]
    rw [qTrunc_int, hc0dte]
    rw [maskE_typed tsCols (codes "iv_pct") 3 (by decide) encT (fun v => vGtQ v 0)
      (fun r => decide (0 < r.iv)) (fun r => rfl) (c0 :: cs)]
    rw [bind_ok]
    rw [maskE_typed tsCols (codes "delta") 4 (by decide) encT
      (fun v => Except.ok (vNotNa v)) (fun _ => true) (fun r => rfl) (c0 :: cs)]
    rw [bind_ok]
    rw [maskE_typed tsCols (codes "volume") 5 (by decide) encT (fun v => vGtQ v 0)
      (fun r => decide (0 < r.volume)) (fun r => rfl) (c0 :: cs)]
    rw [bind_ok]
    rw [maskE_typed tsCols (codes "bid") 6 (by decide) encT (fun v => vGtQ v 0)
      (fun r => decide (0 < r.bid)) (fun r => rfl) (c0 :: cs)]
    rw [bind_ok]
    rw [show maskAnd (maskAnd (maskAnd ((c0 :: cs).map (fun r => decide (0 < r.iv)))
          ((c0 :: cs).map (fun _ => true))) ((c0 :: cs).map (fun r => decide (0 < r.volume))))
        ((c0 :: cs).map (fun r => decide (0 < r.bid))) = (c0 :: cs).map liqT from by
      rw [maskAnd_typed, maskAnd_typed, maskAnd_typed]
      rfl]
    rw [applyMask_typed tsCols encT liqT (c0 :: cs)]
    exact hk
  refine ⟨rm, hrmW, hmin, ?_, ?_⟩
  · intro hcl
    rw [hsel] at hcl
    refine heval (fun z => z = .ok ⟨none, none, some rm.dte⟩) ?_
    rw [hcl]
    rfl
  · intro hcl
    rw [hsel] at hcl ⊢
    obtain ⟨d0, ds, hcl2⟩ := List.exists_cons_of_ne_nil hcl
    rw [hcl2]
    have hloc : ∀ (tgt : Bool) (q : ℚ),
        interpolate_iv_at_delta_local (DF.mk tsCols ((d0 :: ds).map encT)) q (rightStr tgt)
          = .ok (interpCoreL TRow.put TRow.iv TRow.delta tgt (d0 :: ds) q) :=
      fun tgt q =>
        interpolate_local_typed tsCols encT (fun _ => rfl) 2 3 4
          (by decide) (by decide) (by decide)
          TRow.put TRow.iv TRow.delta
          (fun _ => rfl) (fun _ => rfl) (fun _ => rfl)
          (by decide) tgt q (d0 :: ds)
    refine ⟨interpCoreL TRow.put TRow.iv TRow.delta true (d0 :: ds) (1/4),
      interpCoreL TRow.put TRow.iv TRow.delta false (d0 :: ds) (1/4),
      interpCoreL TRow.put TRow.iv TRow.delta false (d0 :: ds) (1/2),
      interpCoreL TRow.put TRow.iv TRow.delta true (d0 :: ds) (1/2),
      ?_, ?_, ?_, ?_, ?_⟩
    · rw [show tsTable (d0 :: ds) = DF.mk tsCols ((d0 :: ds).map encT) from rfl,
        show (codes "PUT") = rightStr true from rfl, hloc true (1/4)]
    · rw [show tsTable (d0 :: ds) = DF.mk tsCols ((d0 :: ds).map encT) from rfl,
        show (codes "CALL") = rightStr false from rfl, hloc false (1/4)]
    · rw [show tsTable (d0 :: ds) = DF.mk tsCols ((d0 :: ds).map encT) from rfl,
        show (codes "CALL") = rightStr false from rfl, hloc false (1/2)]
    · rw [show tsTable (d0 :: ds) = DF.mk tsCols ((d0 :: ds).map encT) from rfl,
        show (codes "PUT") = rightStr true from rfl, hloc true (1/2)]
    · refine heval (fun z => z
        = .ok ⟨(match interpCoreL TRow.put TRow.iv TRow.delta true (d0 :: ds) (1/4),
                interpCoreL TRow.put TRow.iv TRow.delta false (d0 :: ds) (1/4) with
                | some p, some c => some (p - c)
                | _, _ => none),
            nanMean2 (interpCoreL TRow.put TRow.iv TRow.delta false (d0 :: ds) (1/2))
              (interpCoreL TRow.put TRow.iv TRow.delta true (d0 :: ds) (1/2)),
            some rm.dte⟩) ?_
      rw [hcl2]
      rw [show (DF.mk tsCols ((d0 :: ds).map encT)).isEmpty = false from rfl]
      simp only [Bool.false_eq_true, if_false]
      rw [show (codes "PUT") = rightStr true from rfl,
        show (codes "CALL") = rightStr false from rfl]
      rw [hloc true (1/4)]
      rw [bind_ok]
      rw [hloc false (1/4)]
      rw [bind_ok]
      rw [hloc false (1/2)]
      rw [bind_ok]
      rw [hloc true (1/2)]
      rw [bind_ok]

/-- C3: the term-structure engine uses tolerance ±1 for the 0-day bucket,
±2 for 7 days and ±5 for 30 and 60 days; on a Greeks table carrying `dte`
(one `dte` per expiration) the engine maps the per-bucket computation over
the targets without touching the frame, an empty tolerance window leaves
the whole bucket (including `actual_dte`) undefined, and otherwise a
distance-minimal expiration is selected, `actual_dte` records its `dte`,
and the bucket metrics are the 25-delta local interpolations of that
expiration's rows after the liquidity filter
`iv_pct > 0 ∧ delta defined ∧ volume > 0 ∧ bid > 0`. -/
theorem c3_term_structure (rs : List TRow) (t : ℤ) (hne : rs ≠ [])
    (hfd : ∀ r ∈ rs, ∀ r2 ∈ rs, r.expiration = r2.expiration → r.dte = r2.dte) :
    (adaptiveTol 0 = 1 ∧ adaptiveTol 7 = 2 ∧ adaptiveTol 30 = 5 ∧ adaptiveTol 60 = 5)
    ∧ (∀ (ts : List ℤ) (bs : List (ℤ × TSBucket)),
        ts.mapM (fun t2 => do
          let b ← rr25Bucket (tsTable rs) t2
          pure (t2, b)) = .ok bs →
        calculate_rr25_by_dte (tsTable rs) ts = .ok (bs, tsTable rs))
    ∧ (rs.filter (windowT t (adaptiveTol t)) = [] →
        rr25Bucket (tsTable rs) t = .ok ⟨none, none, none⟩)
    ∧ (rs.filter (windowT t (adaptiveTol t)) ≠ [] →
        ∃ rm ∈ rs.filter (windowT t (adaptiveTol t)),
          (∀ x ∈ rs.filter (windowT t (adaptiveTol t)),
            |(rm.dte : ℚ) - (t : ℚ)| ≤ |(x.dte : ℚ) - (t : ℚ)|) ∧
          ((rs.filter (fun r => decide (r.expiration = rm.expiration))).filter liqT = [] →
            rr25Bucket (tsTable rs) t = .ok ⟨none, none, some rm.dte⟩) ∧
          ((rs.filter (fun r => decide (r.expiration = rm.expiration))).filter liqT ≠ [] →
            ∃ p25 c25 ac ap,
              interpolate_iv_at_delta_local
                (tsTable ((rs.filter (fun r => decide (r.expiration = rm.expiration))).filter
                  liqT)) (1/4) (codes "PUT") = .ok p25 ∧
              interpolate_iv_at_delta_local
                (tsTable ((rs.filter (fun r => decide (r.expiration = rm.expiration))).filter
                  liqT)) (1/4) (codes "CALL") = .ok c25 ∧
              interpolate_iv_at_delta_local
                (tsTable ((rs.filter (fun r => decide (r.expiration = rm.expiration))).filter
                  liqT)) (1/2) (codes "CALL") = .ok ac ∧
              interpolate_iv_at_delta_local
                (tsTable ((rs.filter (fun r => decide (r.expiration = rm.expiration))).filter
                  liqT)) (1/2) (codes "PUT") = .ok ap ∧
              rr25Bucket (tsTable rs) t
                = .ok ⟨(match p25, c25 with
                        | some p, some c => some (p - c)
                        | _, _ => none), nanMean2 ac ap, some rm.dte⟩)) := by
  refine ⟨⟨by decide, by decide, by decide, by decide⟩, ?_,
    rr25Bucket_empty rs t hne, rr25Bucket_sel rs t hne hfd⟩
  intro ts bs hmap
  simp only [pure, Except.pure] at hmap
  have hE : (tsTable rs).isEmpty = false := by
    obtain ⟨a, u, rfl⟩ := List.exists_cons_of_ne_nil hne
    rfl
  rw [calculate_rr25_by_dte, hE]
  simp only [Bool.false_eq_true, if_false]
  rw [show (tsTable rs).hasCol (codes "dte") = true from rfl]
  simp only [Bool.not_true, Bool.false_eq_true, if_false, pure, Except.pure]
  rw [bind_ok]
  simp only []
  rw [hmap]
  rw [bind_ok]

/-- A lone expiration at 8 days: two puts and two calls bracketing the
25-delta target, all liquid. -/
def c3Rows : List TRow :=
  [⟨8, 20300, true, 20, -(1/5), 5, 1⟩, ⟨8, 20300, true, 22, -(3/10), 5, 1⟩,
   ⟨8, 20300, false, 16, 1/5, 5, 1⟩, ⟨8, 20300, false, 18, 3/10, 5, 1⟩]

unseal Rat.add Rat.mul Rat.sub Rat.inv in
/-- C3 witness: the engine's tolerances are 1/2/5/5, and on a lone
expiration at 8 days the 7-day bucket selects it: `actual_dte = 8` with
`rr25 = 21 − 17 = 4` from the liquidity-filtered slice. -/
theorem c3_witness :
    (adaptiveTol 0 = 1 ∧ adaptiveTol 7 = 2 ∧ adaptiveTol 30 = 5 ∧ adaptiveTol 60 = 5)
    ∧ rr25Bucket (tsTable c3Rows) 7 = .ok ⟨some 4, none, some 8⟩ :=
  ⟨(c3_term_structure c3Rows 7 (by decide) (by decide)).1, by decide⟩

theorem foldl_max_mem : ∀ (l : List ℚ) (a : ℚ), l.foldl max a ∈ a :: l := by
  intro l
  induction l with
  | nil =>
      intro a
      exact List.mem_cons_self _ _
  | cons x u ih =>
      intro a
      rw [List.foldl_cons]
      rcases List.mem_cons.mp (ih (max a x)) with h | h
      · rw [h]
        rcases max_choice a x with hm | hm
        · rw [hm]
          exact List.mem_cons_self _ _
        · rw [hm]
          exact List.mem_cons_of_mem _ (List.mem_cons_self _ _)
      · exact List.mem_cons_of_mem _ (List.mem_cons_of_mem _ h)

theorem foldl_max_ge_all : ∀ (l : List ℚ) (a : ℚ),
    a ≤ l.foldl max a ∧ ∀ x ∈ l, x ≤ l.foldl max a := by
  intro l
  induction l with
  | nil =>
      intro a
      exact ⟨le_refl a, fun x hx => absurd hx (List.not_mem_nil x)⟩
  | cons x u ih =>
      intro a
      rw [List.foldl_cons]
      obtain ⟨h1, h2⟩ := ih (max a x)
      refine ⟨(le_max_left a x).trans h1, ?_⟩
      intro y hy
      rcases List.mem_cons.mp hy with h | h
      · exact h ▸ (le_max_right a x).trans h1
      · exact h2 y h

/-- The position `findIdx?` reports for the first cell holding value `m`,
in split form: a decomposition with no earlier occurrence. -/
theorem findIdx_val_split {β : Type} (g : β → ℚ) :
    ∀ (l : List β) (m : ℚ), m ∈ l.map g →
    ∃ l1 rm l2, l = l1 ++ rm :: l2 ∧ g rm = m ∧ (∀ x ∈ l1, g x ≠ m) ∧
      (l.map (fun x => Val.num (g x))).findIdx? (fun v => decide (v = Val.num m))
        = some l1.length := by
  intro l
  induction l with
  | nil =>
      intro m hm
      simp at hm
  | cons a u ih =>
      intro m hm
      by_cases hga : g a = m
      · refine ⟨[], a, u, rfl, hga, fun x hx => absurd hx (List.not_mem_nil x), ?_⟩
        rw [List.map_cons, List.findIdx?_cons, if_pos (by simp [hga])]
        rfl
      · have hm2 : m ∈ u.map g := by
          rw [List.map_cons] at hm
          rcases List.mem_cons.mp hm with h | h
          · exact absurd h.symm hga
          · exact h
        obtain ⟨l1, rm, l2, hsplit, hgr, hfst, hfind⟩ := ih m hm2
        refine ⟨a :: l1, rm, l2, by rw [hsplit]; rfl, hgr, ?_, ?_⟩
        · intro x hx
          rcases List.mem_cons.mp hx with h | h
          · exact h ▸ hga
          · exact hfst x h
        · rw [List.map_cons, List.findIdx?_cons, if_neg (by simp [hga]),
            List.findIdx?_succ, hfind]
          rfl

theorem getD_append_len {α : Type} (d : α) (l1 : List α) (x : α) (l2 : List α) :
    (l1 ++ x :: l2).getD l1.length d = x := by
  induction l1 with
  | nil => rfl
  | cons a u ih => simpa using ih

theorem set_append_len {α : Type} (l1 : List α) (x z : α) (l2 : List α) :
    (l1 ++ x :: l2).set l1.length z = l1 ++ z :: l2 := by
  induction l1 with
  | nil => rfl
  | cons a u ih => simpa using ih

/-- Writing one updated element at a position split off from a list of
encoded rows, when the selected element occurs nowhere else. -/
theorem map_set_unique {β : Type} [DecidableEq β] (enc v : β → List Val) (l1 : List β) (rm : β)
    (l2 : List β) (h1 : ∀ x ∈ l1, x ≠ rm) (h2 : ∀ x ∈ l2, x ≠ rm) :
    ((l1 ++ rm :: l2).map enc).set l1.length (v rm)
      = (l1 ++ rm :: l2).map (fun p => if p = rm then v p else enc p) := by
  rw [List.map_append, List.map_cons, List.map_append, List.map_cons]
  rw [show l1.length = (l1.map enc).length from (List.length_map _ _).symm, set_append_len]
  rw [if_pos rfl]
  rw [List.map_congr_left (fun x hx => by simp only [if_neg (h1 x hx)] : ∀ x ∈ l1,
    (fun p => if p = rm then v p else enc p) x = enc x)]
  rw [List.map_congr_left (fun x hx => by simp only [if_neg (h2 x hx)] : ∀ x ∈ l2,
    (fun p => if p = rm then v p else enc p) x = enc x)]

/-- One row of the per-strike GEX table entering the wall-detection stage. -/
structure GRow where
  strike : ℚ
  gex : ℚ
  oi : ℚ
deriving DecidableEq

/-- Column names of the per-strike GEX table. -/
def gbCols : List (List Nat) :=
  [codes "strike", codes "gex", codes "open_interest", codes "spot_price",
   codes "distance_to_spot", codes "gex_billions", codes "is_call_wall",
   codes "is_put_wall"]

/-- Cells of a per-strike row before wall detection (flags cleared). -/
def encGB (spot : ℚ) (r : GRow) : List Val :=
  [Val.num r.strike, Val.num r.gex, Val.num r.oi, Val.num spot,
   Val.num (r.strike - spot), Val.num (r.gex / 1000000000),
   Val.bool false, Val.bool false]

/-- Cells of a per-strike row after wall detection, with the flag state
determined by whether each wall fired on this row. -/
def encFin (spot : ℚ) (cw pw : Bool) (rm rn : GRow) (p : GRow) : List Val :=
  [Val.num p.strike, Val.num p.gex, Val.num p.oi, Val.num spot,
   Val.num (p.strike - spot), Val.num (p.gex / 1000000000),
   Val.bool (cw && decide (p = rm)), Val.bool (pw && decide (p = rn))]

theorem replicate_set_split {α : Type} (n m : Nat) (a b : α) :
    (List.replicate (n + (m + 1)) a).set n b
      = List.replicate n a ++ b :: List.replicate m a := by
  induction n with
  | zero =>
      rw [Nat.zero_add]
      rfl
  | succ k ih =>
      rw [show k + 1 + (m + 1) = k + (m + 1) + 1 from by omega]
      rw [List.replicate_succ]
      show a :: (List.replicate (k + (m + 1)) a).set k b = _
      rw [ih, List.replicate_succ]
      rfl

set_option maxHeartbeats 1600000 in
/-- C5: on every per-strike GEX table (distinct strikes), wall detection
flags exactly one row — one holding the maximum summed `gex` — as the call
wall when that maximum is positive and none otherwise, symmetrically flags
a minimal row as the put wall exactly when the minimum is negative, and
returns the table sorted by strike ascending. -/
theorem c5_gex_walls (spot : ℚ) (g0 : List GRow) (hne : g0 ≠ [])
    (hd : (g0.map GRow.strike).Pairwise (· ≠ ·)) :
    ∃ (out : DF) (M m : ℚ) (scol gcol : List ℚ) (sflags pflags : List Val),
      gexWalls (DF.mk gbCols (g0.map (encGB spot))) = .ok out ∧
      listMax (g0.map GRow.gex) = some M ∧
      listMin (g0.map GRow.gex) = some m ∧
      out.getCol (codes "strike") = .ok (scol.map Val.num) ∧
      scol.Pairwise (· < ·) ∧
      scol.Perm (g0.map GRow.strike) ∧
      out.getCol (codes "gex") = .ok (gcol.map Val.num) ∧
      out.getCol (codes "is_call_wall") = .ok sflags ∧
      out.getCol (codes "is_put_wall") = .ok pflags ∧
      ((0 < M → ∃ j, j < gcol.length ∧ gcol.getD j 0 = M ∧
          sflags = (List.replicate gcol.length (Val.bool false)).set j (Val.bool true))
        ∧ (¬ 0 < M → sflags = List.replicate gcol.length (Val.bool false)))
      ∧ ((m < 0 → ∃ j, j < gcol.length ∧ gcol.getD j 0 = m ∧
          pflags = (List.replicate gcol.length (Val.bool false)).set j (Val.bool true))
        ∧ (¬ m < 0 → pflags = List.replicate gcol.length (Val.bool false))) := by
  obtain ⟨a0, u0, hg0⟩ := List.exists_cons_of_ne_nil hne
  have hg0d : g0.Pairwise (fun x y => x ≠ y) :=
    (List.pairwise_map.mp hd).imp (fun h hxy => h (by rw [hxy]))
  have hMax : listMax (g0.map GRow.gex) = some ((u0.map GRow.gex).foldl max a0.gex) := by
    rw [hg0, List.map_cons]
    rfl
  have hMin : listMin (g0.map GRow.gex) = some ((u0.map GRow.gex).foldl min a0.gex) := by
    rw [hg0, List.map_cons]
    rfl
  have hMmem : (u0.map GRow.gex).foldl max a0.gex ∈ g0.map GRow.gex := by
    rw [hg0, List.map_cons]
    exact foldl_max_mem _ _
  have hmmem : (u0.map GRow.gex).foldl min a0.gex ∈ g0.map GRow.gex := by
    rw [hg0, List.map_cons]
    exact foldl_min_mem _ _
  obtain ⟨l1, rm, l2, hsp1, hgrm, hfst1, hfind1⟩ :=
    findIdx_val_split GRow.gex g0 _ hMmem
  obtain ⟨k1, rn, k2, hsp2, hgrn, hfst2, hfind2⟩ :=
    findIdx_val_split GRow.gex g0 _ hmmem
  have hd1 : (l1 ++ rm :: l2).Pairwise (fun x y => x ≠ y) := hsp1 ▸ hg0d
  rw [List.pairwise_append] at hd1
  have h1s : ∀ x ∈ l1, x ≠ rm := fun x hx => hd1.2.2 x hx rm (List.mem_cons_self _ _)
  have h2s : ∀ x ∈ l2, x ≠ rm :=
    fun x hx => Ne.symm ((List.pairwise_cons.mp hd1.2.1).1 x hx)
  have hd2 : (k1 ++ rn :: k2).Pairwise (fun x y => x ≠ y) := hsp2 ▸ hg0d
  rw [List.pairwise_append] at hd2
  have h1n : ∀ x ∈ k1, x ≠ rn := fun x hx => hd2.2.2 x hx rn (List.mem_cons_self _ _)
  have h2n : ∀ x ∈ k2, x ≠ rn :=
    fun x hx => Ne.symm ((List.pairwise_cons.mp hd2.2.1).1 x hx)
  have hrmg : rm.gex = (u0.map GRow.gex).foldl max a0.gex := hgrm
  have hrng : rn.gex = (u0.map GRow.gex).foldl min a0.gex := hgrn
  have hgcolMax : firstMaxIdx (g0.map (fun r => Val.num r.gex)) = some l1.length := by
    rw [firstMaxIdx, colNums_num]
    rw [show (g0.map (fun r => GRow.gex r)) = g0.map GRow.gex from rfl, hMax,
      Option.some_bind]
    exact hfind1
  have hgcolMin : firstMinIdx (g0.map (fun r => Val.num r.gex)) = some k1.length := by
    rw [firstMinIdx, colNums_num]
    rw [show (g0.map (fun r => GRow.gex r)) = g0.map GRow.gex from rfl, hMin,
      Option.some_bind]
    exact hfind2
  have hgetDm : (g0.map (fun r => Val.num r.gex)).getD l1.length Val.null
      = Val.num rm.gex := by
    rw [hsp1, List.map_append, List.map_cons,
      show l1.length = (l1.map (fun r => Val.num r.gex)).length from
        (List.length_map _ _).symm]
    exact getD_append_len _ _ _ _
  have hgetDn : (g0.map (fun r => Val.num r.gex)).getD k1.length Val.null
      = Val.num rn.gex := by
    rw [hsp2, List.map_append, List.map_cons,
      show k1.length = (k1.map (fun r => Val.num r.gex)).length from
        (List.length_map _ _).symm]
    exact getD_append_len _ _ _ _
  have hEval : gexWalls (DF.mk gbCols (g0.map (encGB spot)))
      = .ok (DF.mk gbCols ((insSortQ GRow.strike g0).map
          (encFin spot (decide (0 < (u0.map GRow.gex).foldl max a0.gex))
            (decide ((u0.map GRow.gex).foldl min a0.gex < 0)) rm rn))) := by
    rw [gexWalls]
    rw [show (DF.mk gbCols (g0.map (encGB spot))).isEmpty = false from by rw [hg0]; rfl]
    simp only [Bool.not_false, if_true]
    rw [getCol_typed gbCols (codes "gex") 1 (by decide) (encGB spot)
      (fun r => Val.num r.gex) (fun r => rfl) g0]
    rw [bind_ok]
    rw [hgcolMax]
    simp only [hgetDm, pure, Except.pure]
    rw [hgrm]
    rw [bind_ok]
    by_cases hMp : 0 < (u0.map GRow.gex).foldl max a0.gex
    · rw [if_pos (decide_eq_true hMp)]
      rw [show (DF.mk gbCols (g0.map (encGB spot))).setCellTrue
          (codes "is_call_wall") l1.length
        = DF.mk gbCols ((g0.map (encGB spot)).set l1.length
          (((g0.map (encGB spot)).getD l1.length []).set 6 (Val.bool true))) from rfl]
      rw [show (g0.map (encGB spot)).getD l1.length [] = encGB spot rm from by
        rw [hsp1, List.map_append, List.map_cons,
          show l1.length = (l1.map (encGB spot)).length from (List.length_map _ _).symm]
        exact getD_append_len _ _ _ _]
      rw [hsp1, map_set_unique (encGB spot)
        (fun p => (encGB spot p).set 6 (Val.bool true)) l1 rm l2 h1s h2s, ← hsp1]
      rw [getCol_typed gbCols (codes "gex") 1 (by decide)
        (fun p => if p = rm then (fun p => (encGB spot p).set 6 (Val.bool true)) p
          else encGB spot p)
        (fun r => Val.num r.gex) (fun r => by
          show cellAt (if r = rm then (encGB spot r).set 6 (Val.bool true)
            else encGB spot r) 1 = Val.num r.gex
          by_cases h : r = rm
          · rw [if_pos h]
            rfl
          · rw [if_neg h]
            rfl) g0]
      rw [bind_ok]
      rw [hgcolMin]
      simp only [hgetDn]
      rw [hgrn]
      by_cases hmn : (u0.map GRow.gex).foldl min a0.gex < 0
      · have hrmn : rm ≠ rn := by
          intro e
          rw [e, hrng] at hrmg
          rw [← hrmg] at hMp
          exact absurd (lt_trans hMp hmn) (lt_irrefl 0)
        rw [if_pos (decide_eq_true hmn)]
        rw [show (DF.mk gbCols (g0.map (fun p => if p = rm
              then (fun p => (encGB spot p).set 6 (Val.bool true)) p
              else encGB spot p))).setCellTrue (codes "is_put_wall") k1.length
          = DF.mk gbCols ((g0.map (fun p => if p = rm
              then (fun p => (encGB spot p).set 6 (Val.bool true)) p
              else encGB spot p)).set k1.length
            (((g0.map (fun p => if p = rm
              then (fun p => (encGB spot p).set 6 (Val.bool true)) p
              else encGB spot p)).getD k1.length []).set 7 (Val.bool true))) from rfl]
        rw [show (g0.map (fun p => if p = rm
              then (fun p => (encGB spot p).set 6 (Val.bool true)) p
              else encGB spot p)).getD k1.length []
            = (if rn = rm then (fun p => (encGB spot p).set 6 (Val.bool true)) rn
              else encGB spot rn) from by
          rw [hsp2, List.map_append, List.map_cons,
            show k1.length = (k1.map (fun p => if p = rm
              then (fun p => (encGB spot p).set 6 (Val.bool true)) p
              else encGB spot p)).length from (List.length_map _ _).symm]
          exact getD_append_len _ _ _ _]
        rw [if_neg (fun e => hrmn e.symm)]
        rw [hsp2, map_set_unique (fun p => if p = rm
            then (fun p => (encGB spot p).set 6 (Val.bool true)) p
            else encGB spot p)
          (fun p => (encGB spot p).set 7 (Val.bool true)) k1 rn k2 h1n h2n, ← hsp2]
        rw [bind_ok]
        rw [sortValues_typed gbCols (codes "strike") 0 (by decide)
          (fun p => if p = rn then (fun p => (encGB spot p).set 7 (Val.bool true)) p
            else if p = rm then (fun p => (encGB spot p).set 6 (Val.bool true)) p
              else encGB spot p)
          GRow.strike (fun r => by
            show cellAt (if r = rn then (encGB spot r).set 7 (Val.bool true)
              else if r = rm then (encGB spot r).set 6 (Val.bool true)
                else encGB spot r) 0 = Val.num r.strike
            by_cases h : r = rn
            · rw [if_pos h]
              rfl
            · rw [if_neg h]
              by_cases h2 : r = rm
              · rw [if_pos h2]
                rfl
              · rw [if_neg h2]
                rfl) g0]
        rw [show (insSortQ GRow.strike g0).map
            (fun p => if p = rn then (fun p => (encGB spot p).set 7 (Val.bool true)) p
              else if p = rm then (fun p => (encGB spot p).set 6 (Val.bool true)) p
                else encGB spot p)
          = (insSortQ GRow.strike g0).map
            (encFin spot (decide (0 < (u0.map GRow.gex).foldl max a0.gex))
              (decide ((u0.map GRow.gex).foldl min a0.gex < 0)) rm rn) from by
          apply List.map_congr_left
          intro x _
          show (if x = rn then (encGB spot x).set 7 (Val.bool true)
            else if x = rm then (encGB spot x).set 6 (Val.bool true)
              else encGB spot x) = _
          by_cases h : x = rn
          · rw [if_pos h]
            have hxm : x ≠ rm := fun e => hrmn (h.symm.trans e).symm
            simp [encGB, encFin, h, hxm, Ne.symm hrmn,
              decide_eq_true hMp, decide_eq_true hmn]
          · rw [if_neg h]
            by_cases h2 : x = rm
            · rw [if_pos h2]
              simp [encGB, encFin, h, h2, hrmn,
                decide_eq_true hMp, decide_eq_true hmn]
            · rw [if_neg h2]
              simp [encGB, encFin, h, h2]]
      · rw [if_neg (by simp [hmn])]
        rw [bind_ok]
        rw [sortValues_typed gbCols (codes "strike") 0 (by decide)
          (fun p => if p = rm then (fun p => (encGB spot p).set 6 (Val.bool true)) p
            else encGB spot p)
          GRow.strike (fun r => by
            show cellAt (if r = rm then (encGB spot r).set 6 (Val.bool true)
              else encGB spot r) 0 = Val.num r.strike
            by_cases h : r = rm
            · rw [if_pos h]
              rfl
            · rw [if_neg h]
              rfl) g0]
        rw [show (insSortQ GRow.strike g0).map
            (fun p => if p = rm then (fun p => (encGB spot p).set 6 (Val.bool true)) p
              else encGB spot p)
          = (insSortQ GRow.strike g0).map
            (encFin spot (decide (0 < (u0.map GRow.gex).foldl max a0.gex))
              (decide ((u0.map GRow.gex).foldl min a0.gex < 0)) rm rn) from by
          apply List.map_congr_left
          intro x _
          show (if x = rm then (encGB spot x).set 6 (Val.bool true)
            else encGB spot x) = _
          by_cases h2 : x = rm
          · rw [if_pos h2]
            simp [encGB, encFin, h2, decide_eq_true hMp, decide_eq_false hmn]
          · rw [if_neg h2]
            simp [encGB, encFin, h2, decide_eq_false hmn]]
    · rw [if_neg (by simp [hMp])]
      rw [getCol_typed gbCols (codes "gex") 1 (by decide) (encGB spot)
        (fun r => Val.num r.gex) (fun r => rfl) g0]
      rw [bind_ok]
      rw [hgcolMin]
      simp only [hgetDn]
      rw [hgrn]
      by_cases hmn : (u0.map GRow.gex).foldl min a0.gex < 0
      · rw [if_pos (decide_eq_true hmn)]
        rw [show (DF.mk gbCols (g0.map (encGB spot))).setCellTrue
            (codes "is_put_wall") k1.length
          = DF.mk gbCols ((g0.map (encGB spot)).set k1.length
            (((g0.map (encGB spot)).getD k1.length []).set 7 (Val.bool true))) from rfl]
        rw [show (g0.map (encGB spot)).getD k1.length [] = encGB spot rn from by
          rw [hsp2, List.map_append, List.map_cons,
            show k1.length = (k1.map (encGB spot)).length from (List.length_map _ _).symm]
          exact getD_append_len _ _ _ _]
        rw [hsp2, map_set_unique (encGB spot)
          (fun p => (encGB spot p).set 7 (Val.bool true)) k1 rn k2 h1n h2n, ← hsp2]
        rw [bind_ok]
        rw [sortValues_typed gbCols (codes "strike") 0 (by decide)
          (fun p => if p = rn then (fun p => (encGB spot p).set 7 (Val.bool true)) p
            else encGB spot p)
          GRow.strike (fun r => by
            show cellAt (if r = rn then (encGB spot r).set 7 (Val.bool true)
              else encGB spot r) 0 = Val.num r.strike
            by_cases h : r = rn
            · rw [if_pos h]
              rfl
            · rw [if_neg h]
              rfl) g0]
        rw [show (insSortQ GRow.strike g0).map
            (fun p => if p = rn then (fun p => (encGB spot p).set 7 (Val.bool true)) p
              else encGB spot p)
          = (insSortQ GRow.strike g0).map
            (encFin spot (decide (0 < (u0.map GRow.gex).foldl max a0.gex))
              (decide ((u0.map GRow.gex).foldl min a0.gex < 0)) rm rn) from by
          apply List.map_congr_left
          intro x _
          show (if x = rn then (encGB spot x).set 7 (Val.bool true)
            else encGB spot x) = _
          by_cases h : x = rn
          · rw [if_pos h]
            simp [encGB, encFin, h, decide_eq_false hMp, decide_eq_true hmn]
          · rw [if_neg h]
            simp [encGB, encFin, h, decide_eq_false hMp]]
      · rw [if_neg (by simp [hmn])]
        rw [bind_ok]
        rw [sortValues_typed gbCols (codes "strike") 0 (by decide) (encGB spot)
          GRow.strike (fun r => rfl) g0]
        rw [show (insSortQ GRow.strike g0).map (encGB spot)
          = (insSortQ GRow.strike g0).map
            (encFin spot (decide (0 < (u0.map GRow.gex).foldl max a0.gex))
              (decide ((u0.map GRow.gex).foldl min a0.gex < 0)) rm rn) from by
          apply List.map_congr_left
          intro x _
          simp [encGB, encFin, decide_eq_false hMp, decide_eq_false hmn]]
  refine ⟨DF.mk gbCols ((insSortQ GRow.strike g0).map
      (encFin spot (decide (0 < (u0.map GRow.gex).foldl max a0.gex))
        (decide ((u0.map GRow.gex).foldl min a0.gex < 0)) rm rn)),
    (u0.map GRow.gex).foldl max a0.gex, (u0.map GRow.gex).foldl min a0.gex,
    (insSortQ GRow.strike g0).map GRow.strike,
    (insSortQ GRow.strike g0).map GRow.gex,
    (insSortQ GRow.strike g0).map (fun p => Val.bool
      (decide (0 < (u0.map GRow.gex).foldl max a0.gex) && decide (p = rm))),
    (insSortQ GRow.strike g0).map (fun p => Val.bool
      (decide ((u0.map GRow.gex).foldl min a0.gex < 0) && decide (p = rn))),
    hEval, hMax, hMin, ?_, ?_, ?_, ?_, ?_, ?_, ?_, ?_⟩
  · rw [getCol_typed gbCols (codes "strike") 0 (by decide)
      (encFin spot (decide (0 < (u0.map GRow.gex).foldl max a0.gex))
        (decide ((u0.map GRow.gex).foldl min a0.gex < 0)) rm rn)
      (fun r => Val.num r.strike) (fun r => rfl) (insSortQ GRow.strike g0)]
    exact congrArg Except.ok (List.map_map _ _ _).symm
  · have hperm := (insSortQ_perm GRow.strike g0).map GRow.strike
    have hsorted : ((insSortQ GRow.strike g0).map GRow.strike).Pairwise (· ≤ ·) :=
      List.pairwise_map.mpr (insSortQ_sorted GRow.strike g0)
    have hdS : ((insSortQ GRow.strike g0).map GRow.strike).Pairwise (· ≠ ·) :=
      (List.Perm.pairwise_iff (fun h => Ne.symm h) hperm).mpr hd
    exact List.Pairwise.imp (fun h => lt_of_le_of_ne h.1 h.2) (hsorted.and hdS)
  · exact (insSortQ_perm GRow.strike g0).map GRow.strike
  · rw [getCol_typed gbCols (codes "gex") 1 (by decide)
      (encFin spot (decide (0 < (u0.map GRow.gex).foldl max a0.gex))
        (decide ((u0.map GRow.gex).foldl min a0.gex < 0)) rm rn)
      (fun r => Val.num r.gex) (fun r => rfl) (insSortQ GRow.strike g0)]
    exact congrArg Except.ok (List.map_map _ _ _).symm
  · exact getCol_typed gbCols (codes "is_call_wall") 6 (by decide)
      (encFin spot (decide (0 < (u0.map GRow.gex).foldl max a0.gex))
        (decide ((u0.map GRow.gex).foldl min a0.gex < 0)) rm rn)
      (fun p => Val.bool
        (decide (0 < (u0.map GRow.gex).foldl max a0.gex) && decide (p = rm)))
      (fun r => rfl) (insSortQ GRow.strike g0)
  · exact getCol_typed gbCols (codes "is_put_wall") 7 (by decide)
      (encFin spot (decide (0 < (u0.map GRow.gex).foldl max a0.gex))
        (decide ((u0.map GRow.gex).foldl min a0.gex < 0)) rm rn)
      (fun p => Val.bool
        (decide ((u0.map GRow.gex).foldl min a0.gex < 0) && decide (p = rn)))
      (fun r => rfl) (insSortQ GRow.strike g0)
  · constructor
    · intro hMp
      have hrm_mem : rm ∈ insSortQ GRow.strike g0 :=
        (insSortQ_perm GRow.strike g0).mem_iff.mpr
          (by rw [hsp1]; exact List.mem_append.mpr (Or.inr (List.mem_cons_self _ _)))
      obtain ⟨s1, s2, hss⟩ := List.append_of_mem hrm_mem
      have hsd : (insSortQ GRow.strike g0).Pairwise (fun x y => x ≠ y) :=
        (List.Perm.pairwise_iff (fun h => Ne.symm h)
          (insSortQ_perm GRow.strike g0)).mpr hg0d
      rw [hss] at hsd
      rw [List.pairwise_append] at hsd
      have hq1 : ∀ x ∈ s1, x ≠ rm := fun x hx => hsd.2.2 x hx rm (List.mem_cons_self _ _)
      refine ⟨s1.length, ?_, ?_, ?_⟩
      · rw [hss, List.length_map, List.length_append, List.length_cons]
        omega
      · rw [hss, List.map_append, List.map_cons,
          show s1.length = (s1.map GRow.gex).length from (List.length_map _ _).symm]
        rw [getD_append_len]
        exact hgrm
      · rw [hss, List.map_append, List.map_cons]
        rw [show (Val.bool (decide (0 < (u0.map GRow.gex).foldl max a0.gex)
            && decide (rm = rm))) = Val.bool true from by simp [hMp]]
        rw [List.map_congr_left (fun x hx => by simp [hq1 x hx] : ∀ x ∈ s1,
          (fun p => Val.bool (decide (0 < (u0.map GRow.gex).foldl max a0.gex)
            && decide (p = rm))) x = (fun _ => Val.bool false) x)]
        rw [List.map_congr_left (fun x hx => by
            simp [Ne.symm ((List.pairwise_cons.mp hsd.2.1).1 x hx)] : ∀ x ∈ s2,
          (fun p => Val.bool (decide (0 < (u0.map GRow.gex).foldl max a0.gex)
            && decide (p = rm))) x = (fun _ => Val.bool false) x)]
        rw [List.map_const', List.map_const']
        rw [show ((s1 ++ rm :: s2).map GRow.gex).length
            = s1.length + (s2.length + 1) from by
          simp only [List.length_map, List.length_append, List.length_cons]]
        rw [replicate_set_split]
    · intro hMp
      rw [List.map_congr_left (fun x _ => by simp [hMp] : ∀ x ∈ insSortQ GRow.strike g0,
        (fun p => Val.bool (decide (0 < (u0.map GRow.gex).foldl max a0.gex)
          && decide (p = rm))) x = (fun _ => Val.bool false) x)]
      rw [List.map_const', List.length_map]
  · constructor
    · intro hmp
      have hrn_mem : rn ∈ insSortQ GRow.strike g0 :=
        (insSortQ_perm GRow.strike g0).mem_iff.mpr
          (by rw [hsp2]; exact List.mem_append.mpr (Or.inr (List.mem_cons_self _ _)))
      obtain ⟨t1, t2, hst⟩ := List.append_of_mem hrn_mem
      have hsd : (insSortQ GRow.strike g0).Pairwise (fun x y => x ≠ y) :=
        (List.Perm.pairwise_iff (fun h => Ne.symm h)
          (insSortQ_perm GRow.strike g0)).mpr hg0d
      rw [hst] at hsd
      rw [List.pairwise_append] at hsd
      have hq1 : ∀ x ∈ t1, x ≠ rn := fun x hx => hsd.2.2 x hx rn (List.mem_cons_self _ _)
      refine ⟨t1.length, ?_, ?_, ?_⟩
      · rw [hst, List.length_map, List.length_append, List.length_cons]
        omega
      · rw [hst, List.map_append, List.map_cons,
          show t1.length = (t1.map GRow.gex).length from (List.length_map _ _).symm]
        rw [getD_append_len]
        exact hgrn
      · rw [hst, List.map_append, List.map_cons]
        rw [show (Val.bool (decide ((u0.map GRow.gex).foldl min a0.gex < 0)
            && decide (rn = rn))) = Val.bool true from by simp [hmp]]
        rw [List.map_congr_left (fun x hx => by simp [hq1 x hx] : ∀ x ∈ t1,
          (fun p => Val.bool (decide ((u0.map GRow.gex).foldl min a0.gex < 0)
            && decide (p = rn))) x = (fun _ => Val.bool false) x)]
        rw [List.map_congr_left (fun x hx => by
            simp [Ne.symm ((List.pairwise_cons.mp hsd.2.1).1 x hx)] : ∀ x ∈ t2,
          (fun p => Val.bool (decide ((u0.map GRow.gex).foldl min a0.gex < 0)
            && decide (p = rn))) x = (fun _ => Val.bool false) x)]
        rw [List.map_const', List.map_const']
        rw [show ((t1 ++ rn :: t2).map GRow.gex).length
            = t1.length + (t2.length + 1) from by
          simp only [List.length_map, List.length_append, List.length_cons]]
        rw [replicate_set_split]
    · intro hmp
      rw [List.map_congr_left (fun x _ => by simp [hmp] : ∀ x ∈ insSortQ GRow.strike g0,
        (fun p => Val.bool (decide ((u0.map GRow.gex).foldl min a0.gex < 0)
          && decide (p = rn))) x = (fun _ => Val.bool false) x)]
      rw [List.map_const', List.length_map]

/-- Witness for c5_gex_walls: the table of the spec's example, per-strike
gex values 100 ↦ +5e9, 105 ↦ +2e9, 95 ↦ −3e9, has distinct strikes, and
wall detection marks exactly one call wall and one put wall on it. -/
theorem c5_witness :
    ((([⟨100, 5000000000, 0⟩, ⟨105, 2000000000, 0⟩,
          ⟨95, -3000000000, 0⟩] : List GRow)) ≠ []
      ∧ ((([⟨100, 5000000000, 0⟩, ⟨105, 2000000000, 0⟩,
          ⟨95, -3000000000, 0⟩] : List GRow)).map GRow.strike).Pairwise (· ≠ ·))
    ∧ ∃ (out : DF) (M m : ℚ) (scol gcol : List ℚ) (sflags pflags : List Val),
      gexWalls (DF.mk gbCols ((([⟨100, 5000000000, 0⟩, ⟨105, 2000000000, 0⟩,
          ⟨95, -3000000000, 0⟩] : List GRow)).map (encGB 100))) = .ok out ∧
      listMax ((([⟨100, 5000000000, 0⟩, ⟨105, 2000000000, 0⟩,
          ⟨95, -3000000000, 0⟩] : List GRow)).map GRow.gex) = some M ∧
      listMin ((([⟨100, 5000000000, 0⟩, ⟨105, 2000000000, 0⟩,
          ⟨95, -3000000000, 0⟩] : List GRow)).map GRow.gex) = some m ∧
      out.getCol (codes "strike") = .ok (scol.map Val.num) ∧
      scol.Pairwise (· < ·) ∧
      scol.Perm ((([⟨100, 5000000000, 0⟩, ⟨105, 2000000000, 0⟩,
          ⟨95, -3000000000, 0⟩] : List GRow)).map GRow.strike) ∧
      out.getCol (codes "gex") = .ok (gcol.map Val.num) ∧
      out.getCol (codes "is_call_wall") = .ok sflags ∧
      out.getCol (codes "is_put_wall") = .ok pflags ∧
      ((0 < M → ∃ j, j < gcol.length ∧ gcol.getD j 0 = M ∧
          sflags = (List.replicate gcol.length (Val.bool false)).set j (Val.bool true))
        ∧ (¬ 0 < M → sflags = List.replicate gcol.length (Val.bool false)))
      ∧ ((m < 0 → ∃ j, j < gcol.length ∧ gcol.getD j 0 = m ∧
          pflags = (List.replicate gcol.length (Val.bool false)).set j (Val.bool true))
        ∧ (¬ m < 0 → pflags = List.replicate gcol.length (Val.bool false))) :=
  ⟨⟨by decide, by decide⟩, c5_gex_walls 100 _ (by decide) (by decide)⟩

/-! C7: idempotence of `normalize_columns`. Stage decomposition of the
normalizer, fixpoint analysis, and transport of the per-column invariants
through the stages. -/

theorem getD_set_lt {α : Type} (v d : α) :
    ∀ (l : List α) (i : Nat), i < l.length → (l.set i v).getD i d = v := by
  intro l
  induction l with
  | nil => intro i h; simp at h
  | cons a t ih =>
      intro i h
      cases i with
      | zero => rfl
      | succ j => exact ih j (by simpa using h)

theorem getD_set_ne {α : Type} (v d : α) :
    ∀ (l : List α) (i j : Nat), i ≠ j → (l.set i v).getD j d = l.getD j d := by
  intro l
  induction l with
  | nil => intro i j _; rfl
  | cons a t ih =>
      intro i j hne
      cases i with
      | zero =>
          cases j with
          | zero => exact absurd rfl hne
          | succ k => rfl
      | succ i2 =>
          cases j with
          | zero => rfl
          | succ k => exact ih i2 k (fun e => hne (by rw [e]))

theorem set_getD_self {α : Type} (d : α) :
    ∀ (l : List α) (i : Nat), i < l.length → l.set i (l.getD i d) = l := by
  intro l
  induction l with
  | nil => intro i h; simp at h
  | cons a t ih =>
      intro i h
      cases i with
      | zero => rfl
      | succ j =>
          show a :: t.set j (t.getD j d) = a :: t
          rw [ih j (by simpa using h)]

theorem findIdx?_getD {α : Type} (d : α) {p : α → Bool} :
    ∀ {l : List α} {s i : Nat}, List.findIdx? p l s = some i →
      p (l.getD (i - s) d) = true := by
  intro l
  induction l with
  | nil => intro s i h; simp [List.findIdx?_nil] at h
  | cons a t ih =>
      intro s i h
      rw [List.findIdx?_cons] at h
      by_cases hp : p a = true
      · rw [if_pos hp] at h
        cases h
        simpa [Nat.sub_self] using hp
      · rw [if_neg hp] at h
        have hb := findIdx?_lt_length h
        have ht := ih h
        rw [show i - s = (i - (s + 1)) + 1 from by omega]
        simpa using ht

theorem colIdx_lt (df : DF) (n : List Nat) (i : Nat) (h : df.colIdx n = some i) :
    i < df.cols.length := by
  have hb := findIdx?_lt_length (p := fun c => decide (c = n)) h
  simpa using hb.2

theorem colIdx_name (df : DF) (n : List Nat) (i : Nat) (h : df.colIdx n = some i) :
    df.cols.getD i [] = n := by
  have hg := findIdx?_getD [] (p := fun c => decide (c = n)) h
  simpa using hg

theorem colIdx_ne (df : DF) (n1 n2 : List Nat) (i j : Nat) (h1 : df.colIdx n1 = some i)
    (h2 : df.colIdx n2 = some j) (hn : n1 ≠ n2) : i ≠ j := by
  intro e
  apply hn
  rw [← colIdx_name df n1 i h1, ← colIdx_name df n2 j h2, e]

theorem colIdx_congr (a b : DF) (n : List Nat) (h : a.cols = b.cols) :
    a.colIdx n = b.colIdx n := by
  rw [DF.colIdx, DF.colIdx, h]

theorem hasCol_congr (a b : DF) (n : List Nat) (h : a.cols = b.cols) :
    a.hasCol n = b.hasCol n := by
  rw [DF.hasCol, DF.hasCol, colIdx_congr a b n h]

theorem bind_eq_ok {γ δ : Type} {x : Except Err γ} {f : γ → Except Err δ} {u : δ}
    (h : x >>= f = .ok u) : ∃ a, x = .ok a ∧ f a = .ok u := by
  cases x with
  | error e => exact absurd h (by simp [Bind.bind, Except.bind])
  | ok a => exact ⟨a, rfl, h⟩

theorem mapM_ok_rel {γ δ : Type} (f : γ → Except Err δ) :
    ∀ (l : List γ) (l2 : List δ), l.mapM f = .ok l2 →
      List.Forall₂ (fun a b => f a = .ok b) l l2 := by
  intro l
  induction l with
  | nil =>
      intro l2 h
      simp only [List.mapM_nil, pure, Except.pure, Except.ok.injEq] at h
      rw [← h]
      exact List.Forall₂.nil
  | cons a t ih =>
      intro l2 h
      rw [List.mapM_cons] at h
      obtain ⟨b, hb, h2⟩ := bind_eq_ok h
      obtain ⟨bs, hbs, h3⟩ := bind_eq_ok h2
      simp only [pure, Except.pure, Except.ok.injEq] at h3
      rw [← h3]
      exact List.Forall₂.cons hb (ih bs hbs)

theorem forall2_mem_right {γ δ : Type} {R : γ → δ → Prop} :
    ∀ {l : List γ} {l2 : List δ}, List.Forall₂ R l l2 → ∀ b ∈ l2, ∃ a ∈ l, R a b := by
  intro l l2 h
  induction h with
  | nil => intro b hb; simp at hb
  | cons hab htl ih =>
      intro b hb
      rcases List.mem_cons.mp hb with rfl | hb2
      · exact ⟨_, List.mem_cons_self _ _, hab⟩
      · obtain ⟨a, ha, hr⟩ := ih b hb2
        exact ⟨a, List.mem_cons_of_mem _ ha, hr⟩

/-- Alias renaming composed with canonicalization is idempotent. -/
theorem renCanon_idem (c : List Nat) :
    renameAlias (canonName (renameAlias (canonName c))) = renameAlias (canonName c) := by
  by_cases h1 : canonName c = codes "vol" ∨ canonName c = codes "size" ∨
      canonName c = codes "daily_volume"
  · rw [show renameAlias (canonName c) = codes "volume" from by rw [renameAlias, if_pos h1]]
    decide
  · by_cases h2 : canonName c = codes "oi" ∨ canonName c = codes "openinterest"
    · rw [show renameAlias (canonName c) = codes "open_interest" from by
        rw [renameAlias, if_neg h1, if_pos h2]]
      decide
    · by_cases h3 : canonName c = codes "type" ∨ canonName c = codes "cp"
      · rw [show renameAlias (canonName c) = codes "right" from by
          rw [renameAlias, if_neg h1, if_neg h2, if_pos h3]]
        decide
      · by_cases h4 : canonName c = codes "exp" ∨ canonName c = codes "expiry"
        · rw [show renameAlias (canonName c) = codes "expiration" from by
            rw [renameAlias, if_neg h1, if_neg h2, if_neg h3, if_pos h4]]
          decide
        · rw [show renameAlias (canonName c) = canonName c from by
            rw [renameAlias, if_neg h1, if_neg h2, if_neg h3, if_neg h4]]
          rw [canonName_idem]
          rw [renameAlias, if_neg h1, if_neg h2, if_neg h3, if_neg h4]

/-- The `right`-value normalization is idempotent. -/
theorem vNormRight_idem (v : Val) : vNormRight (vNormRight v) = vNormRight v := by
  show Val.str (pcReplace (upStrip (pcReplace (upStrip (astypeStr v)))))
    = Val.str (pcReplace (upStrip (astypeStr v)))
  by_cases h1 : upStrip (astypeStr v) = codes "P"
  · rw [h1]
    decide
  · by_cases h2 : upStrip (astypeStr v) = codes "C"
    · rw [h2]
      decide
    · rw [show pcReplace (upStrip (astypeStr v)) = upStrip (astypeStr v) from by
        rw [pcReplace, if_neg h1, if_neg h2]]
      rw [upStrip_idem]
      rw [pcReplace, if_neg h1, if_neg h2]

/-- The datetime coercion is idempotent. -/
theorem toDT_idem (v : Val) : toDT (toDT v) = toDT v := by
  match v with
  | .date d => rfl
  | .null => rfl
  | .bool _ => rfl
  | .num q =>
      show toDT (if q.den = 1 then (match parseYyyymmdd q.num with
          | some d => Val.date d | none => Val.null) else Val.null)
        = (if q.den = 1 then (match parseYyyymmdd q.num with
          | some d => Val.date d | none => Val.null) else Val.null)
      by_cases h : q.den = 1
      · rw [if_pos h]
        cases parseYyyymmdd q.num <;> rfl
      · rw [if_neg h]
        rfl
  | .str s =>
      show toDT (match parseDateCodes s with
        | some d => Val.date d | none => Val.null)
        = (match parseDateCodes s with
        | some d => Val.date d | none => Val.null)
      cases parseDateCodes s <;> rfl

/-- The column-renaming stage of `normalize_columns`. -/
def stRename (df : DF) : DF :=
  { df with cols := df.cols.map (fun c => renameAlias (canonName c)) }

/-- The `right`-normalization stage of `normalize_columns`. -/
def stRight (df : DF) : DF :=
  if df.hasCol (codes "right") then df.mapCol (codes "right") vNormRight else df

/-- The `implied_vol` → `iv_pct` stage of `normalize_columns`. -/
def stIV (df : DF) : Except Err DF :=
  if df.hasCol (codes "implied_vol") && !(df.hasCol (codes "iv_pct")) then do
    let col ← df.getCol (codes "implied_vol")
    let col2 ← col.mapM vMulHundred
    pure (df.setCol (codes "iv_pct") col2)
  else pure df

/-- The milli-strike division stage of `normalize_columns`. -/
def stStrike (df : DF) : Except Err DF :=
  if df.hasCol (codes "strike") && !df.isEmpty then do
    let scol ← df.getCol (codes "strike")
    let mx ← colMaxQ scol
    match mx with
    | some m =>
        if m > 10000 then df.mapColE (codes "strike") (fun v => vDivQ v 1000)
        else pure df
    | none => pure df
  else pure df

/-- The date-coercion stage of `normalize_columns`. -/
def stDate (df : DF) : DF :=
  if df.hasCol (codes "date") then df.mapCol (codes "date") toDT else df

/-- Rows all match the column list in length (a pandas frame is
rectangular). -/
def rectangular (df : DF) : Prop := ∀ r ∈ df.rows, r.length = df.cols.length

/-- Every cell of one column is a fixpoint of `f`, and lies inside its row. -/
def colFixed (df : DF) (n : List Nat) (f : Val → Val) : Prop :=
  ∀ i, df.colIdx n = some i → ∀ r ∈ df.rows, i < r.length ∧ f (cellAt r i) = cellAt r i

theorem mapCol_cols (d : DF) (n : List Nat) (f : Val → Val) :
    (d.mapCol n f).cols = d.cols := by
  cases hc : d.colIdx n <;> simp [DF.mapCol, hc]

/-- `mapCol` is the identity on a column whose cells are all fixpoints. -/
theorem mapCol_fix (df : DF) (n : List Nat) (f : Val → Val) (h : colFixed df n f) :
    df.mapCol n f = df := by
  cases hc : df.colIdx n with
  | none => simp only [DF.mapCol, hc]
  | some i =>
      simp only [DF.mapCol, hc]
      have hrows : ∀ r ∈ df.rows, r.set i (f (cellAt r i)) = id r := by
        intro r hr
        rw [(h i hc r hr).2]
        exact set_getD_self Val.null r i (h i hc r hr).1
      rw [List.map_congr_left hrows, List.map_id]

theorem stRight_cols (d : DF) : (stRight d).cols = d.cols := by
  rw [stRight]
  split
  · exact mapCol_cols d _ vNormRight
  · rfl

theorem stRight_rows_len (d : DF) : (stRight d).rows.length = d.rows.length := by
  rw [stRight]
  split
  · cases hc : d.colIdx (codes "right") <;> simp [DF.mapCol, hc]
  · rfl

theorem stRight_rect (d : DF) (h : rectangular d) : rectangular (stRight d) := by
  intro r hr
  rw [stRight_cols]
  rw [stRight] at hr
  split at hr
  · cases hc : d.colIdx (codes "right") with
    | none => rw [DF.mapCol, hc] at hr; exact h r hr
    | some i =>
        rw [DF.mapCol, hc] at hr
        obtain ⟨r0, hr0, rfl⟩ := List.mem_map.mp hr
        rw [List.length_set]
        exact h r0 hr0
  · exact h r hr

theorem stRight_fixed (d : DF) (h : rectangular d) :
    colFixed (stRight d) (codes "right") vNormRight := by
  intro i hi r hr
  have hci : d.colIdx (codes "right") = some i := by
    rw [← colIdx_congr (stRight d) d _ (stRight_cols d)]
    exact hi
  rw [stRight, if_pos (by rw [DF.hasCol, hci]; rfl)] at hr
  rw [DF.mapCol, hci] at hr
  obtain ⟨r0, hr0, rfl⟩ := List.mem_map.mp hr
  have hlt : i < r0.length := by
    rw [h r0 hr0]
    exact colIdx_lt d _ i hci
  constructor
  · rw [List.length_set]
    exact hlt
  · rw [show cellAt (r0.set i (vNormRight (cellAt r0 i))) i = vNormRight (cellAt r0 i) from
      getD_set_lt _ _ r0 i hlt]
    exact vNormRight_idem _

/-- Outcomes of the `implied_vol` stage. -/
theorem stIV_cases (d d' : DF) (h : stIV d = .ok d') :
    (d' = d ∧ (d.hasCol (codes "implied_vol") && !(d.hasCol (codes "iv_pct"))) = false) ∨
    (∃ col2, d.colIdx (codes "iv_pct") = none ∧ col2.length = d.rows.length ∧
      d' = d.setCol (codes "iv_pct") col2) := by
  rw [stIV] at h
  split at h
  · rename_i hcond
    obtain ⟨col, hcol, h2⟩ := bind_eq_ok h
    obtain ⟨col2, hcol2, h3⟩ := bind_eq_ok h2
    simp only [pure, Except.pure, Except.ok.injEq] at h3
    right
    refine ⟨col2, ?_, ?_, h3.symm⟩
    · have hfalse : d.hasCol (codes "iv_pct") = false := by
        rcases Bool.and_eq_true_iff.mp hcond with ⟨_, hb⟩
        simpa using hb
      rw [DF.hasCol] at hfalse
      cases hcc : d.colIdx (codes "iv_pct") with
      | none => rfl
      | some k => rw [hcc] at hfalse; simp at hfalse
    · have hlc : col.length = d.rows.length := by
        cases hci : d.colIdx (codes "implied_vol") with
        | none => rw [DF.getCol, hci] at hcol; exact absurd hcol (by simp)
        | some k =>
            rw [DF.getCol, hci] at hcol
            injection hcol with hcol
            rw [← hcol, List.length_map]
      rw [← hlc]
      exact ((mapM_ok_rel vMulHundred col col2 hcol2).length_eq).symm
  · rename_i hcond
    left
    refine ⟨?_, ?_⟩
    · simp only [pure, Except.pure, Except.ok.injEq] at h
      exact h.symm
    · cases hx : (d.hasCol (codes "implied_vol") && !(d.hasCol (codes "iv_pct"))) with
      | false => rfl
      | true => exact absurd hx hcond

theorem setCol_absent_cols (d : DF) (n : List Nat) (vs : List Val)
    (h : d.colIdx n = none) : (d.setCol n vs).cols = d.cols ++ [n] := by
  rw [DF.setCol, h]

theorem setCol_absent_rows (d : DF) (n : List Nat) (vs : List Val)
    (h : d.colIdx n = none) :
    (d.setCol n vs).rows = (d.rows.zip vs).map (fun p => p.1 ++ [p.2]) := by
  rw [DF.setCol, h]

theorem stIV_cols (d d' : DF) (h : stIV d = .ok d') :
    d'.cols = d.cols ∨ d'.cols = d.cols ++ [codes "iv_pct"] := by
  rcases stIV_cases d d' h with ⟨rfl, _⟩ | ⟨col2, hnone, _, rfl⟩
  · exact Or.inl rfl
  · exact Or.inr (setCol_absent_cols d _ col2 hnone)

theorem stIV_rows_len (d d' : DF) (h : stIV d = .ok d') :
    d'.rows.length = d.rows.length := by
  rcases stIV_cases d d' h with ⟨rfl, _⟩ | ⟨col2, hnone, hlen, rfl⟩
  · rfl
  · rw [setCol_absent_rows d _ col2 hnone, List.length_map, List.length_zip, hlen,
      Nat.min_self]

theorem stIV_rect (d d' : DF) (hrect : rectangular d) (h : stIV d = .ok d') :
    rectangular d' := by
  rcases stIV_cases d d' h with ⟨rfl, _⟩ | ⟨col2, hnone, hlen, rfl⟩
  · exact hrect
  · intro r hr
    rw [setCol_absent_rows d _ col2 hnone] at hr
    obtain ⟨⟨r0, v⟩, hz, rfl⟩ := List.mem_map.mp hr
    have hm := List.mem_zip hz
    rw [setCol_absent_cols d _ col2 hnone]
    simp only [List.length_append, List.length_cons, List.length_nil]
    rw [hrect r0 hm.1]

theorem stIV_fixed (d d' : DF) (hrect : rectangular d) (h : stIV d = .ok d')
    (hf : colFixed d (codes "right") vNormRight) :
    colFixed d' (codes "right") vNormRight := by
  rcases stIV_cases d d' h with ⟨rfl, _⟩ | ⟨col2, hnone, hlen, rfl⟩
  · exact hf
  · intro i hi r hr
    have hci : d.colIdx (codes "right") = some i := by
      rw [DF.colIdx] at hi ⊢
      rw [setCol_absent_cols d _ col2 hnone] at hi
      cases hcc : List.findIdx? (fun c => decide (c = codes "right")) d.cols with
      | none =>
          rw [findIdx?_append_one_none hcc (by decide)] at hi
          exact absurd hi (by simp)
      | some k =>
          rw [findIdx?_append_left hcc] at hi
          exact hi
    rw [setCol_absent_rows d _ col2 hnone] at hr
    obtain ⟨⟨r0, v⟩, hz, rfl⟩ := List.mem_map.mp hr
    have hm := List.mem_zip hz
    obtain ⟨hlt, hfix⟩ := hf i hci r0 hm.1
    constructor
    · simp only [List.length_append, List.length_cons, List.length_nil]
      omega
    · rw [show cellAt (r0 ++ [v]) i = cellAt r0 i from cellAt_append_left hlt]
      exact hfix

/-- Outcomes of the strike stage. -/
theorem stStrike_cases (d d' : DF) (h : stStrike d = .ok d') :
    d' = d ∨ ∃ i, d.colIdx (codes "strike") = some i ∧ d'.cols = d.cols ∧
      List.Forall₂ (fun r r' => ∃ v, vDivQ (cellAt r i) 1000 = .ok v ∧ r' = r.set i v)
        d.rows d'.rows := by
  rw [stStrike] at h
  split at h
  · obtain ⟨scol, hscol, h2⟩ := bind_eq_ok h
    obtain ⟨mx, hmx, h3⟩ := bind_eq_ok h2
    cases mx with
    | none =>
        left
        simp only [pure, Except.pure, Except.ok.injEq] at h3
        exact h3.symm
    | some m =>
        have h3' : (if m > 10000 then d.mapColE (codes "strike") (fun v => vDivQ v 1000)
            else pure d) = Except.ok d' := h3
        split at h3'
        · right
          cases hci : d.colIdx (codes "strike") with
          | none =>
              rw [DF.mapColE, hci] at h3'
              exact absurd h3' (by simp)
          | some i =>
              rw [DF.mapColE, hci] at h3'
              obtain ⟨rows2, hm2, h4⟩ := bind_eq_ok h3'
              simp only [pure, Except.pure, Except.ok.injEq] at h4
              refine ⟨i, rfl, ?_, ?_⟩
              · rw [← h4]
              · rw [← h4]
                exact (mapM_ok_rel _ _ _ hm2).imp (fun r r2 hx => by
                  obtain ⟨v, hv, hp⟩ := bind_eq_ok hx
                  simp only [pure, Except.pure, Except.ok.injEq] at hp
                  exact ⟨v, hv, hp.symm⟩)
        · left
          simp only [pure, Except.pure, Except.ok.injEq] at h3'
          exact h3'.symm
  · left
    simp only [pure, Except.pure, Except.ok.injEq] at h
    exact h.symm

theorem stStrike_cols (d d' : DF) (h : stStrike d = .ok d') : d'.cols = d.cols := by
  rcases stStrike_cases d d' h with rfl | ⟨i, _, hcols, _⟩
  · rfl
  · exact hcols

theorem stStrike_rows_len (d d' : DF) (h : stStrike d = .ok d') :
    d'.rows.length = d.rows.length := by
  rcases stStrike_cases d d' h with rfl | ⟨i, _, _, hfa⟩
  · rfl
  · exact hfa.length_eq.symm

theorem stStrike_rect (d d' : DF) (hrect : rectangular d) (h : stStrike d = .ok d') :
    rectangular d' := by
  rcases stStrike_cases d d' h with rfl | ⟨i, hci, hcols, hfa⟩
  · exact hrect
  · intro r' hr'
    obtain ⟨r, hr, hx⟩ := forall2_mem_right hfa r' hr'
    obtain ⟨v, hv, hp⟩ := hx
    subst hp
    rw [List.length_set, hcols]
    exact hrect r hr

theorem stStrike_fixed (d d' : DF) (h : stStrike d = .ok d')
    (hf : colFixed d (codes "right") vNormRight) :
    colFixed d' (codes "right") vNormRight := by
  rcases stStrike_cases d d' h with rfl | ⟨i, hci, hcols, hfa⟩
  · exact hf
  · intro j hj r' hr'
    have hj' : d.colIdx (codes "right") = some j := by
      rw [← colIdx_congr d' d _ hcols]
      exact hj
    have hne : i ≠ j := colIdx_ne d _ _ i j hci hj' (by decide)
    obtain ⟨r, hr, hx⟩ := forall2_mem_right hfa r' hr'
    obtain ⟨v, hv, hp⟩ := hx
    subst hp
    obtain ⟨hlt, hfix⟩ := hf j hj' r hr
    constructor
    · rw [List.length_set]
      exact hlt
    · rw [show cellAt (r.set i v) j = cellAt r j from getD_set_ne v Val.null r i j hne]
      exact hfix

theorem stDate_cols (d : DF) : (stDate d).cols = d.cols := by
  rw [stDate]
  split
  · exact mapCol_cols d _ toDT
  · rfl

theorem stDate_rows_len (d : DF) : (stDate d).rows.length = d.rows.length := by
  rw [stDate]
  split
  · cases hc : d.colIdx (codes "date") <;> simp [DF.mapCol, hc]
  · rfl

theorem stDate_rect (d : DF) (h : rectangular d) : rectangular (stDate d) := by
  intro r hr
  rw [stDate_cols]
  rw [stDate] at hr
  split at hr
  · cases hc : d.colIdx (codes "date") with
    | none => rw [DF.mapCol, hc] at hr; exact h r hr
    | some i =>
        rw [DF.mapCol, hc] at hr
        obtain ⟨r0, hr0, rfl⟩ := List.mem_map.mp hr
        rw [List.length_set]
        exact h r0 hr0
  · exact h r hr

theorem stDate_fixed_date (d : DF) (hrect : rectangular d) :
    colFixed (stDate d) (codes "date") toDT := by
  intro i hi r hr
  have hci : d.colIdx (codes "date") = some i := by
    rw [← colIdx_congr (stDate d) d _ (stDate_cols d)]
    exact hi
  rw [stDate, if_pos (by rw [DF.hasCol, hci]; rfl)] at hr
  rw [DF.mapCol, hci] at hr
  obtain ⟨r0, hr0, rfl⟩ := List.mem_map.mp hr
  have hlt : i < r0.length := by
    rw [hrect r0 hr0]
    exact colIdx_lt d _ i hci
  constructor
  · rw [List.length_set]
    exact hlt
  · rw [show cellAt (r0.set i (toDT (cellAt r0 i))) i = toDT (cellAt r0 i) from
      getD_set_lt _ _ r0 i hlt]
    exact toDT_idem _

theorem stDate_fixed_right (d : DF) (hf : colFixed d (codes "right") vNormRight) :
    colFixed (stDate d) (codes "right") vNormRight := by
  intro j hj r hr
  have hj' : d.colIdx (codes "right") = some j := by
    rw [← colIdx_congr (stDate d) d _ (stDate_cols d)]
    exact hj
  rw [stDate] at hr
  split at hr
  · cases hc : d.colIdx (codes "date") with
    | none => rw [DF.mapCol, hc] at hr; exact hf j hj' r hr
    | some k =>
        have hne : k ≠ j := colIdx_ne d _ _ k j hc hj' (by decide)
        rw [DF.mapCol, hc] at hr
        obtain ⟨r0, hr0, rfl⟩ := List.mem_map.mp hr
        obtain ⟨hlt, hfix⟩ := hf j hj' r0 hr0
        constructor
        · rw [List.length_set]
          exact hlt
        · rw [show cellAt (r0.set k (toDT (cellAt r0 k))) j = cellAt r0 j from
            getD_set_ne _ Val.null r0 k j hne]
          exact hfix
  · exact hf j hj' r hr

theorem isEmpty_false_of_lens (df : DF) (h1 : df.rows.length ≠ 0)
    (h2 : df.cols.length ≠ 0) : df.isEmpty = false := by
  rcases df with ⟨C, R⟩
  cases R with
  | nil => simp at h1
  | cons a t =>
      cases C with
      | nil => simp at h2
      | cons c cs => rfl

theorem lens_of_isEmpty_false (df : DF) (h : df.isEmpty = false) :
    df.rows.length ≠ 0 ∧ df.cols.length ≠ 0 := by
  rcases df with ⟨C, R⟩
  rw [DF.isEmpty, Bool.or_eq_false_iff] at h
  constructor
  · cases R with
    | nil => exact absurd h.1 (by simp)
    | cons a t => simp
  · cases C with
    | nil => exact absurd h.2 (by simp)
    | cons c cs => simp

/-- The tail of `normalize_columns` from the strike stage on, as the
do-elaborator joins it into each branch. -/
def stJoin (y : DF) : Except Err DF :=
  if (y.hasCol (codes "strike") && !y.isEmpty) = true then do
    let scol ← y.getCol (codes "strike")
    let mx ← colMaxQ scol
    match mx with
    | some m =>
        if m > 10000 then do
          let z ← y.mapColE (codes "strike") (fun v => vDivQ v 1000)
          pure (if z.hasCol (codes "date") = true then z.mapCol (codes "date") toDT else z)
        else do
          let z ← pure y
          pure (if z.hasCol (codes "date") = true then z.mapCol (codes "date") toDT else z)
    | none => do
        let z ← pure y
        pure (if z.hasCol (codes "date") = true then z.mapCol (codes "date") toDT else z)
  else do
    let z ← pure y
    pure (if z.hasCol (codes "date") = true then z.mapCol (codes "date") toDT else z)

/-- `normalize_columns` in terms of its stages and the joined tail. -/
theorem normalize_join (df : DF) : normalize_columns df =
    if df.isEmpty = true then pure df else
      (if ((stRight (stRename df)).hasCol (codes "implied_vol")
          && !((stRight (stRename df)).hasCol (codes "iv_pct"))) = true then do
        let col ← (stRight (stRename df)).getCol (codes "implied_vol")
        let col2 ← col.mapM vMulHundred
        let y ← pure ((stRight (stRename df)).setCol (codes "iv_pct") col2)
        stJoin y
      else do
        let y ← pure (stRight (stRename df))
        stJoin y) := rfl

/-- Dissect a successful joined tail into the strike stage and date stage. -/
theorem stJoin_dissect (y u : DF) (h : stJoin y = .ok u) :
    ∃ d4, stStrike y = .ok d4 ∧ u = stDate d4 := by
  rw [stJoin] at h
  split at h
  · rename_i hsc
    obtain ⟨scol, hscol, h5⟩ := bind_eq_ok h
    cases hcm : colMaxQ scol with
    | error e =>
        rw [hcm] at h5
        exact absurd h5 (by simp [Bind.bind, Except.bind])
    | ok mx =>
        rw [hcm, bind_ok] at h5
        cases mx with
        | none =>
            have h6 : Except.ok (stDate y) = Except.ok u := h5
            injection h6 with h6
            refine ⟨y, ?_, h6.symm⟩
            rw [stStrike, if_pos hsc, hscol, bind_ok, hcm, bind_ok]
            rfl
        | some m =>
            have h5x : (if m > 10000 then
                (y.mapColE (codes "strike") (fun v => vDivQ v 1000) >>= fun z =>
                  Except.ok (if z.hasCol (codes "date") = true
                    then z.mapCol (codes "date") toDT else z))
                else Except.ok (stDate y)) = Except.ok u := h5
            by_cases hgt : m > 10000
            · rw [if_pos hgt] at h5x
              obtain ⟨d4, hmapE, h7⟩ := bind_eq_ok h5x
              have h8 : Except.ok (stDate d4) = Except.ok u := h7
              injection h8 with h8
              refine ⟨d4, ?_, h8.symm⟩
              rw [stStrike, if_pos hsc, hscol, bind_ok, hcm, bind_ok]
              show (if m > 10000 then y.mapColE (codes "strike") (fun v => vDivQ v 1000)
                else pure y) = Except.ok d4
              rw [if_pos hgt, hmapE]
            · rw [if_neg hgt] at h5x
              injection h5x with h5x
              refine ⟨y, ?_, h5x.symm⟩
              rw [stStrike, if_pos hsc, hscol, bind_ok, hcm, bind_ok]
              show (if m > 10000 then y.mapColE (codes "strike") (fun v => vDivQ v 1000)
                else pure y) = Except.ok y
              rw [if_neg hgt]
              rfl
  · rename_i hsc
    have h6 : Except.ok (stDate y) = Except.ok u := h
    injection h6 with h6
    refine ⟨y, ?_, h6.symm⟩
    rw [stStrike, if_neg hsc]
    rfl

/-- The joined tail is the identity on a table whose strike maximum is in
range and whose date column is already coerced. -/
theorem stJoin_fix (u : DF) (hne : u.isEmpty = false)
    (hstrike : u.hasCol (codes "strike") = false ∨
        (u.getCol (codes "strike") >>= colMaxQ) = .ok none ∨
        ∃ m, (u.getCol (codes "strike") >>= colMaxQ) = .ok (some m) ∧ ¬ m > 10000)
    (hdate : colFixed u (codes "date") toDT) :
    stJoin u = .ok u := by
  have hdfix : (if u.hasCol (codes "date") = true
      then u.mapCol (codes "date") toDT else u) = u := by
    split
    · exact mapCol_fix u _ toDT hdate
    · rfl
  rw [stJoin]
  rcases hstrike with hsc | hok | ⟨m, hok, hm⟩
  · rw [hsc]
    simp only [Bool.false_and, Bool.false_eq_true, if_false]
    show Except.ok (if u.hasCol (codes "date") = true
      then u.mapCol (codes "date") toDT else u) = Except.ok u
    rw [hdfix]
  · obtain ⟨scol, hscol, hmax⟩ := bind_eq_ok hok
    have hhas : u.hasCol (codes "strike") = true := by
      rw [DF.hasCol]
      cases hci : u.colIdx (codes "strike") with
      | none => rw [DF.getCol, hci] at hscol; exact absurd hscol (by simp)
      | some k => rfl
    rw [hhas, hne]
    rw [if_pos (show (true && !false) = true from rfl)]
    rw [hscol, bind_ok, hmax, bind_ok]
    show Except.ok (if u.hasCol (codes "date") = true
      then u.mapCol (codes "date") toDT else u) = Except.ok u
    rw [hdfix]
  · obtain ⟨scol, hscol, hmax⟩ := bind_eq_ok hok
    have hhas : u.hasCol (codes "strike") = true := by
      rw [DF.hasCol]
      cases hci : u.colIdx (codes "strike") with
      | none => rw [DF.getCol, hci] at hscol; exact absurd hscol (by simp)
      | some k => rfl
    rw [hhas, hne]
    rw [if_pos (show (true && !false) = true from rfl)]
    rw [hscol, bind_ok, hmax, bind_ok]
    show (if m > 10000 then
        (u.mapColE (codes "strike") (fun v => vDivQ v 1000) >>= fun z =>
          Except.ok (if z.hasCol (codes "date") = true
            then z.mapCol (codes "date") toDT else z))
        else Except.ok (if u.hasCol (codes "date") = true
          then u.mapCol (codes "date") toDT else u)) = Except.ok u
    rw [if_neg hm, hdfix]

/-- `normalize_columns` fixes any table satisfying the normalized-state
invariants. -/
theorem normalize_fix (u : DF) (hne : u.isEmpty = false)
    (hcols : u.cols.map (fun c => renameAlias (canonName c)) = u.cols)
    (hright : colFixed u (codes "right") vNormRight)
    (hiv : (u.hasCol (codes "implied_vol") && !(u.hasCol (codes "iv_pct"))) = false)
    (hstrike : u.hasCol (codes "strike") = false ∨
        (u.getCol (codes "strike") >>= colMaxQ) = .ok none ∨
        ∃ m, (u.getCol (codes "strike") >>= colMaxQ) = .ok (some m) ∧ ¬ m > 10000)
    (hdate : colFixed u (codes "date") toDT) :
    normalize_columns u = .ok u := by
  have h1 : stRename u = u := by
    rw [stRename, hcols]
  have h2 : stRight u = u := by
    rw [stRight]
    split
    · exact mapCol_fix u _ vNormRight hright
    · rfl
  rw [normalize_join, hne]
  rw [if_neg (by simp)]
  rw [h1, h2]
  rw [hiv]
  rw [if_neg (by simp)]
  show stJoin u = Except.ok u
  exact stJoin_fix u hne hstrike hdate

/-- From a dissected first pass, establish the normalized-state invariants
of the output and conclude that the second pass fixes it. -/
theorem c7_transport (df d3 d4 u : DF)
    (hrect : ∀ r ∈ df.rows, r.length = df.cols.length)
    (hne : df.isEmpty = false)
    (hiv : stIV (stRight (stRename df)) = .ok d3)
    (hstk : stStrike d3 = .ok d4)
    (hu : u = stDate d4)
    (hstrike : u.hasCol (codes "strike") = false ∨
        (u.getCol (codes "strike") >>= colMaxQ) = .ok none ∨
        ∃ m, (u.getCol (codes "strike") >>= colMaxQ) = .ok (some m) ∧ ¬ m > 10000) :
    normalize_columns u = .ok u := by
  subst hu
  have hrect1 : rectangular (stRename df) := by
    intro r hr
    rw [show (stRename df).cols = df.cols.map (fun c => renameAlias (canonName c)) from rfl,
      List.length_map]
    exact hrect r hr
  have hrect2 := stRight_rect _ hrect1
  have hfix2 := stRight_fixed _ hrect1
  have hrect3 := stIV_rect _ _ hrect2 hiv
  have hfix3 := stIV_fixed _ _ hrect2 hiv hfix2
  have hrect4 := stStrike_rect _ _ hrect3 hstk
  have hfix4 := stStrike_fixed _ _ hstk hfix3
  have hfixru := stDate_fixed_right _ hfix4
  have hfixdu := stDate_fixed_date _ hrect4
  have hcols2 : (stRight (stRename df)).cols
      = df.cols.map (fun c => renameAlias (canonName c)) := by
    rw [stRight_cols]
    rfl
  have hcols3 := stIV_cols _ _ hiv
  have hcols4 := stStrike_cols _ _ hstk
  have hcolsu : (stDate d4).cols = d3.cols := by
    rw [stDate_cols, hcols4]
  have hcolsfix : (stDate d4).cols.map (fun c => renameAlias (canonName c))
      = (stDate d4).cols := by
    rcases hcols3 with hc3 | hc3
    · rw [hcolsu, hc3, hcols2, List.map_map]
      exact List.map_congr_left (fun c _ => renCanon_idem c)
    · rw [hcolsu, hc3, hcols2, List.map_append, List.map_map]
      rw [show List.map ((fun c => renameAlias (canonName c))
            ∘ fun c => renameAlias (canonName c)) df.cols
          = List.map (fun c => renameAlias (canonName c)) df.cols from
        List.map_congr_left (fun c _ => renCanon_idem c)]
      rw [show ([codes "iv_pct"].map (fun c => renameAlias (canonName c)))
          = [codes "iv_pct"] from by decide]
  have hpost : ((stDate d4).hasCol (codes "implied_vol")
      && !((stDate d4).hasCol (codes "iv_pct"))) = false := by
    have hd3 : (d3.hasCol (codes "implied_vol") && !(d3.hasCol (codes "iv_pct"))) = false := by
      rcases stIV_cases _ _ hiv with ⟨heq, hcond⟩ | ⟨col2, hnone, hlen, heq⟩
      · rw [heq]
        exact hcond
      · have hivp : d3.hasCol (codes "iv_pct") = true := by
          rw [heq, DF.hasCol, DF.colIdx, setCol_absent_cols _ _ _ hnone]
          rw [findIdx?_append_one_some (by rw [DF.colIdx] at hnone; exact hnone) (by decide)]
          rfl
        rw [hivp]
        simp
    rw [hasCol_congr (stDate d4) d3 (codes "implied_vol") (by rw [stDate_cols, hcols4]),
      hasCol_congr (stDate d4) d3 (codes "iv_pct") (by rw [stDate_cols, hcols4])]
    exact hd3
  have hlens := lens_of_isEmpty_false df hne
  have hrowslen : (stDate d4).rows.length = df.rows.length := by
    rw [stDate_rows_len, stStrike_rows_len _ _ hstk, stIV_rows_len _ _ hiv,
      stRight_rows_len]
    rfl
  have hcolslen : (stDate d4).cols.length ≠ 0 := by
    rw [stDate_cols, hcols4]
    rcases hcols3 with hc3 | hc3 <;> rw [hc3, hcols2]
    · rw [List.length_map]
      exact hlens.2
    · simp only [List.length_append, List.length_map, List.length_cons, List.length_nil]
      omega
  have hneu : (stDate d4).isEmpty = false :=
    isEmpty_false_of_lens _ (by rw [hrowslen]; exact hlens.1) hcolslen
  exact normalize_fix _ hneu hcolsfix hfixru hpost hstrike hfixdu

/-- C7, amended: `normalize_columns` is idempotent on every rectangular
table on which it succeeds whose normalized strike column (when present and
numeric) has its maximum at most 10,000 — equivalently, the milli-strike
division fires at most once; `c7_counterexample` shows strikes above
10,000,000 are divided again on a second pass. -/
theorem c7_amended (df u : DF)
    (hrect : ∀ r ∈ df.rows, r.length = df.cols.length)
    (h : normalize_columns df = .ok u)
    (hstrike : u.hasCol (codes "strike") = false ∨
        (u.getCol (codes "strike") >>= colMaxQ) = .ok none ∨
        ∃ m, (u.getCol (codes "strike") >>= colMaxQ) = .ok (some m) ∧ ¬ m > 10000) :
    normalize_columns u = .ok u := by
  rw [normalize_join] at h
  by_cases he : df.isEmpty = true
  · rw [if_pos he] at h
    simp only [pure, Except.pure, Except.ok.injEq] at h
    subst h
    rw [normalize_join, if_pos he]
    rfl
  · have he2 : df.isEmpty = false := by
      cases hb : df.isEmpty
      · rfl
      · exact absurd hb he
    rw [if_neg he] at h
    split at h
    · rename_i hcond
      obtain ⟨col, hcol, h2⟩ := bind_eq_ok h
      obtain ⟨col2, hcol2, h3⟩ := bind_eq_ok h2
      have h4 : stJoin ((stRight (stRename df)).setCol (codes "iv_pct") col2)
          = Except.ok u := h3
      obtain ⟨d4, hstk, hu⟩ := stJoin_dissect _ u h4
      have hivok : stIV (stRight (stRename df))
          = .ok ((stRight (stRename df)).setCol (codes "iv_pct") col2) := by
        rw [stIV, if_pos hcond, hcol, bind_ok, hcol2, bind_ok]
        rfl
      exact c7_transport df _ d4 u hrect he2 hivok hstk hu hstrike
    · rename_i hcond
      have h4 : stJoin (stRight (stRename df)) = Except.ok u := h
      obtain ⟨d4, hstk, hu⟩ := stJoin_dissect _ u h4
      have hivok : stIV (stRight (stRename df)) = .ok (stRight (stRename df)) := by
        rw [stIV, if_neg hcond]
        rfl
      exact c7_transport df _ d4 u hrect he2 hivok hstk hu hstrike

unseal Rat.add Rat.mul Rat.sub Rat.inv in
/-- Witness for c7_amended: a one-row strike table at 5000 (at most 10,000
after normalization) is rectangular, normalizes to itself, and a second
pass fixes it. -/
theorem c7_amended_witness :
    ((∀ r ∈ (DF.mk [codes "strike"] [[Val.num 5000]]).rows,
        r.length = (DF.mk [codes "strike"] [[Val.num 5000]]).cols.length)
      ∧ normalize_columns (DF.mk [codes "strike"] [[Val.num 5000]])
          = .ok (DF.mk [codes "strike"] [[Val.num 5000]])
      ∧ ((DF.mk [codes "strike"] [[Val.num 5000]]).hasCol (codes "strike") = false ∨
          ((DF.mk [codes "strike"] [[Val.num 5000]]).getCol (codes "strike") >>= colMaxQ)
            = .ok none ∨
          ∃ m, ((DF.mk [codes "strike"] [[Val.num 5000]]).getCol (codes "strike") >>= colMaxQ)
            = .ok (some m) ∧ ¬ m > 10000))
    ∧ normalize_columns (DF.mk [codes "strike"] [[Val.num 5000]])
        = .ok (DF.mk [codes "strike"] [[Val.num 5000]]) :=
  ⟨⟨by decide, by decide, Or.inr (Or.inr ⟨5000, by decide, by decide⟩)⟩,
    c7_amended (DF.mk [codes "strike"] [[Val.num 5000]])
      (DF.mk [codes "strike"] [[Val.num 5000]]) (by decide) (by decide)
      (Or.inr (Or.inr ⟨5000, by decide, by decide⟩))⟩

